import Mathlib

/-! # Camera service: registry, producer loop and frame distributor

A shallow embedding of `camera-service/service/service.go`,
`camera-service/source/source.go` and `camera-service/types/types.go`.

Go pointers and channels are references into explicit stores kept in `World`:
`heap` holds the `VideoSource` objects, `chans` the channels.  A reference is
the index of the object in its store, so an allocation appends to the store.
Goroutines are records in `producers` and `distributors`; the scheduler is the
list of `Event`s given to `run`, so every interleaving is some event list.
-/

namespace Camera

/-! ## types.go -/

/-- FrameData of `types.go`.  `ID` is an `int64`, kept in range by `wrapInt64`;
`Timestamp` is the reading of the clock, `Data` the JPEG bytes. -/
structure FrameData where
  ID : Int
  Timestamp : Nat
  Data : List Nat
  Source : String
deriving DecidableEq, Repr

/-- SourceConfig of `types.go`; the field `Type` is called `Typ` here. -/
structure SourceConfig where
  Typ : String
  URI : String
deriving DecidableEq, Repr

/-- SourceInfo of `types.go`. -/
structure SourceInfo where
  ID : String
  Typ : String
  URI : String
  IsStreaming : Bool
deriving DecidableEq, Repr

/-! ## Channels -/

/-- A buffered Go channel of `FrameData`.  `sent` lists every frame ever
enqueued, oldest first, and `rcvd` counts the frames already dequeued, so the
buffer is `sent.drop rcvd`. -/
structure Chan where
  cap : Nat
  sent : List FrameData
  rcvd : Nat
  closed : Bool
deriving DecidableEq, Repr

/-- The channel made by `make(chan types.FrameData, cap)`. -/
def Chan.make (cap : Nat) : Chan :=
  { cap := cap, sent := [], rcvd := 0, closed := false }

/-- The frames waiting in the buffer, oldest first. -/
def Chan.buf (c : Chan) : List FrameData := c.sent.drop c.rcvd

/-- Go's `len(c)`. -/
def Chan.len (c : Chan) : Nat := c.sent.length - c.rcvd

/-- Outcome of `select { case c <- f: ... default: ... }`. -/
inductive SendResult where
  | sent (c : Chan)
  | full
  | panic
deriving DecidableEq, Repr

/-- Non-blocking send: a send on a closed channel panics, a send on a channel
with room enqueues at the tail, and otherwise the `default` branch runs. -/
def Chan.trySend (c : Chan) (f : FrameData) : SendResult :=
  if c.closed then .panic
  else if c.len < c.cap then .sent { c with sent := c.sent ++ [f] }
  else .full

/-- Go's `close(c)`: closing a closed channel panics (`none`). -/
def Chan.close (c : Chan) : Option Chan :=
  if c.closed then none else some { c with closed := true }

/-- Outcome of a receive `frame, ok := <-c`. -/
inductive RecvResult where
  | frame (f : FrameData) (c : Chan)
  | closed
  | blocked
deriving DecidableEq, Repr

/-- Receive: the oldest buffered frame if there is one, also on a closed
channel; `ok = false` once a closed channel is drained; blocks otherwise. -/
def Chan.recv (c : Chan) : RecvResult :=
  match c.buf with
  | f :: _ => .frame f { c with rcvd := c.rcvd + 1 }
  | [] => if c.closed then .closed else .blocked

/-! ## Go maps with string keys -/

/-- Map lookup `m[k]` with the `ok` flag. -/
def mapGet {α : Type} : List (String × α) → String → Option α
  | [], _ => none
  | (k', v) :: m, k => if k' = k then some v else mapGet m k

/-- Map assignment `m[k] = v`. -/
def mapSet {α : Type} : List (String × α) → String → α → List (String × α)
  | [], k, v => [(k, v)]
  | (k', v') :: m, k, v => if k' = k then (k, v) :: m else (k', v') :: mapSet m k v

/-- Go's `delete(m, k)`. -/
def mapDelete {α : Type} : List (String × α) → String → List (String × α)
  | [], _ => []
  | (k', v') :: m, k => if k' = k then mapDelete m k else (k', v') :: mapDelete m k

/-! ## source.go -/

/-- State of a `gocv.VideoCapture` that matters to the service: the frame
position and whether `Close` was called. -/
structure VideoCapture where
  posFrames : Nat
  closed : Bool
deriving DecidableEq, Repr

/-- VideoSource of `source.go`.  `frames` is a reference into `World.chans`,
`capture` is `none` for a nil pointer, `closeOnce` tells whether the
`sync.Once` has fired. -/
structure VideoSource where
  config : SourceConfig
  capture : Option VideoCapture
  isActive : Bool
  frames : Nat
  closeOnce : Bool
deriving DecidableEq, Repr

/-- The capture backend (gocv), external to the repository: whether
`OpenVideoCapture` succeeds on a path or on a device number, and what
`fmt.Sscanf(uri, "%d", &deviceID)` scans (`none` leaves `deviceID` at 0). -/
structure Backend where
  openPath : String → Bool
  openDevice : Int → Bool
  scanDeviceID : String → Option Int

/-- What one round of `capture.Read`, `img.Empty` and `gocv.IMEncode` gives. -/
inductive BackendRead where
  | readFail
  | emptyFrame
  | encodeFail
  | frame (data : List Nat)
deriving DecidableEq, Repr

/-- Errors of `VideoSource.Start`. -/
inductive SourceError where
  | alreadyActive
  | unsupportedType (typ : String)
  | openFailed
deriving DecidableEq, Repr

/-- Errors of the service.  `startFailed (.unsupportedType _)` is the spec's
`ConfigError` and `startFailed .openFailed` its `BackendOpenError`. -/
inductive ServiceError where
  | alreadyExists (sourceID : String)
  | startFailed (cause : SourceError)
  | notFound (sourceID : String)
deriving DecidableEq, Repr

/-- Result of a call: a value, an error, or a panic that ends the process. -/
inductive Outcome (α : Type) where
  | ok (a : α)
  | err (e : ServiceError)
  | panic
deriving DecidableEq, Repr

/-- The goroutine `captureFrames` of one source with its local `frameID`. -/
structure Producer where
  src : Nat
  ctx : Nat
  frameID : Int
  done : Bool
deriving DecidableEq, Repr

/-- Where a `distributeFrames` goroutine stands: before line 76, blocked in the
outer `select`, holding a frame before the snapshot of the subscriber list,
inside the `range subs` loop with the subscribers still to serve, or returned. -/
inductive DistState where
  | start
  | waiting (frames : Nat)
  | gotFrame (frames : Nat) (frame : FrameData)
  | sending (frames : Nat) (frame : FrameData) (rest : List Nat)
  | done
deriving DecidableEq, Repr

/-- The goroutine `distributeFrames(ctx, sourceID)`. -/
structure Distributor where
  ctx : Nat
  sourceID : String
  state : DistState
deriving DecidableEq, Repr

/-! ## service.go -/

/-- CameraService of `service.go`: both maps, values being references. -/
structure CameraService where
  sources : List (String × Nat)
  subscribers : List (String × List Nat)
deriving DecidableEq, Repr

/-- The whole process: the service, the object stores, the goroutines, the
cancelled contexts and whether a panic has ended the process. -/
structure World where
  svc : CameraService
  heap : List VideoSource
  chans : List Chan
  producers : List Producer
  distributors : List Distributor
  cancelled : List Nat
  panicked : Bool
deriving DecidableEq, Repr

/-- NewCameraService: two empty maps, nothing allocated, nothing running. -/
def NewCameraService : World :=
  { svc := { sources := [], subscribers := [] }, heap := [], chans := [],
    producers := [], distributors := [], cancelled := [], panicked := false }

/-- The id `fmt.Sprintf("%s_%s", config.Type, config.URI)`. -/
def sourceIDOf (config : SourceConfig) : String :=
  config.Typ ++ "_" ++ config.URI

/-- Capacity of the output channel and of every subscriber channel. -/
def bufferSize : Nat := 100

/-- The object behind a reference.  Go has no dangling references, and every
reference the process holds is allocated (`Inv.src_valid`, `Inv.prod_valid`),
so the default is never the answer in a world the process reaches. -/
def World.deref (w : World) (p : Nat) : VideoSource :=
  w.heap.getD p { config := { Typ := "", URI := "" }, capture := none,
                  isActive := false, frames := 0, closeOnce := false }

/-- NewVideoSource: allocates the output channel and the source object and
returns the reference to the object. -/
def NewVideoSource (w : World) (config : SourceConfig) : World × Nat :=
  ({ w with
      chans := w.chans ++ [Chan.make bufferSize],
      heap := w.heap ++ [{ config := config, capture := none, isActive := false,
                           frames := w.chans.length, closeOnce := false }] },
   w.heap.length)

/-- The `switch s.config.Type` of `Start`: `none` for the `default` branch,
otherwise whether `gocv.OpenVideoCapture` succeeded. -/
def openCapture (be : Backend) (config : SourceConfig) : Option Bool :=
  if config.Typ = "file" then some (be.openPath config.URI)
  else if config.Typ = "webcam" then
    some (be.openDevice ((be.scanDeviceID config.URI).getD 0))
  else if config.Typ = "ip_camera" then some (be.openPath config.URI)
  else none

/-- VideoSource.Start on the object at reference `p`. -/
def VideoSource.Start (be : Backend) (w : World) (p : Nat) (ctx : Nat) :
    World × Option SourceError :=
  let s := w.deref p
  if s.isActive then (w, some .alreadyActive)
  else
    match openCapture be s.config with
    | none => (w, some (.unsupportedType s.config.Typ))
    | some false =>
      ({ w with heap := w.heap.set p { s with capture := none } }, some .openFailed)
    | some true =>
      ({ w with
          heap := w.heap.set p
            { s with capture := some { posFrames := 0, closed := false },
                     isActive := true },
          producers := w.producers ++
            [{ src := p, ctx := ctx, frameID := 0, done := false }] },
       none)

/-- VideoSource.Stop on the object at reference `p`. -/
def VideoSource.Stop (w : World) (p : Nat) : World :=
  { w with heap := w.heap.set p { w.deref p with isActive := false } }

/-- VideoSource.GetInfo. -/
def VideoSource.GetInfo (s : VideoSource) : SourceInfo :=
  { ID := sourceIDOf s.config, Typ := s.config.Typ, URI := s.config.URI,
    IsStreaming := s.isActive }

/-- CameraService.AddSource. -/
def AddSource (be : Backend) (w : World) (ctx : Nat) (config : SourceConfig) :
    World × Outcome String :=
  let sourceID := sourceIDOf config
  match mapGet w.svc.sources sourceID with
  | some _ => (w, .err (.alreadyExists sourceID))
  | none =>
    let (w1, p) := NewVideoSource w config
    match VideoSource.Start be w1 p ctx with
    | (w2, some e) => (w2, .err (.startFailed e))
    | (w2, none) =>
      ({ w2 with
          svc := { sources := mapSet w2.svc.sources sourceID p,
                   subscribers := mapSet w2.svc.subscribers sourceID [] },
          distributors := w2.distributors ++
            [{ ctx := ctx, sourceID := sourceID, state := .start }] },
       .ok sourceID)

/-- CameraService.Subscribe: returns the reference of the new channel. -/
def Subscribe (w : World) (sourceID : String) : World × Outcome Nat :=
  match mapGet w.svc.sources sourceID with
  | none => (w, .err (.notFound sourceID))
  | some _ =>
    let subscriber := w.chans.length
    ({ w with
        chans := w.chans ++ [Chan.make bufferSize],
        svc := { w.svc with
          subscribers := mapSet w.svc.subscribers sourceID
            ((mapGet w.svc.subscribers sourceID).getD [] ++ [subscriber]) } },
     .ok subscriber)

/-- The loop `for _, sub := range subs { close(sub) }` on the channel store;
`none` when a `close` panics. -/
def closeAll : List Chan → List Nat → Option (List Chan)
  | chans, [] => some chans
  | chans, sub :: subs =>
    match chans[sub]? with
    | none => none
    | some c =>
      match c.close with
      | none => none
      | some c' => closeAll (chans.set sub c') subs

/-- CameraService.RemoveSource. -/
def RemoveSource (w : World) (sourceID : String) : World × Outcome Unit :=
  match mapGet w.svc.sources sourceID with
  | none => (w, .err (.notFound sourceID))
  | some p =>
    let w1 := VideoSource.Stop w p
    match closeAll w1.chans ((mapGet w1.svc.subscribers sourceID).getD []) with
    | none => ({ w1 with panicked := true }, .panic)
    | some chans =>
      ({ w1 with
          chans := chans,
          svc := { sources := mapDelete w1.svc.sources sourceID,
                   subscribers := mapDelete w1.svc.subscribers sourceID } },
       .ok ())

/-- CameraService.ListSources, in the order of the model's map. -/
def ListSources (w : World) : List SourceInfo :=
  w.svc.sources.map (fun e => (w.deref e.2).GetInfo)

/-! ## The goroutines -/

/-- Go's `int64` arithmetic wraps: the value of `x` as an `int64`. -/
def wrapInt64 (x : Int) : Int := (x + 2 ^ 63) % 2 ^ 64 - 2 ^ 63

/-- The effect of `capture.Read` on the frame position: a successful read
moves one frame on. -/
def VideoCapture.Read (v : VideoCapture) (r : BackendRead) : VideoCapture :=
  match r with
  | .readFail => v
  | _ => { v with posFrames := v.posFrames + 1 }

/-- The end of `captureFrames`: the deferred `closeOnce.Do` (close the output
channel, close the capture, clear `isActive`), then the goroutine is over. -/
def captureExit (w : World) (t : Nat) (pr : Producer) (s : VideoSource) : World :=
  let w1 := { w with producers := w.producers.set t { pr with done := true } }
  if s.closeOnce then w1
  else
    match w.chans[s.frames]? with
    | none => { w with panicked := true }
    | some c =>
      match c.close with
      | none => { w with panicked := true }
      | some c' =>
        { w1 with
            chans := w.chans.set s.frames c',
            heap := w.heap.set pr.src
              { s with closeOnce := true,
                       capture := s.capture.map (fun v => { v with closed := true }),
                       isActive := false } }

/-- One iteration of the loop `for s.isActive { select { ... } }` of
`captureFrames`, run by producer goroutine `t`; `now` is the clock and `r`
what the backend gives in this iteration.  An iteration that leaves the loop
runs the deferred cleanup. -/
def captureFrames (w : World) (t : Nat) (now : Nat) (r : BackendRead) : World :=
  match w.producers[t]? with
  | none => w
  | some pr =>
    if pr.done then w
    else
      let s := w.deref pr.src
      if s.isActive = false then captureExit w t pr s
      else if pr.ctx ∈ w.cancelled then captureExit w t pr s
      else
        match s.capture with
        | none => { w with panicked := true }
        | some v =>
          match r with
          | .readFail =>
            if s.config.Typ = "file" then
              { w with
                  heap := w.heap.set pr.src
                    { s with capture := some { v with posFrames := 0 } } }
            else captureExit w t pr s
          | .emptyFrame =>
            { w with heap := w.heap.set pr.src { s with capture := some (v.Read r) } }
          | .encodeFail =>
            { w with heap := w.heap.set pr.src { s with capture := some (v.Read r) } }
          | .frame data =>
            let frame : FrameData :=
              { ID := pr.frameID, Timestamp := now, Data := data, Source := s.config.URI }
            let w1 := { w with
              heap := w.heap.set pr.src { s with capture := some (v.Read r) },
              producers := w.producers.set t
                { pr with frameID := wrapInt64 (pr.frameID + 1) } }
            match w.chans[s.frames]? with
            | none => w1
            | some c =>
              match c.trySend frame with
              | .sent c' => { w1 with chans := w.chans.set s.frames c' }
              | .full => w1
              | .panic => { w with panicked := true }

/-- The atomic actions of a `distributeFrames` goroutine: line 76-77, the
`ctx.Done()` case, the receive on `frames`, the read of the subscriber list
under the read lock, and one turn of the `range subs` loop. -/
inductive DistStep where
  | start
  | cancel
  | recv
  | snapshot
  | send
deriving DecidableEq, Repr

/-- One atomic action of distributor goroutine `d`.  An action that is not
enabled in the goroutine's state leaves the world as it is. -/
def distributeFrames (w : World) (d : Nat) (a : DistStep) : World :=
  match w.distributors[d]? with
  | none => w
  | some ds =>
    match ds.state, a with
    | .start, .start =>
      match mapGet w.svc.sources ds.sourceID with
      | none => { w with panicked := true }
      | some p =>
        { w with
            distributors := w.distributors.set d
              { ds with state := .waiting (w.deref p).frames } }
    | .waiting _, .cancel =>
      if ds.ctx ∈ w.cancelled then
        { w with distributors := w.distributors.set d { ds with state := .done } }
      else w
    | .waiting fc, .recv =>
      match w.chans[fc]? with
      | none => w
      | some c =>
        match c.recv with
        | .frame f c' =>
          { w with
              chans := w.chans.set fc c',
              distributors := w.distributors.set d { ds with state := .gotFrame fc f } }
        | .closed =>
          { w with distributors := w.distributors.set d { ds with state := .done } }
        | .blocked => w
    | .gotFrame fc f, .snapshot =>
      { w with
          distributors := w.distributors.set d
            { ds with
                state := .sending fc f ((mapGet w.svc.subscribers ds.sourceID).getD []) } }
    | .sending fc _ [], .send =>
      { w with distributors := w.distributors.set d { ds with state := .waiting fc } }
    | .sending fc f (sub :: rest), .send =>
      match w.chans[sub]? with
      | none => w
      | some c =>
        match c.trySend f with
        | .sent c' =>
          { w with
              chans := w.chans.set sub c',
              distributors := w.distributors.set d { ds with state := .sending fc f rest } }
        | .full =>
          { w with distributors := w.distributors.set d { ds with state := .sending fc f rest } }
        | .panic => { w with panicked := true }
    | _, _ => w

/-- A reader of a subscriber channel (the `for frame := range frames` of
`HandleStreamFrames`) takes one frame.  Output channels of sources are read by
distributors only. -/
def consume (w : World) (c : Nat) : World :=
  if w.heap.any (fun s => s.frames = c) then w
  else
    match w.chans[c]? with
    | none => w
    | some ch =>
      match ch.recv with
      | .frame _ ch' => { w with chans := w.chans.set c ch' }
      | _ => w

/-- What the scheduler can run next: a call of the service, the cancellation
of a context, one loop iteration of a producer, one atomic action of a
distributor, or a read by a consumer. -/
inductive Event where
  | addSource (ctx : Nat) (config : SourceConfig)
  | subscribe (sourceID : String)
  | removeSource (sourceID : String)
  | cancel (ctx : Nat)
  | capture (t : Nat) (now : Nat) (r : BackendRead)
  | dist (d : Nat) (a : DistStep)
  | consume (c : Nat)
deriving DecidableEq, Repr

/-- One scheduling step.  After a panic nothing runs any more. -/
def step (be : Backend) (w : World) (ev : Event) : World :=
  if w.panicked then w
  else
    match ev with
    | .addSource ctx config => (AddSource be w ctx config).1
    | .subscribe sourceID => (Subscribe w sourceID).1
    | .removeSource sourceID => (RemoveSource w sourceID).1
    | .cancel ctx => { w with cancelled := ctx :: w.cancelled }
    | .capture t now r => captureFrames w t now r
    | .dist d a => distributeFrames w d a
    | .consume c => consume w c

/-- The process after the events of `evs`, in order. -/
def run (be : Backend) (w : World) (evs : List Event) : World :=
  evs.foldl (step be) w

/-- The source types `Start` knows. -/
def supportedType (typ : String) : Prop :=
  typ = "file" ∨ typ = "webcam" ∨ typ = "ip_camera"

instance (typ : String) : Decidable (supportedType typ) := by
  unfold supportedType; infer_instance

/-! ## The invariant of the process -/

/-- What holds in every world the process can reach (`run_inv`): both maps
have unique keys, a registered reference points to an object whose config
derives the key, subscriber lists are duplicate-free, pairwise disjoint and
hold open channels that are no source's output channel, output channels are
allocated, not shared and open until the `sync.Once` fires, every channel has
capacity `bufferSize` and never holds more, and every producer goroutine has
its own source, whose capture is open and whose `sync.Once` has not fired
while the goroutine runs. -/
structure Inv (svc : CameraService) (heap : List VideoSource) (chans : List Chan)
    (producers : List Producer) : Prop where
  src_keys : (svc.sources.map Prod.fst).Nodup
  src_valid : ∀ (k : String) (p : Nat), (k, p) ∈ svc.sources →
    ∃ s : VideoSource, heap[p]? = some s ∧ sourceIDOf s.config = k
  sub_keys : (svc.subscribers.map Prod.fst).Nodup
  sub_nodup : ∀ (k : String) (l : List Nat), (k, l) ∈ svc.subscribers → l.Nodup
  sub_disj : ∀ (k1 : String) (l1 : List Nat) (k2 : String) (l2 : List Nat),
    (k1, l1) ∈ svc.subscribers → (k2, l2) ∈ svc.subscribers →
    k1 ≠ k2 → ∀ c : Nat, c ∈ l1 → c ∉ l2
  sub_open : ∀ (k : String) (l : List Nat), (k, l) ∈ svc.subscribers → ∀ c : Nat, c ∈ l →
    ∃ ch : Chan, chans[c]? = some ch ∧ ch.closed = false
  sub_not_frames : ∀ (k : String) (l : List Nat), (k, l) ∈ svc.subscribers →
    ∀ c : Nat, c ∈ l → ∀ (p : Nat) (s : VideoSource), heap[p]? = some s → s.frames ≠ c
  frames_valid : ∀ (p : Nat) (s : VideoSource), heap[p]? = some s → s.frames < chans.length
  frames_inj : ∀ (p q : Nat) (s t : VideoSource), heap[p]? = some s → heap[q]? = some t →
    s.frames = t.frames → p = q
  frames_open : ∀ (p : Nat) (s : VideoSource), heap[p]? = some s → s.closeOnce = false →
    ∃ ch : Chan, chans[s.frames]? = some ch ∧ ch.closed = false
  chan_cap : ∀ (c : Nat) (ch : Chan), chans[c]? = some ch →
    ch.cap = bufferSize ∧ ch.len ≤ bufferSize
  prod_valid : ∀ (t : Nat) (pr : Producer), producers[t]? = some pr →
    ∃ s : VideoSource, heap[pr.src]? = some s ∧ s.capture.isSome = true ∧
      (pr.done = false → s.closeOnce = false)
  prod_inj : ∀ (t u : Nat) (pr pu : Producer), producers[t]? = some pr →
    producers[u]? = some pu → pr.src = pu.src → t = u

/-- The invariant on a world. -/
def World.Inv (w : World) : Prop := Camera.Inv w.svc w.heap w.chans w.producers

/-- The object `NewVideoSource` allocates in world `w`. -/
def newSource (w : World) (config : SourceConfig) : VideoSource :=
  { config := config, capture := none, isActive := false, frames := w.chans.length,
    closeOnce := false }

/-- The object `Start` leaves behind when the backend opened. -/
def startedSource (w : World) (config : SourceConfig) : VideoSource :=
  { config := config, capture := some { posFrames := 0, closed := false }, isActive := true,
    frames := w.chans.length, closeOnce := false }

/-- The channels returned by the successful `Subscribe(sourceID)` calls among
the events `evs` run from world `w`, in call order. -/
def subscribed (be : Backend) (sourceID : String) : World → List Event → List Nat
  | _, [] => []
  | w, ev :: evs =>
    (match ev with
      | .subscribe k =>
        if w.panicked = false ∧ k = sourceID then
          match (Subscribe w k).2 with
          | .ok c => [c]
          | _ => []
        else []
      | _ => []) ++ subscribed be sourceID (step be w ev) evs

/-! ## Backends and configs for the examples -/

/-- A backend on which every open succeeds. -/
def Backend.allOpen : Backend :=
  { openPath := fun _ => true, openDevice := fun _ => true, scanDeviceID := fun _ => none }

/-- A backend on which no open succeeds. -/
def Backend.noneOpen : Backend :=
  { openPath := fun _ => false, openDevice := fun _ => false, scanDeviceID := fun _ => none }

/-- The config of the spec's scenario. -/
def clipConfig : SourceConfig := { Typ := "file", URI := "clip.mp4" }

/-- A webcam config. -/
def webcamConfig : SourceConfig := { Typ := "webcam", URI := "0" }

/-- A config with a type `Start` does not know. -/
def usbConfig : SourceConfig := { Typ := "usb", URI := "0" }

/-- The world after `AddSource` of `clipConfig` in a fresh process. -/
def clipAdded : World := (AddSource Backend.allOpen NewCameraService 0 clipConfig).1

/-- A run after that `AddSource`: two subscribers arrive, the producer emits
one frame and the distributor hands it to the first subscriber. -/
def clipEvents : List Event :=
  [.subscribe "file_clip.mp4", .dist 0 .start, .capture 0 5 (.frame [1]),
   .dist 0 .recv, .dist 0 .snapshot, .subscribe "file_clip.mp4", .dist 0 .send]

/-- A run up to the point where the distributor of the clip source holds the
first frame, with one subscriber attached. -/
def heldFrameEvents : List Event :=
  [.addSource 0 clipConfig, .subscribe "file_clip.mp4", .dist 0 .start,
   .capture 0 5 (.frame [1]), .dist 0 .recv]

/-- The world in which the producer of a registered webcam is about to read. -/
def webcamEvents : List Event :=
  [.addSource 0 webcamConfig, .dist 0 .start, .subscribe "webcam_0"]

/-- A run in which the distributor of the clip source has taken a frame and
read the subscriber list `[1]`, and `RemoveSource` then runs to its end. -/
def removeAfterSnapshot : List Event :=
  [.addSource 0 clipConfig, .dist 0 .start, .subscribe "file_clip.mp4",
   .capture 0 5 (.frame [1]), .dist 0 .recv, .dist 0 .snapshot,
   .removeSource "file_clip.mp4"]

/-- A run in which the clip source is removed while a frame of it is still in
its output channel, the same id is added again and gets a subscriber, the new
distributor hands the new source's first frame to the subscriber, and then the
distributor of the removed source hands over the old frame. -/
def readdEvents : List Event :=
  [.addSource 0 clipConfig, .dist 0 .start, .capture 0 5 (.frame [1]),
   .removeSource "file_clip.mp4",
   .addSource 0 clipConfig, .subscribe "file_clip.mp4", .dist 1 .start,
   .capture 1 6 (.frame [2]), .dist 1 .recv, .dist 1 .snapshot, .dist 1 .send,
   .dist 0 .recv, .dist 0 .snapshot, .dist 0 .send]

/-! ## Order of sequence numbers

The distributor of a removed source keeps running and finds its subscribers by
id, so after `readdEvents` a subscriber of the id added again holds frames of
two producers.  In a run where no id is added again after a `RemoveSource` of
it, and which is shorter than `2 ^ 63` events so that `frameID` cannot wrap,
every channel carries strictly increasing IDs.  The invariant behind this is
`Ord`. -/

/-- No `AddSource` of an id comes after a `RemoveSource` of that id; `removed`
lists the ids for which a `RemoveSource` has been seen already. -/
def noReAdd : List String → List Event → Bool
  | _, [] => true
  | removed, .addSource _ config :: evs =>
    !(removed.contains (sourceIDOf config)) && noReAdd removed evs
  | removed, .removeSource k :: evs => noReAdd (k :: removed) evs
  | removed, _ :: evs => noReAdd removed evs

/-- The IDs of the frames of `l` are strictly increasing. -/
def Increasing (l : List FrameData) : Prop :=
  l.Pairwise (fun a b => a.ID < b.ID)

/-- The subscriber list `s.subscribers[k]`, nil when the key is absent. -/
def subsOf (subscribers : List (String × List Nat)) (k : String) : List Nat :=
  (mapGet subscribers k).getD []

/-- The output channel a distributor reads, once it has passed line 77. -/
def DistState.fc? : DistState → Option Nat
  | .waiting fc => some fc
  | .gotFrame fc _ => some fc
  | .sending fc _ _ => some fc
  | _ => none

/-- The frame a distributor holds. -/
def DistState.held : DistState → Option FrameData
  | .gotFrame _ f => some f
  | .sending _ f _ => some f
  | _ => none

/-- The subscribers a distributor has still to serve in its send loop. -/
def DistState.rest : DistState → List Nat
  | .sending _ _ rest => rest
  | _ => []

/-- How many frames of its output channel a distributor has offered to
subscriber `c`: all it received, less the held one while `c` still waits. -/
def DistState.progress (st : DistState) (rcvd : Nat) (c : Nat) : Nat :=
  match st with
  | .gotFrame _ _ => rcvd - 1
  | .sending _ _ rest => if c ∈ rest then rcvd - 1 else rcvd
  | _ => rcvd

/-- Channel `fc` is the output channel of an object made for id `k`. -/
def Owner (heap : List VideoSource) (fc : Nat) (k : String) : Prop :=
  ∃ (q : Nat) (s : VideoSource), heap[q]? = some s ∧ s.frames = fc ∧ sourceIDOf s.config = k

/-- What channel `c` holds is a subsequence of the first `m` frames sent on the
output channel `och`. -/
def Fed (chans : List Chan) (och : Chan) (m : Nat) (c : Nat) : Prop :=
  ∃ ch : Chan, chans[c]? = some ch ∧ ch.sent.Sublist (och.sent.take m)

/-- The state of one distributor agrees with the channels: before it starts its
subscribers have received nothing; afterwards it reads the output channel of an
object of its id, the frame it holds is the last one it received, every channel
it serves holds a subsequence of what it has offered to it, and the channels
still to serve are distinct subscriber channels of no other id. -/
def DistOK (subscribers : List (String × List Nat)) (heap : List VideoSource)
    (chans : List Chan) (ds : Distributor) : Prop :=
  (ds.state = .start → ∀ c : Nat, c ∈ subsOf subscribers ds.sourceID →
    ∃ ch : Chan, chans[c]? = some ch ∧ ch.sent = []) ∧
  (∀ fc : Nat, ds.state.fc? = some fc → Owner heap fc ds.sourceID ∧
    ∃ och : Chan, chans[fc]? = some och ∧
      (∀ f : FrameData, ds.state.held = some f →
        1 ≤ och.rcvd ∧ och.sent[och.rcvd - 1]? = some f) ∧
      (∀ c : Nat, c ∈ subsOf subscribers ds.sourceID ∨ c ∈ ds.state.rest →
        Fed chans och (ds.state.progress och.rcvd c) c)) ∧
  ds.state.rest.Nodup ∧
  (∀ c : Nat, c ∈ ds.state.rest → c < chans.length ∧
    (∀ (q : Nat) (s : VideoSource), heap[q]? = some s → s.frames ≠ c) ∧
    (∀ (k : String) (l : List Nat), (k, l) ∈ subscribers → k ≠ ds.sourceID → c ∉ l))

/-- The invariant behind the order of sequence numbers, for a process that has
run at most `n` events and has seen `RemoveSource` for the ids in `removed`. -/
structure Ord (removed : List String) (n : Nat) (svc : CameraService)
    (heap : List VideoSource) (chans : List Chan) (producers : List Producer)
    (distributors : List Distributor) : Prop where
  sorted : ∀ (c : Nat) (ch : Chan), chans[c]? = some ch → Increasing ch.sent
  rcvd_le : ∀ (c : Nat) (ch : Chan), chans[c]? = some ch → ch.rcvd ≤ ch.sent.length
  prod_bound : ∀ (t : Nat) (pr : Producer) (s : VideoSource) (och : Chan),
    producers[t]? = some pr → heap[pr.src]? = some s → chans[s.frames]? = some och →
    0 ≤ pr.frameID ∧ pr.frameID ≤ (n : Int) ∧ (∀ f : FrameData, f ∈ och.sent → f.ID < pr.frameID) ∧
    (och.sent = [] → pr.frameID = 0) ∧
    (∀ f : FrameData, och.sent.head? = some f → f.ID = 0)
  dist_reg : ∀ (d : Nat) (ds : Distributor), distributors[d]? = some ds →
    (mapGet svc.sources ds.sourceID).isSome = true ∨ ds.sourceID ∈ removed
  removed_gone : ∀ k : String, k ∈ removed → mapGet svc.sources k = none
  dist_inj : ∀ (d e : Nat) (ds es : Distributor), distributors[d]? = some ds →
    distributors[e]? = some es → ds.sourceID = es.sourceID → d = e
  dist_ok : ∀ (d : Nat) (ds : Distributor), distributors[d]? = some ds →
    DistOK svc.subscribers heap chans ds
  rest_disj : ∀ (d e : Nat) (ds es : Distributor), distributors[d]? = some ds →
    distributors[e]? = some es → d ≠ e → ∀ c : Nat, c ∈ ds.state.rest → c ∉ es.state.rest

/-- The order invariant on a world. -/
def World.Ord (removed : List String) (n : Nat) (w : World) : Prop :=
  Camera.Ord removed n w.svc w.heap w.chans w.producers w.distributors

/-- How a step may change the object store: objects keep config and output
channel, and a new object has a new output channel. -/
def HeapStep (chans : List Chan) (heap heap' : List VideoSource) : Prop :=
  (∀ (q : Nat) (s : VideoSource), heap[q]? = some s →
    ∃ s' : VideoSource, heap'[q]? = some s' ∧ s'.frames = s.frames ∧ s'.config = s.config) ∧
  (∀ (q : Nat) (s' : VideoSource), heap'[q]? = some s' →
    (∃ s : VideoSource, heap[q]? = some s ∧ s.frames = s'.frames) ∨ chans.length ≤ s'.frames)

/-- How a step that appends no frame may change the channels: channels keep
their frames, output channels keep their receive count, and a new channel is
empty. -/
def ChanStep (heap : List VideoSource) (chans chans' : List Chan) : Prop :=
  chans.length ≤ chans'.length ∧
  (∀ (c : Nat) (ch : Chan), chans[c]? = some ch →
    ∃ ch' : Chan, chans'[c]? = some ch' ∧ ch'.sent = ch.sent ∧
      ch'.rcvd ≤ ch'.sent.length ∧
      ((∃ (q : Nat) (s : VideoSource), heap[q]? = some s ∧ s.frames = c) →
        ch'.rcvd = ch.rcvd)) ∧
  (∀ (c : Nat) (ch' : Chan), chans'[c]? = some ch' → chans.length ≤ c →
    ch'.sent = [] ∧ ch'.rcvd = 0)

/-- How a step that emits no frame may change the producers. -/
def ProdStep (heap : List VideoSource) (prods prods' : List Producer) : Prop :=
  ∀ (t : Nat) (pr' : Producer), prods'[t]? = some pr' →
    ∃ (pr : Producer) (s : VideoSource), prods[t]? = some pr ∧ heap[pr.src]? = some s ∧
      pr'.src = pr.src ∧ pr'.frameID = pr.frameID

/-- The ids for which a `RemoveSource` has been seen, after one more event. -/
def removedAfter (removed : List String) : Event → List String
  | .removeSource k => k :: removed
  | _ => removed

/-- A run in which the clip source delivers two frames to a subscriber and is
then removed. -/
def orderedEvents : List Event :=
  [.addSource 0 clipConfig, .dist 0 .start, .subscribe "file_clip.mp4",
   .capture 0 5 (.frame [1]), .capture 0 6 (.frame [2]),
   .dist 0 .recv, .dist 0 .snapshot, .dist 0 .send, .dist 0 .send,
   .dist 0 .recv, .dist 0 .snapshot, .dist 0 .send, .dist 0 .send,
   .removeSource "file_clip.mp4"]

/-! ## What a step may change, and the cleanup of a producer -/

/-- How a step may change an object that exists already: config and output
channel stay, a fired `sync.Once` stays fired, an inactive object stays
inactive, a capture is never attached afterwards, and the capture is closed
only together with the firing of the `sync.Once`. -/
def ObjStep (s s' : VideoSource) : Prop :=
  s'.config = s.config ∧ s'.frames = s.frames ∧
  (s'.closeOnce = false → s.closeOnce = false) ∧
  (s'.isActive = true → s.isActive = true) ∧
  (∀ v' : VideoCapture, s'.capture = some v' →
    ∃ v : VideoCapture, s.capture = some v ∧ (s'.closeOnce = false → v'.closed = v.closed)) ∧
  (∀ v : VideoCapture, s.capture = some v →
    ∃ v' : VideoCapture, s'.capture = some v' ∧ (v.closed = true → v'.closed = true))

/-- The frame `captureFrames` builds from a successful read. -/
def builtFrame (pr : Producer) (s : VideoSource) (now : Nat) (data : List Nat) : FrameData :=
  { ID := pr.frameID, Timestamp := now, Data := data, Source := s.config.URI }

/-- The world after the deferred cleanup of `captureFrames` has run. -/
def cleanedUp (w : World) (t : Nat) (pr : Producer) (s : VideoSource) (v : VideoCapture)
    (och : Chan) : World :=
  { w with
      producers := w.producers.set t { pr with done := true },
      chans := w.chans.set s.frames { och with closed := true },
      heap := w.heap.set pr.src
        { s with closeOnce := true, capture := some { v with closed := true },
                 isActive := false } }

/-- How a step changes the object store: an object that exists stays, changed
as `ObjStep` allows, and a new object has a new output channel, a `sync.Once`
that has not fired and no closed capture. -/
def HeapFoot (chans : List Chan) (heap heap' : List VideoSource) : Prop :=
  (∀ (p : Nat) (s : VideoSource), heap[p]? = some s →
    ∃ s' : VideoSource, heap'[p]? = some s' ∧ ObjStep s s') ∧
  (∀ (p : Nat) (s' : VideoSource), heap'[p]? = some s' → heap.length ≤ p →
    s'.frames = chans.length ∧ s'.closeOnce = false ∧
      ∀ v' : VideoCapture, s'.capture = some v' → v'.closed = false)

/-- No capture is closed before the `sync.Once` of its source has fired. -/
def CapOpen (heap : List VideoSource) : Prop :=
  ∀ (p : Nat) (s : VideoSource) (v : VideoCapture), heap[p]? = some s → s.capture = some v →
    s.closeOnce = false → v.closed = false

/-- Producer `t`, running on object `p` with output channel `fc`, has run its
cleanup: the goroutine is over, the `sync.Once` has fired, the source is
inactive, its capture released and its output channel closed. -/
def Cleaned (w : World) (t : Nat) (p : Nat) (fc : Nat) : Prop :=
  (∃ pr : Producer, w.producers[t]? = some pr ∧ pr.done = true ∧ pr.src = p) ∧
  (∃ (s : VideoSource) (v : VideoCapture), w.heap[p]? = some s ∧ s.frames = fc ∧
    s.closeOnce = true ∧ s.isActive = false ∧ s.capture = some v ∧ v.closed = true) ∧
  (∃ och : Chan, w.chans[fc]? = some och ∧ och.closed = true)

/-- A run in which the clip source has delivered one frame, so that its
capture stands at frame position 1. -/
def clipPlayed : List Event :=
  [.addSource 0 clipConfig, .capture 0 5 (.frame [1])]

/-! ## Registered sources -/

/-- Every registered source is of a type `Start` knows. -/
def RegSup (w : World) : Prop :=
  ∀ (k : String) (p : Nat) (s : VideoSource), (k, p) ∈ w.svc.sources → w.heap[p]? = some s →
    supportedType s.config.Typ

/-- A run that registers the clip source. -/
def clipOnly : List Event := [.addSource 0 clipConfig]

/-! ## The numbering of frames -/

/-- Whether producer `t`, given a read that yields an encoded frame, gets as far
as numbering the frame in world `w`, and if so whether the send on the output
channel finds room (`true`) or takes the `default` branch (`false`). -/
def sendOutcome (w : World) (t : Nat) : Option Bool :=
  if w.panicked then none
  else
    match w.producers[t]? with
    | none => none
    | some pr =>
      if pr.done then none
      else
        let s := w.deref pr.src
        if s.isActive = false then none
        else if pr.ctx ∈ w.cancelled then none
        else
          match s.capture with
          | none => none
          | some _ =>
            match w.chans[s.frames]? with
            | none => some false
            | some c => if c.closed then none else some (decide (c.len < c.cap))

/-- What event `ev` adds to the record of producer `t`: one entry when the
event is a read of that producer that yields an encoded frame. -/
def readOf (w : World) (t : Nat) : Event → List Bool
  | .capture u _ (.frame _) => if u = t then (sendOutcome w t).toList else []
  | _ => []

/-- The record of producer `t` over the events `evs` run from world `w`: one
entry for each of its reads that yielded a non-empty, successfully encoded
frame, in order, telling whether the frame went into the output channel. -/
def frameReads (be : Backend) (t : Nat) : World → List Event → List Bool
  | _, [] => []
  | w, ev :: evs => readOf w t ev ++ frameReads be t (step be w ev) evs

/-- The numbers of the entries of a record that were sent, counting the entries
from `n`: an entry that was dropped takes its number with it. -/
def numbered : Nat → List Bool → List Int
  | _, [] => []
  | n, true :: l => (n : Int) :: numbered (n + 1) l
  | n, false :: l => numbered (n + 1) l

/-- The invariant behind the numbering of frames, for per-producer records `L`:
a producer that does not exist yet has an empty record, `frameID` is the
length of the record as an `int64`, the IDs on the output channel are the
numbers of the sent entries, and the channels a distributor has still to
serve are allocated and are no source's output channel. -/
structure Num (L : Nat → List Bool) (heap : List VideoSource) (chans : List Chan)
    (producers : List Producer) (distributors : List Distributor) : Prop where
  fresh : ∀ t : Nat, producers.length ≤ t → L t = []
  count : ∀ (t : Nat) (pr : Producer), producers[t]? = some pr →
    pr.frameID = wrapInt64 (L t).length
  out : ∀ (t : Nat) (pr : Producer) (s : VideoSource) (och : Chan),
    producers[t]? = some pr → heap[pr.src]? = some s → chans[s.frames]? = some och →
    och.sent.map (fun f => f.ID) = (numbered 0 (L t)).map wrapInt64
  rest : ∀ (d : Nat) (ds : Distributor), distributors[d]? = some ds →
    ∀ c : Nat, c ∈ ds.state.rest → c < chans.length ∧
      ∀ (q : Nat) (s : VideoSource), heap[q]? = some s → s.frames ≠ c

/-- The numbering invariant on a world. -/
def World.Num (L : Nat → List Bool) (w : World) : Prop :=
  Camera.Num L w.heap w.chans w.producers w.distributors

/-- A run in which the clip source reads 101 frames while nobody takes any from
its output channel, the distributor then takes one, and the source reads one
more frame. -/
def fullEvents : List Event :=
  [.addSource 0 clipConfig, .dist 0 .start] ++
    List.replicate 101 (.capture 0 7 (.frame [])) ++
    [.dist 0 .recv, .capture 0 8 (.frame [])]

/-! ## Facts about maps -/

theorem mapGet_mapSet_same {α : Type} (m : List (String × α)) (k : String) (v : α) :
    mapGet (mapSet m k v) k = some v := by
  induction m with
  | nil => simp [mapSet, mapGet]
  | cons e m ih =>
    obtain ⟨k', v'⟩ := e
    by_cases h : k' = k <;> simp [mapSet, mapGet, h, ih]

theorem mapGet_mapSet_other {α : Type} (m : List (String × α)) (k k2 : String) (v : α)
    (h : k2 ≠ k) : mapGet (mapSet m k v) k2 = mapGet m k2 := by
  induction m with
  | nil => simp [mapSet, mapGet, h.symm]
  | cons e m ih =>
    obtain ⟨k', v'⟩ := e
    by_cases h1 : k' = k
    · subst h1
      simp [mapSet, mapGet, h.symm]
    · by_cases h2 : k' = k2
      · subst h2
        simp [mapSet, mapGet, h]
      · simp [mapSet, mapGet, h1, h2, ih]

theorem mapGet_mapDelete_same {α : Type} (m : List (String × α)) (k : String) :
    mapGet (mapDelete m k) k = none := by
  induction m with
  | nil => simp [mapDelete, mapGet]
  | cons e m ih =>
    obtain ⟨k', v'⟩ := e
    by_cases h : k' = k <;> simp [mapDelete, mapGet, h, ih]

theorem mapGet_mapDelete_other {α : Type} (m : List (String × α)) (k k2 : String)
    (h : k2 ≠ k) : mapGet (mapDelete m k) k2 = mapGet m k2 := by
  induction m with
  | nil => simp [mapDelete, mapGet]
  | cons e m ih =>
    obtain ⟨k', v'⟩ := e
    by_cases h1 : k' = k
    · subst h1
      simp [mapDelete, mapGet, h.symm, ih]
    · by_cases h2 : k' = k2
      · subst h2
        simp [mapDelete, mapGet, h]
      · simp [mapDelete, mapGet, h1, h2, ih]

theorem openCapture_none_iff (be : Backend) (config : SourceConfig) :
    openCapture be config = none ↔ ¬ supportedType config.Typ := by
  unfold openCapture supportedType
  by_cases h1 : config.Typ = "file"
  · simp [h1]
  · by_cases h2 : config.Typ = "webcam"
    · simp [h2]
    · by_cases h3 : config.Typ = "ip_camera"
      · simp [h3]
      · simp [h1, h2, h3]

theorem mapGet_some_mem {α : Type} (m : List (String × α)) (k : String) (v : α)
    (h : mapGet m k = some v) : (k, v) ∈ m := by
  induction m with
  | nil => simp [mapGet] at h
  | cons e m ih =>
    obtain ⟨k', v'⟩ := e
    by_cases h1 : k' = k
    · subst h1
      simp [mapGet] at h
      simp [h]
    · simp [mapGet, h1] at h
      exact List.mem_cons_of_mem _ (ih h)

theorem mapGet_none_not_mem {α : Type} (m : List (String × α)) (k : String)
    (h : mapGet m k = none) : k ∉ m.map Prod.fst := by
  induction m with
  | nil => simp
  | cons e m ih =>
    obtain ⟨k', v'⟩ := e
    by_cases h1 : k' = k
    · simp [mapGet, h1] at h
    · simp [mapGet, h1] at h
      have := ih h
      simp only [List.map_cons, List.mem_cons, not_or]
      exact ⟨fun h2 => h1 h2.symm, this⟩

theorem mapGet_of_mem {α : Type} (m : List (String × α)) (k : String) (v : α)
    (hk : (m.map Prod.fst).Nodup) (h : (k, v) ∈ m) : mapGet m k = some v := by
  induction m with
  | nil => simp at h
  | cons e m ih =>
    obtain ⟨k', v'⟩ := e
    simp only [List.map_cons, List.nodup_cons] at hk
    rcases List.mem_cons.1 h with h1 | h1
    · injection h1 with h2 h3
      subst h2 h3
      simp [mapGet]
    · have hne : k' ≠ k := by
        intro h2
        subst h2
        exact hk.1 (List.mem_map_of_mem Prod.fst h1)
      simp [mapGet, hne, ih hk.2 h1]

theorem mem_mapSet {α : Type} (m : List (String × α)) (k : String) (v : α)
    (hk : (m.map Prod.fst).Nodup) (e : String × α) (h : e ∈ mapSet m k v) :
    e = (k, v) ∨ (e ∈ m ∧ e.1 ≠ k) := by
  induction m with
  | nil => simp [mapSet] at h; exact Or.inl h
  | cons e' m ih =>
    obtain ⟨k', v'⟩ := e'
    simp only [List.map_cons, List.nodup_cons] at hk
    by_cases h1 : k' = k
    · subst h1
      simp only [mapSet, if_true, List.mem_cons] at h
      rcases h with h | h
      · exact Or.inl h
      · refine Or.inr ⟨List.mem_cons_of_mem _ h, ?_⟩
        intro h2
        exact hk.1 (h2 ▸ List.mem_map_of_mem Prod.fst h)
    · simp only [mapSet, h1, if_false, List.mem_cons] at h
      rcases h with h | h
      · subst h
        exact Or.inr ⟨List.mem_cons_self _ _, h1⟩
      · rcases ih hk.2 h with h2 | h2
        · exact Or.inl h2
        · exact Or.inr ⟨List.mem_cons_of_mem _ h2.1, h2.2⟩

theorem mapSet_keys_subset {α : Type} (m : List (String × α)) (k : String) (v : α)
    (x : String) (h : x ∈ (mapSet m k v).map Prod.fst) : x = k ∨ x ∈ m.map Prod.fst := by
  induction m with
  | nil => simp [mapSet] at h; exact Or.inl h
  | cons e' m ih =>
    obtain ⟨k', v'⟩ := e'
    by_cases h1 : k' = k
    · subst h1
      simp only [mapSet, if_true, List.map_cons, List.mem_cons] at h ⊢
      exact Or.inr h
    · simp only [mapSet, h1, if_false, List.map_cons, List.mem_cons] at h ⊢
      rcases h with h | h
      · exact Or.inr (Or.inl h)
      · rcases ih h with h2 | h2
        · exact Or.inl h2
        · exact Or.inr (Or.inr h2)

theorem mapSet_keys_nodup {α : Type} (m : List (String × α)) (k : String) (v : α)
    (hk : (m.map Prod.fst).Nodup) : ((mapSet m k v).map Prod.fst).Nodup := by
  induction m with
  | nil => simp [mapSet]
  | cons e' m ih =>
    obtain ⟨k', v'⟩ := e'
    simp only [List.map_cons, List.nodup_cons] at hk
    by_cases h1 : k' = k
    · subst h1
      simp only [mapSet, if_true, List.map_cons, List.nodup_cons]
      exact hk
    · simp only [mapSet, h1, if_false, List.map_cons, List.nodup_cons]
      refine ⟨?_, ih hk.2⟩
      intro h2
      rcases mapSet_keys_subset m k v k' h2 with h3 | h3
      · exact h1 h3
      · exact hk.1 h3

theorem mem_mapDelete {α : Type} (m : List (String × α)) (k : String)
    (e : String × α) : e ∈ mapDelete m k ↔ e ∈ m ∧ e.1 ≠ k := by
  induction m with
  | nil => simp [mapDelete]
  | cons e' m ih =>
    obtain ⟨k', v'⟩ := e'
    by_cases h1 : k' = k
    · subst h1
      simp only [mapDelete, if_true, ih, List.mem_cons]
      constructor
      · rintro ⟨h2, h3⟩
        exact ⟨Or.inr h2, h3⟩
      · rintro ⟨h2 | h2, h3⟩
        · subst h2
          exact absurd rfl h3
        · exact ⟨h2, h3⟩
    · simp only [mapDelete, h1, if_false, List.mem_cons, ih]
      constructor
      · rintro (h2 | ⟨h2, h3⟩)
        · subst h2
          exact ⟨Or.inl rfl, h1⟩
        · exact ⟨Or.inr h2, h3⟩
      · rintro ⟨h2 | h2, h3⟩
        · exact Or.inl h2
        · exact Or.inr ⟨h2, h3⟩

theorem mapDelete_keys_nodup {α : Type} (m : List (String × α)) (k : String)
    (hk : (m.map Prod.fst).Nodup) : ((mapDelete m k).map Prod.fst).Nodup := by
  induction m with
  | nil => simp [mapDelete]
  | cons e' m ih =>
    obtain ⟨k', v'⟩ := e'
    simp only [List.map_cons, List.nodup_cons] at hk
    by_cases h1 : k' = k
    · subst h1
      simp only [mapDelete, if_true]
      exact ih hk.2
    · simp only [mapDelete, h1, if_false, List.map_cons, List.nodup_cons]
      refine ⟨?_, ih hk.2⟩
      intro h2
      obtain ⟨e, he, hek⟩ := List.mem_map.1 h2
      have := ((mem_mapDelete m k e).1 he).1
      exact hk.1 (hek ▸ List.mem_map_of_mem Prod.fst this)

/-! ## The invariant holds in every world the process reaches -/

theorem getElem?_set_some {α : Type} (l : List α) (i j : Nat) (a b : α)
    (h : (l.set i a)[j]? = some b) :
    (i = j ∧ b = a ∧ j < l.length) ∨ (i ≠ j ∧ l[j]? = some b) := by
  rw [List.getElem?_set] at h
  by_cases hij : i = j
  · subst hij
    by_cases hl : i < l.length
    · simp [hl] at h
      exact Or.inl ⟨rfl, h.symm, hl⟩
    · simp [hl] at h
  · simp [hij] at h
    exact Or.inr ⟨hij, h⟩

theorem getElem?_lt {α : Type} (l : List α) (i : Nat) (a : α) (h : l[i]? = some a) :
    i < l.length := by
  obtain ⟨h1, _⟩ := List.getElem?_eq_some.1 h
  exact h1

theorem Inv.heap_set {svc : CameraService} {heap : List VideoSource} {chans : List Chan}
    {producers : List Producer} (h : Inv svc heap chans producers)
    (p : Nat) (s s' : VideoSource) (hp : heap[p]? = some s)
    (hcfg : s'.config = s.config) (hfr : s'.frames = s.frames)
    (hco : s'.closeOnce = s.closeOnce)
    (hcap : s.capture.isSome = true → s'.capture.isSome = true) :
    Inv svc (heap.set p s') chans producers := by
  have hlt : p < heap.length := getElem?_lt _ _ _ hp
  have bwd : ∀ (q : Nat) (t' : VideoSource), (heap.set p s')[q]? = some t' →
      ∃ t : VideoSource, heap[q]? = some t ∧ t'.config = t.config ∧ t'.frames = t.frames ∧
        t'.closeOnce = t.closeOnce := by
    intro q t' hq
    rcases getElem?_set_some _ _ _ _ _ hq with ⟨h1, h2, _⟩ | ⟨_, h2⟩
    · subst h1 h2
      exact ⟨s, hp, hcfg, hfr, hco⟩
    · exact ⟨t', h2, rfl, rfl, rfl⟩
  have fwd : ∀ (q : Nat) (t : VideoSource), heap[q]? = some t →
      ∃ t' : VideoSource, (heap.set p s')[q]? = some t' ∧ t'.config = t.config ∧
        t'.frames = t.frames ∧ t'.closeOnce = t.closeOnce ∧
        (t.capture.isSome = true → t'.capture.isSome = true) := by
    intro q t hq
    by_cases hpq : p = q
    · subst hpq
      rw [hp] at hq
      injection hq with hq
      subst hq
      exact ⟨s', by simp [hlt], hcfg, hfr, hco, hcap⟩
    · exact ⟨t, by simp [hpq, hq], rfl, rfl, rfl, id⟩
  refine ⟨h.src_keys, ?_, h.sub_keys, h.sub_nodup, h.sub_disj, h.sub_open, ?_, ?_, ?_, ?_,
    h.chan_cap, ?_, h.prod_inj⟩
  · intro k q hk
    obtain ⟨t, ht, hid⟩ := h.src_valid k q hk
    obtain ⟨t', ht', h1, _, _, _⟩ := fwd q t ht
    exact ⟨t', ht', by rw [h1]; exact hid⟩
  · intro k l hk c hc q t' hq
    obtain ⟨t, ht, _, h2, _⟩ := bwd q t' hq
    rw [h2]
    exact h.sub_not_frames k l hk c hc q t ht
  · intro q t' hq
    obtain ⟨t, ht, _, h2, _⟩ := bwd q t' hq
    rw [h2]
    exact h.frames_valid q t ht
  · intro q r t' u' hq hr hfru
    obtain ⟨t, ht, _, h2, _⟩ := bwd q t' hq
    obtain ⟨u, hu, _, h3, _⟩ := bwd r u' hr
    exact h.frames_inj q r t u ht hu (by rw [← h2, ← h3]; exact hfru)
  · intro q t' hq hc
    obtain ⟨t, ht, _, h2, h3⟩ := bwd q t' hq
    rw [h2]
    exact h.frames_open q t ht (by rw [← h3]; exact hc)
  · intro t pr ht
    obtain ⟨u, hu, hcap1, hdone⟩ := h.prod_valid t pr ht
    obtain ⟨u', hu', _, _, h3, h4⟩ := fwd pr.src u hu
    exact ⟨u', hu', h4 hcap1, fun hd => by rw [h3]; exact hdone hd⟩

theorem Inv.chan_set {svc : CameraService} {heap : List VideoSource} {chans : List Chan}
    {producers : List Producer} (h : Inv svc heap chans producers)
    (c : Nat) (ch ch' : Chan) (hc : chans[c]? = some ch)
    (hcap : ch'.cap = ch.cap) (hlen : ch'.len ≤ bufferSize)
    (hcl : ch'.closed = ch.closed) :
    Inv svc heap (chans.set c ch') producers := by
  have hlt : c < chans.length := getElem?_lt _ _ _ hc
  have fwd : ∀ (x : Nat) (y : Chan), chans[x]? = some y →
      ∃ y' : Chan, (chans.set c ch')[x]? = some y' ∧ y'.closed = y.closed := by
    intro x y hx
    by_cases hcx : c = x
    · subst hcx
      rw [hc] at hx
      injection hx with hx
      subst hx
      exact ⟨ch', by simp [hlt], hcl⟩
    · exact ⟨y, by simp [hcx, hx], rfl⟩
  refine ⟨h.src_keys, h.src_valid, h.sub_keys, h.sub_nodup, h.sub_disj, ?_,
    h.sub_not_frames, ?_, h.frames_inj, ?_, ?_, h.prod_valid, h.prod_inj⟩
  · intro k l hk x hx
    obtain ⟨y, hy, hyc⟩ := h.sub_open k l hk x hx
    obtain ⟨y', hy', h1⟩ := fwd x y hy
    exact ⟨y', hy', by rw [h1]; exact hyc⟩
  · intro q t hq
    simpa using h.frames_valid q t hq
  · intro q t hq hco
    obtain ⟨y, hy, hyc⟩ := h.frames_open q t hq hco
    obtain ⟨y', hy', h1⟩ := fwd _ y hy
    exact ⟨y', hy', by rw [h1]; exact hyc⟩
  · intro x y hx
    rcases getElem?_set_some _ _ _ _ _ hx with ⟨h1, h2, _⟩ | ⟨_, h2⟩
    · subst h1 h2
      exact ⟨by rw [hcap]; exact (h.chan_cap c ch hc).1, hlen⟩
    · exact h.chan_cap x y h2

theorem Inv.prod_set {svc : CameraService} {heap : List VideoSource} {chans : List Chan}
    {producers : List Producer} (h : Inv svc heap chans producers)
    (t : Nat) (pr pr' : Producer) (ht : producers[t]? = some pr)
    (hsrc : pr'.src = pr.src) (hdone : pr'.done = false → pr.done = false) :
    Inv svc heap chans (producers.set t pr') := by
  have bwd : ∀ (u : Nat) (pu' : Producer), (producers.set t pr')[u]? = some pu' →
      ∃ pu : Producer, producers[u]? = some pu ∧ pu'.src = pu.src ∧
        (pu'.done = false → pu.done = false) := by
    intro u pu' hu
    rcases getElem?_set_some _ _ _ _ _ hu with ⟨h1, h2, _⟩ | ⟨_, h2⟩
    · subst h1 h2
      exact ⟨pr, ht, hsrc, hdone⟩
    · exact ⟨pu', h2, rfl, id⟩
  refine ⟨h.src_keys, h.src_valid, h.sub_keys, h.sub_nodup, h.sub_disj, h.sub_open,
    h.sub_not_frames, h.frames_valid, h.frames_inj, h.frames_open, h.chan_cap, ?_, ?_⟩
  · intro u pu' hu
    obtain ⟨pu, hpu, h1, h2⟩ := bwd u pu' hu
    obtain ⟨s, hs, hcap, hd⟩ := h.prod_valid u pu hpu
    exact ⟨s, by rw [h1]; exact hs, hcap, fun hd' => hd (h2 hd')⟩
  · intro u v pu' pv' hu hv hsv
    obtain ⟨pu, hpu, h1, _⟩ := bwd u pu' hu
    obtain ⟨pv, hpv, h2, _⟩ := bwd v pv' hv
    exact h.prod_inj u v pu pv hpu hpv (by rw [← h1, ← h2]; exact hsv)

theorem getElem?_concat_some {α : Type} (l : List α) (a b : α) (i : Nat)
    (h : (l ++ [a])[i]? = some b) : l[i]? = some b ∨ (i = l.length ∧ b = a) := by
  rw [List.getElem?_append] at h
  by_cases hi : i < l.length
  · simp [hi] at h
    exact Or.inl (by simp [hi, h])
  · simp only [hi, if_false] at h
    have h2 := getElem?_lt _ _ _ h
    simp at h2
    have h3 : i = l.length := by omega
    subst h3
    simp at h
    exact Or.inr ⟨rfl, h.symm⟩

theorem getElem?_concat_of_some {α : Type} (l : List α) (a b : α) (i : Nat)
    (h : l[i]? = some b) : (l ++ [a])[i]? = some b := by
  rw [List.getElem?_append_left (getElem?_lt _ _ _ h)]
  exact h

theorem Chan.make_len (n : Nat) : (Chan.make n).len = 0 := by
  simp [Chan.make, Chan.len]

theorem Inv.alloc {svc : CameraService} {heap : List VideoSource} {chans : List Chan}
    {producers : List Producer} (h : Inv svc heap chans producers)
    (s0 : VideoSource) (hfr : s0.frames = chans.length) :
    Inv svc (heap ++ [s0]) (chans ++ [Chan.make bufferSize]) producers := by
  have hsub : ∀ (k : String) (l : List Nat), (k, l) ∈ svc.subscribers →
      ∀ c : Nat, c ∈ l → c < chans.length := by
    intro k l hk c hc
    obtain ⟨ch, hch, _⟩ := h.sub_open k l hk c hc
    exact getElem?_lt _ _ _ hch
  refine ⟨h.src_keys, ?_, h.sub_keys, h.sub_nodup, h.sub_disj, ?_, ?_, ?_, ?_, ?_, ?_, ?_,
    h.prod_inj⟩
  · intro k p hk
    obtain ⟨s, hs, hid⟩ := h.src_valid k p hk
    exact ⟨s, getElem?_concat_of_some _ _ _ _ hs, hid⟩
  · intro k l hk c hc
    obtain ⟨ch, hch, hcl⟩ := h.sub_open k l hk c hc
    exact ⟨ch, getElem?_concat_of_some _ _ _ _ hch, hcl⟩
  · intro k l hk c hc p s hp
    rcases getElem?_concat_some _ _ _ _ hp with h1 | ⟨_, h1⟩
    · exact h.sub_not_frames k l hk c hc p s h1
    · subst h1
      have := hsub k l hk c hc
      omega
  · intro p s hp
    rcases getElem?_concat_some _ _ _ _ hp with h1 | ⟨_, h1⟩
    · have := h.frames_valid p s h1
      simp
      omega
    · subst h1
      simp [hfr]
  · intro p q s t hp hq hst
    rcases getElem?_concat_some _ _ _ _ hp with h1 | ⟨h1, h1'⟩
    · rcases getElem?_concat_some _ _ _ _ hq with h2 | ⟨h2, h2'⟩
      · exact h.frames_inj p q s t h1 h2 hst
      · subst h2'
        have := h.frames_valid p s h1
        omega
    · rcases getElem?_concat_some _ _ _ _ hq with h2 | ⟨h2, h2'⟩
      · subst h1'
        have := h.frames_valid q t h2
        omega
      · omega
  · intro p s hp hco
    rcases getElem?_concat_some _ _ _ _ hp with h1 | ⟨_, h1⟩
    · obtain ⟨ch, hch, hcl⟩ := h.frames_open p s h1 hco
      exact ⟨ch, getElem?_concat_of_some _ _ _ _ hch, hcl⟩
    · subst h1
      refine ⟨Chan.make bufferSize, ?_, rfl⟩
      rw [hfr]
      exact List.getElem?_concat_length _ _
  · intro c ch hc
    rcases getElem?_concat_some _ _ _ _ hc with h1 | ⟨_, h1⟩
    · exact h.chan_cap c ch h1
    · subst h1
      exact ⟨rfl, by simp [Chan.make_len]⟩
  · intro t pr ht
    obtain ⟨s, hs, h1, h2⟩ := h.prod_valid t pr ht
    exact ⟨s, getElem?_concat_of_some _ _ _ _ hs, h1, h2⟩

theorem Inv.prod_add {svc : CameraService} {heap : List VideoSource} {chans : List Chan}
    {producers : List Producer} (h : Inv svc heap chans producers)
    (pr0 : Producer) (s : VideoSource) (hs : heap[pr0.src]? = some s)
    (hcap : s.capture.isSome = true) (hco : s.closeOnce = false)
    (hfresh : ∀ (t : Nat) (pr : Producer), producers[t]? = some pr → pr.src ≠ pr0.src) :
    Inv svc heap chans (producers ++ [pr0]) := by
  refine ⟨h.src_keys, h.src_valid, h.sub_keys, h.sub_nodup, h.sub_disj, h.sub_open,
    h.sub_not_frames, h.frames_valid, h.frames_inj, h.frames_open, h.chan_cap, ?_, ?_⟩
  · intro t pr ht
    rcases getElem?_concat_some _ _ _ _ ht with h1 | ⟨_, h1⟩
    · exact h.prod_valid t pr h1
    · subst h1
      exact ⟨s, hs, hcap, fun _ => hco⟩
  · intro t u pr pu ht hu hsrc
    rcases getElem?_concat_some _ _ _ _ ht with h1 | ⟨h1, h1'⟩
    · rcases getElem?_concat_some _ _ _ _ hu with h2 | ⟨h2, h2'⟩
      · exact h.prod_inj t u pr pu h1 h2 hsrc
      · subst h2'
        exact absurd hsrc (hfresh t pr h1)
    · rcases getElem?_concat_some _ _ _ _ hu with h2 | ⟨h2, h2'⟩
      · subst h1'
        exact absurd hsrc.symm (hfresh u pu h2)
      · omega

theorem Inv.register {svc : CameraService} {heap : List VideoSource} {chans : List Chan}
    {producers : List Producer} (h : Inv svc heap chans producers)
    (id : String) (p : Nat) (s : VideoSource) (hs : heap[p]? = some s)
    (hid : sourceIDOf s.config = id) :
    Inv { sources := mapSet svc.sources id p, subscribers := mapSet svc.subscribers id [] }
      heap chans producers := by
  have old : ∀ (k : String) (l : List Nat), (k, l) ∈ mapSet svc.subscribers id [] →
      l = [] ∨ (k, l) ∈ svc.subscribers := by
    intro k l hk
    rcases mem_mapSet _ _ _ h.sub_keys _ hk with h1 | ⟨h1, _⟩
    · injection h1 with _ h2
      exact Or.inl h2
    · exact Or.inr h1
  refine ⟨mapSet_keys_nodup _ _ _ h.src_keys, ?_, mapSet_keys_nodup _ _ _ h.sub_keys, ?_, ?_,
    ?_, ?_, h.frames_valid, h.frames_inj, h.frames_open, h.chan_cap, h.prod_valid, h.prod_inj⟩
  · intro k q hk
    rcases mem_mapSet _ _ _ h.src_keys _ hk with h1 | ⟨h1, _⟩
    · injection h1 with h2 h3
      subst h2 h3
      exact ⟨s, hs, hid⟩
    · exact h.src_valid k q h1
  · intro k l hk
    rcases old k l hk with h1 | h1
    · subst h1
      exact List.nodup_nil
    · exact h.sub_nodup k l h1
  · intro k1 l1 k2 l2 hk1 hk2 hne c hc
    rcases old k1 l1 hk1 with h1 | h1
    · subst h1
      simp at hc
    · rcases old k2 l2 hk2 with h2 | h2
      · subst h2
        simp
      · exact h.sub_disj k1 l1 k2 l2 h1 h2 hne c hc
  · intro k l hk c hc
    rcases old k l hk with h1 | h1
    · subst h1
      simp at hc
    · exact h.sub_open k l h1 c hc
  · intro k l hk c hc
    rcases old k l hk with h1 | h1
    · subst h1
      simp at hc
    · exact h.sub_not_frames k l h1 c hc

theorem mapGet_getD_mem (m : List (String × List Nat)) (k : String) (c : Nat)
    (hc : c ∈ (mapGet m k).getD []) : (k, (mapGet m k).getD []) ∈ m := by
  cases hg : mapGet m k with
  | none => simp [hg] at hc
  | some l => simpa [hg] using mapGet_some_mem m k l hg

theorem Inv.subscribe {svc : CameraService} {heap : List VideoSource} {chans : List Chan}
    {producers : List Producer} (h : Inv svc heap chans producers) (id : String) :
    Inv { svc with
          subscribers := mapSet svc.subscribers id
            ((mapGet svc.subscribers id).getD [] ++ [chans.length]) }
      heap (chans ++ [Chan.make bufferSize]) producers := by
  have hlt : ∀ (k : String) (l : List Nat), (k, l) ∈ svc.subscribers →
      ∀ c : Nat, c ∈ l → c < chans.length := by
    intro k l hk c hc
    obtain ⟨ch, hch, _⟩ := h.sub_open k l hk c hc
    exact getElem?_lt _ _ _ hch
  have old : ∀ (k : String) (l : List Nat),
      (k, l) ∈ mapSet svc.subscribers id
        ((mapGet svc.subscribers id).getD [] ++ [chans.length]) →
      (k = id ∧ l = (mapGet svc.subscribers id).getD [] ++ [chans.length]) ∨
        ((k, l) ∈ svc.subscribers ∧ k ≠ id) := by
    intro k l hk
    rcases mem_mapSet _ _ _ h.sub_keys _ hk with h1 | ⟨h1, h2⟩
    · injection h1 with h2 h3
      exact Or.inl ⟨h2, h3⟩
    · exact Or.inr ⟨h1, h2⟩
  have hl0 : ∀ c : Nat, c ∈ (mapGet svc.subscribers id).getD [] →
      (id, (mapGet svc.subscribers id).getD []) ∈ svc.subscribers :=
    fun c hc => mapGet_getD_mem _ _ c hc
  refine ⟨h.src_keys, h.src_valid, mapSet_keys_nodup _ _ _ h.sub_keys, ?_, ?_, ?_, ?_, ?_,
    h.frames_inj, ?_, ?_, h.prod_valid, h.prod_inj⟩
  · intro k l hk
    rcases old k l hk with ⟨_, h1⟩ | ⟨h1, _⟩
    · subst h1
      rw [List.nodup_append]
      refine ⟨?_, List.nodup_singleton _, ?_⟩
      · cases hg : mapGet svc.subscribers id with
        | none => simp
        | some l0 => simpa using h.sub_nodup id l0 (mapGet_some_mem _ _ _ hg)
      · intro c hc1 hc2
        have := hlt _ _ (hl0 c hc1) c hc1
        simp at hc2
        omega
    · exact h.sub_nodup k l h1
  · intro k1 l1 k2 l2 hk1 hk2 hne c hc
    rcases old k1 l1 hk1 with ⟨h1, h1'⟩ | ⟨h1, h1'⟩
    · rcases old k2 l2 hk2 with ⟨h2, _⟩ | ⟨h2, h2'⟩
      · exact absurd (h1.trans h2.symm) hne
      · subst h1'
        rcases List.mem_append.1 hc with h3 | h3
        · exact h.sub_disj id _ k2 l2 (hl0 c h3) h2 (fun e => h2' e.symm) c h3
        · intro h4
          have := hlt k2 l2 h2 c h4
          simp at h3
          omega
    · rcases old k2 l2 hk2 with ⟨_, h2'⟩ | ⟨h2, _⟩
      · subst h2'
        intro h4
        rcases List.mem_append.1 h4 with h3 | h3
        · exact h.sub_disj k1 l1 id _ h1 (hl0 c h3) h1' c hc h3
        · have := hlt k1 l1 h1 c hc
          simp at h3
          omega
      · exact h.sub_disj k1 l1 k2 l2 h1 h2 hne c hc
  · intro k l hk c hc
    rcases old k l hk with ⟨_, h1⟩ | ⟨h1, _⟩
    · subst h1
      rcases List.mem_append.1 hc with h3 | h3
      · obtain ⟨ch, hch, hcl⟩ := h.sub_open id _ (hl0 c h3) c h3
        exact ⟨ch, getElem?_concat_of_some _ _ _ _ hch, hcl⟩
      · simp at h3
        subst h3
        exact ⟨Chan.make bufferSize, List.getElem?_concat_length _ _, rfl⟩
    · obtain ⟨ch, hch, hcl⟩ := h.sub_open k l h1 c hc
      exact ⟨ch, getElem?_concat_of_some _ _ _ _ hch, hcl⟩
  · intro k l hk c hc p s hp
    rcases old k l hk with ⟨_, h1⟩ | ⟨h1, _⟩
    · subst h1
      rcases List.mem_append.1 hc with h3 | h3
      · exact h.sub_not_frames id _ (hl0 c h3) c h3 p s hp
      · simp at h3
        have := h.frames_valid p s hp
        omega
    · exact h.sub_not_frames k l h1 c hc p s hp
  · intro p s hp
    have := h.frames_valid p s hp
    simp
    omega
  · intro p s hp hco
    obtain ⟨ch, hch, hcl⟩ := h.frames_open p s hp hco
    exact ⟨ch, getElem?_concat_of_some _ _ _ _ hch, hcl⟩
  · intro c ch hc
    rcases getElem?_concat_some _ _ _ _ hc with h1 | ⟨_, h1⟩
    · exact h.chan_cap c ch h1
    · subst h1
      exact ⟨rfl, by simp [Chan.make_len]⟩

/-- What a successful `closeAll` did: the list had no channel twice, each of
its channels was open and is now the same channel closed, and every other
channel is untouched. -/
theorem closeAll_spec (l : List Nat) : ∀ (chans chans' : List Chan),
    closeAll chans l = some chans' →
    l.Nodup ∧
    (∀ x : Nat, x ∈ l → ∃ y : Chan, chans[x]? = some y ∧ y.closed = false ∧
      chans'[x]? = some { y with closed := true }) ∧
    (∀ x : Nat, x ∉ l → chans'[x]? = chans[x]?) := by
  induction l with
  | nil =>
    intro chans chans' h
    simp [closeAll] at h
    subst h
    simp
  | cons a l ih =>
    intro chans chans' h
    simp only [closeAll] at h
    cases ha : chans[a]? with
    | none => simp [ha] at h
    | some y =>
      simp only [ha] at h
      by_cases hcl : y.closed = true
      · simp [Chan.close, hcl] at h
      · have hcl' : y.closed = false := by simpa using hcl
        simp only [Chan.close, hcl', Bool.false_eq_true, if_false] at h
        obtain ⟨hnd, hin, hout⟩ := ih _ _ h
        have hlt : a < chans.length := getElem?_lt _ _ _ ha
        have hnot : a ∉ l := by
          intro hal
          obtain ⟨z, hz, hzc, _⟩ := hin a hal
          simp [hlt] at hz
          rw [← hz] at hzc
          simp at hzc
        refine ⟨List.nodup_cons.2 ⟨hnot, hnd⟩, ?_, ?_⟩
        · intro x hx
          rcases List.mem_cons.1 hx with h1 | h1
          · subst h1
            refine ⟨y, ha, hcl', ?_⟩
            rw [hout x hnot]
            simp [hlt]
          · have hxa : a ≠ x := fun e => hnot (e ▸ h1)
            obtain ⟨z, hz, hzc, hz'⟩ := hin x h1
            simp [hxa] at hz
            exact ⟨z, hz, hzc, hz'⟩
        · intro x hx
          simp only [List.mem_cons, not_or] at hx
          rw [hout x hx.2]
          simp [Ne.symm hx.1]

theorem closeAll_isSome (l : List Nat) : ∀ (chans : List Chan), l.Nodup →
    (∀ x : Nat, x ∈ l → ∃ y : Chan, chans[x]? = some y ∧ y.closed = false) →
    ∃ chans' : List Chan, closeAll chans l = some chans' := by
  induction l with
  | nil => intro chans _ _; exact ⟨chans, rfl⟩
  | cons a l ih =>
    intro chans hnd hop
    obtain ⟨y, hy, hyc⟩ := hop a (List.mem_cons_self _ _)
    have hnd' := List.nodup_cons.1 hnd
    simp only [closeAll, hy, Chan.close, hyc, Bool.false_eq_true, if_false]
    apply ih _ hnd'.2
    intro x hx
    have hxa : a ≠ x := fun e => hnd'.1 (e ▸ hx)
    obtain ⟨z, hz, hzc⟩ := hop x (List.mem_cons_of_mem _ hx)
    exact ⟨z, by simp [hxa, hz], hzc⟩

theorem closeAll_length (l : List Nat) : ∀ (chans chans' : List Chan),
    closeAll chans l = some chans' → chans'.length = chans.length := by
  induction l with
  | nil =>
    intro chans chans' h
    simp [closeAll] at h
    subst h
    rfl
  | cons a l ih =>
    intro chans chans' h
    simp only [closeAll] at h
    cases ha : chans[a]? with
    | none => simp [ha] at h
    | some y =>
      simp only [ha] at h
      cases hc : y.close with
      | none => simp [hc] at h
      | some y' =>
        simp only [hc] at h
        simpa using ih _ _ h

theorem Inv.remove {svc : CameraService} {heap : List VideoSource} {chans : List Chan}
    {producers : List Producer} (h : Inv svc heap chans producers) (id : String)
    (chans' : List Chan)
    (hc : closeAll chans ((mapGet svc.subscribers id).getD []) = some chans') :
    Inv { sources := mapDelete svc.sources id,
          subscribers := mapDelete svc.subscribers id } heap chans' producers := by
  obtain ⟨_, hin, hout⟩ := closeAll_spec _ _ _ hc
  have hlen := closeAll_length _ _ _ hc
  have keep : ∀ (k : String) (l : List Nat), (k, l) ∈ svc.subscribers → k ≠ id →
      ∀ c : Nat, c ∈ l → chans'[c]? = chans[c]? := by
    intro k l hk hne c hcl
    apply hout
    intro hc2
    exact h.sub_disj k l id _ hk (mapGet_getD_mem _ _ c hc2) hne c hcl hc2
  have keepf : ∀ (p : Nat) (s : VideoSource), heap[p]? = some s →
      chans'[s.frames]? = chans[s.frames]? := by
    intro p s hp
    apply hout
    intro hc2
    exact h.sub_not_frames id _ (mapGet_getD_mem _ _ _ hc2) _ hc2 p s hp rfl
  refine ⟨mapDelete_keys_nodup _ _ h.src_keys, ?_, mapDelete_keys_nodup _ _ h.sub_keys,
    ?_, ?_, ?_, ?_, ?_, h.frames_inj, ?_, ?_, h.prod_valid, h.prod_inj⟩
  · intro k p hk
    exact h.src_valid k p ((mem_mapDelete _ _ _).1 hk).1
  · intro k l hk
    exact h.sub_nodup k l ((mem_mapDelete _ _ _).1 hk).1
  · intro k1 l1 k2 l2 hk1 hk2
    exact h.sub_disj k1 l1 k2 l2 ((mem_mapDelete _ _ _).1 hk1).1 ((mem_mapDelete _ _ _).1 hk2).1
  · intro k l hk c hcl
    obtain ⟨h1, h2⟩ := (mem_mapDelete _ _ _).1 hk
    rw [keep k l h1 h2 c hcl]
    exact h.sub_open k l h1 c hcl
  · intro k l hk
    exact h.sub_not_frames k l ((mem_mapDelete _ _ _).1 hk).1
  · intro p s hp
    rw [hlen]
    exact h.frames_valid p s hp
  · intro p s hp hco
    rw [keepf p s hp]
    exact h.frames_open p s hp hco
  · intro c ch hch
    by_cases hcl : c ∈ (mapGet svc.subscribers id).getD []
    · obtain ⟨y, hy, _, hy'⟩ := hin c hcl
      rw [hy'] at hch
      injection hch with hch
      subst hch
      exact h.chan_cap c y hy
    · rw [hout c hcl] at hch
      exact h.chan_cap c ch hch

theorem Inv.captureExit {svc : CameraService} {heap : List VideoSource} {chans : List Chan}
    {producers : List Producer} (h : Inv svc heap chans producers)
    (t : Nat) (pr : Producer) (s s' : VideoSource) (c : Chan)
    (ht : producers[t]? = some pr) (hs : heap[pr.src]? = some s)
    (hc : chans[s.frames]? = some c)
    (hcfg : s'.config = s.config) (hfr : s'.frames = s.frames)
    (hco : s'.closeOnce = true) (hcap : s'.capture.isSome = s.capture.isSome) :
    Inv svc (heap.set pr.src s') (chans.set s.frames { c with closed := true })
      (producers.set t { pr with done := true }) := by
  have hslt : pr.src < heap.length := getElem?_lt _ _ _ hs
  have hclt : s.frames < chans.length := getElem?_lt _ _ _ hc
  have htlt : t < producers.length := getElem?_lt _ _ _ ht
  have bwd : ∀ (q : Nat) (u' : VideoSource), (heap.set pr.src s')[q]? = some u' →
      ∃ u : VideoSource, heap[q]? = some u ∧ u'.config = u.config ∧ u'.frames = u.frames ∧
        (q ≠ pr.src → u' = u) := by
    intro q u' hq
    rcases getElem?_set_some _ _ _ _ _ hq with ⟨h1, h2, _⟩ | ⟨h1, h2⟩
    · subst h1 h2
      exact ⟨s, hs, hcfg, hfr, fun e => absurd rfl e⟩
    · exact ⟨u', h2, rfl, rfl, fun _ => rfl⟩
  have keep : ∀ (x : Nat), x ≠ s.frames →
      (chans.set s.frames { c with closed := true })[x]? = chans[x]? := by
    intro x hx
    simp [Ne.symm hx]
  refine ⟨h.src_keys, ?_, h.sub_keys, h.sub_nodup, h.sub_disj, ?_, ?_, ?_, ?_, ?_, ?_, ?_, ?_⟩
  · intro k q hk
    obtain ⟨u, hu, hid⟩ := h.src_valid k q hk
    by_cases hq : q = pr.src
    · subst hq
      rw [hs] at hu
      injection hu with hu
      subst hu
      exact ⟨s', by simp [hslt], by rw [hcfg]; exact hid⟩
    · exact ⟨u, by simp [Ne.symm hq, hu], hid⟩
  · intro k l hk x hx
    rw [keep x (fun e => h.sub_not_frames k l hk x hx _ s hs e.symm)]
    exact h.sub_open k l hk x hx
  · intro k l hk x hx q u' hq
    obtain ⟨u, hu, _, h2, _⟩ := bwd q u' hq
    rw [h2]
    exact h.sub_not_frames k l hk x hx q u hu
  · intro q u' hq
    obtain ⟨u, hu, _, h2, _⟩ := bwd q u' hq
    rw [h2]
    simpa using h.frames_valid q u hu
  · intro q r u' v' hq hr huv
    obtain ⟨u, hu, _, h2, _⟩ := bwd q u' hq
    obtain ⟨v, hv, _, h3, _⟩ := bwd r v' hr
    exact h.frames_inj q r u v hu hv (by rw [← h2, ← h3]; exact huv)
  · intro q u' hq hcou
    obtain ⟨u, hu, _, h2, h3⟩ := bwd q u' hq
    by_cases hqs : q = pr.src
    · subst hqs
      simp [hslt] at hq
      subst hq
      rw [hco] at hcou
      exact absurd hcou (by simp)
    · have hu' := h3 hqs
      subst hu'
      have hne : u'.frames ≠ s.frames := fun e => hqs (h.frames_inj q pr.src u' s hu hs e)
      rw [keep _ hne]
      exact h.frames_open q u' hu hcou
  · intro x y hx
    rcases getElem?_set_some _ _ _ _ _ hx with ⟨h1, h2, _⟩ | ⟨_, h2⟩
    · subst h1 h2
      exact h.chan_cap _ c hc
    · exact h.chan_cap x y h2
  · intro u pu' hu
    rcases getElem?_set_some _ _ _ _ _ hu with ⟨h1, h2, _⟩ | ⟨h1, h2⟩
    · subst h1 h2
      obtain ⟨s1, hs1, hcap1, _⟩ := h.prod_valid t pr ht
      rw [hs] at hs1
      injection hs1 with hs1
      subst hs1
      exact ⟨s', by simp [hslt], by rw [hcap]; exact hcap1, fun hd => by simp at hd⟩
    · obtain ⟨s1, hs1, hcap1, hd1⟩ := h.prod_valid u pu' h2
      have hne : pr.src ≠ pu'.src := fun e => h1 (h.prod_inj t u pr pu' ht h2 e)
      exact ⟨s1, by simp [hne, hs1], hcap1, hd1⟩
  · intro u v pu' pv' hu hv hsv
    have bwdp : ∀ (u : Nat) (pu' : Producer),
        (producers.set t { pr with done := true })[u]? = some pu' →
        ∃ pu : Producer, producers[u]? = some pu ∧ pu'.src = pu.src := by
      intro u pu' hu
      rcases getElem?_set_some _ _ _ _ _ hu with ⟨h1, h2, _⟩ | ⟨_, h2⟩
      · subst h1 h2
        exact ⟨pr, ht, rfl⟩
      · exact ⟨pu', h2, rfl⟩
    obtain ⟨pu, hpu, h1⟩ := bwdp u pu' hu
    obtain ⟨pv, hpv, h2⟩ := bwdp v pv' hv
    exact h.prod_inj u v pu pv hpu hpv (by rw [← h1, ← h2]; exact hsv)

theorem World.deref_of_some (w : World) (p : Nat) (s : VideoSource)
    (h : w.heap[p]? = some s) : w.deref p = s := by
  simp [World.deref, List.getD_eq_getElem?_getD, h]

theorem AddSource_registered (be : Backend) (w : World) (ctx : Nat) (config : SourceConfig)
    (p : Nat) (hg : mapGet w.svc.sources (sourceIDOf config) = some p) :
    AddSource be w ctx config = (w, .err (.alreadyExists (sourceIDOf config))) := by
  simp [AddSource, hg]

theorem AddSource_unsupported (be : Backend) (w : World) (ctx : Nat) (config : SourceConfig)
    (hg : mapGet w.svc.sources (sourceIDOf config) = none)
    (ho : openCapture be config = none) :
    AddSource be w ctx config =
      ({ w with chans := w.chans ++ [Chan.make bufferSize],
                heap := w.heap ++ [newSource w config] },
       .err (.startFailed (.unsupportedType config.Typ))) := by
  simp [AddSource, hg, NewVideoSource, VideoSource.Start, World.deref,
    List.getD_eq_getElem?_getD, ho, newSource]

theorem AddSource_openFailed (be : Backend) (w : World) (ctx : Nat) (config : SourceConfig)
    (hg : mapGet w.svc.sources (sourceIDOf config) = none)
    (ho : openCapture be config = some false) :
    AddSource be w ctx config =
      ({ w with chans := w.chans ++ [Chan.make bufferSize],
                heap := (w.heap ++ [newSource w config]).set w.heap.length
                  (newSource w config) },
       .err (.startFailed .openFailed)) := by
  simp [AddSource, hg, NewVideoSource, VideoSource.Start, World.deref,
    List.getD_eq_getElem?_getD, ho, newSource]

theorem AddSource_opened (be : Backend) (w : World) (ctx : Nat) (config : SourceConfig)
    (hg : mapGet w.svc.sources (sourceIDOf config) = none)
    (ho : openCapture be config = some true) :
    AddSource be w ctx config =
      ({ w with
          chans := w.chans ++ [Chan.make bufferSize],
          heap := (w.heap ++ [newSource w config]).set w.heap.length
            (startedSource w config),
          producers := w.producers ++
            [{ src := w.heap.length, ctx := ctx, frameID := 0, done := false }],
          svc := { sources := mapSet w.svc.sources (sourceIDOf config) w.heap.length,
                   subscribers := mapSet w.svc.subscribers (sourceIDOf config) [] },
          distributors := w.distributors ++
            [{ ctx := ctx, sourceID := sourceIDOf config, state := .start }] },
       .ok (sourceIDOf config)) := by
  simp [AddSource, hg, NewVideoSource, VideoSource.Start, World.deref,
    List.getD_eq_getElem?_getD, ho, newSource, startedSource]

theorem AddSource_inv (be : Backend) (w : World) (ctx : Nat) (config : SourceConfig)
    (h : w.Inv) : (AddSource be w ctx config).1.Inv := by
  cases hg : mapGet w.svc.sources (sourceIDOf config) with
  | some p =>
    rw [AddSource_registered be w ctx config p hg]
    exact h
  | none =>
    have h1 : Inv w.svc (w.heap ++ [newSource w config]) (w.chans ++ [Chan.make bufferSize])
        w.producers := h.alloc _ rfl
    have hs0 : (w.heap ++ [newSource w config])[w.heap.length]? = some (newSource w config) :=
      List.getElem?_concat_length _ _
    cases ho : openCapture be config with
    | none =>
      rw [AddSource_unsupported be w ctx config hg ho]
      exact h1
    | some b =>
      cases b with
      | false =>
        rw [AddSource_openFailed be w ctx config hg ho]
        exact h1.heap_set _ _ _ hs0 rfl rfl rfl id
      | true =>
        rw [AddSource_opened be w ctx config hg ho]
        have h2 := h1.heap_set w.heap.length _ (startedSource w config)
          hs0 rfl rfl rfl (fun _ => rfl)
        have hs1 : ((w.heap ++ [newSource w config]).set w.heap.length
            (startedSource w config))[w.heap.length]? = some (startedSource w config) := by
          simp
        have h3 := h2.prod_add { src := w.heap.length, ctx := ctx, frameID := 0, done := false }
          _ hs1 rfl rfl (by
            intro t pr ht hsrc
            obtain ⟨s, hs, _⟩ := h.prod_valid t pr ht
            have := getElem?_lt _ _ _ hs
            simp only at hsrc
            omega)
        exact h3.register (sourceIDOf config) w.heap.length _ hs1 rfl

theorem Subscribe_inv (w : World) (sourceID : String) (h : w.Inv) :
    (Subscribe w sourceID).1.Inv := by
  unfold Subscribe
  cases hg : mapGet w.svc.sources sourceID with
  | none => exact h
  | some p => exact Inv.subscribe h sourceID

theorem RemoveSource_inv (w : World) (sourceID : String) (h : w.Inv) :
    (RemoveSource w sourceID).1.Inv := by
  unfold RemoveSource
  cases hg : mapGet w.svc.sources sourceID with
  | none => exact h
  | some p =>
    obtain ⟨s, hs, _⟩ := h.src_valid _ _ (mapGet_some_mem _ _ _ hg)
    have h1 : Inv w.svc (w.heap.set p { w.deref p with isActive := false }) w.chans
        w.producers := by
      rw [World.deref_of_some w p s hs]
      exact h.heap_set p s _ hs rfl rfl rfl id
    simp only [VideoSource.Stop]
    cases hc : closeAll w.chans ((mapGet w.svc.subscribers sourceID).getD []) with
    | none => exact h1
    | some chans' => exact h1.remove sourceID chans' hc

theorem Chan.close_some (c c' : Chan) (h : c.close = some c') :
    c.closed = false ∧ c' = { c with closed := true } := by
  unfold Chan.close at h
  by_cases hc : c.closed = true
  · simp [hc] at h
  · simp [hc] at h
    exact ⟨by simpa using hc, h.symm⟩

theorem Chan.trySend_sent (c c' : Chan) (f : FrameData) (h : c.trySend f = .sent c') :
    c.closed = false ∧ c.len < c.cap ∧ c' = { c with sent := c.sent ++ [f] } := by
  unfold Chan.trySend at h
  by_cases hc : c.closed = true
  · simp [hc] at h
  · by_cases hl : c.len < c.cap
    · rw [if_neg hc, if_pos hl] at h
      injection h with h
      exact ⟨by simpa using hc, hl, h.symm⟩
    · simp [hc, hl] at h

theorem Chan.trySend_full (c : Chan) (f : FrameData) (h : c.trySend f = .full) :
    c.closed = false ∧ ¬ c.len < c.cap := by
  unfold Chan.trySend at h
  by_cases hc : c.closed = true
  · simp [hc] at h
  · by_cases hl : c.len < c.cap
    · simp [hc, hl] at h
    · exact ⟨by simpa using hc, hl⟩

theorem Chan.trySend_panic (c : Chan) (f : FrameData) (h : c.trySend f = .panic) :
    c.closed = true := by
  unfold Chan.trySend at h
  by_cases hc : c.closed = true
  · exact hc
  · by_cases hl : c.len < c.cap
    · simp [hc, hl] at h
    · simp [hc, hl] at h

theorem Chan.recv_frame (c c' : Chan) (f : FrameData) (h : c.recv = .frame f c') :
    c.sent[c.rcvd]? = some f ∧ c' = { c with rcvd := c.rcvd + 1 } := by
  unfold Chan.recv at h
  cases hb : c.buf with
  | nil =>
    simp only [hb] at h
    by_cases hc : c.closed = true <;> simp [hc] at h
  | cons g rest =>
    simp only [hb] at h
    injection h with h1 h2
    subst h1
    refine ⟨?_, h2.symm⟩
    have : (c.sent.drop c.rcvd)[0]? = some g := by
      unfold Chan.buf at hb
      rw [hb]
      simp
    simpa using this

theorem captureExit_inv (w : World) (t : Nat) (pr : Producer) (s : VideoSource)
    (h : w.Inv) (ht : w.producers[t]? = some pr) (hs : w.heap[pr.src]? = some s) :
    (captureExit w t pr s).Inv := by
  unfold captureExit
  by_cases hco : s.closeOnce = true
  · simp only [hco, if_true]
    exact h.prod_set t pr _ ht rfl (by simp)
  · simp only [hco, Bool.false_eq_true, if_false]
    cases hc : w.chans[s.frames]? with
    | none => exact h
    | some c =>
      dsimp only
      cases hcl : c.close with
      | none => exact h
      | some c' =>
        dsimp only
        obtain ⟨_, hc'⟩ := Chan.close_some c c' hcl
        subst hc'
        refine Inv.captureExit h t pr s
          { s with closeOnce := true,
                   capture := s.capture.map (fun v => { v with closed := true }),
                   isActive := false } c ht hs hc rfl rfl rfl ?_
        cases s.capture <;> rfl

theorem captureFrames_inv (w : World) (t : Nat) (now : Nat) (r : BackendRead)
    (h : w.Inv) : (captureFrames w t now r).Inv := by
  unfold captureFrames
  cases ht : w.producers[t]? with
  | none => exact h
  | some pr =>
    dsimp only
    by_cases hd : pr.done = true
    · rw [if_pos hd]
      exact h
    · obtain ⟨s, hs, hcap, hco⟩ := h.prod_valid t pr ht
      rw [if_neg hd, World.deref_of_some w pr.src s hs]
      by_cases ha : s.isActive = false
      · rw [if_pos ha]
        exact captureExit_inv w t pr s h ht hs
      · rw [if_neg ha]
        by_cases hx : pr.ctx ∈ w.cancelled
        · rw [if_pos hx]
          exact captureExit_inv w t pr s h ht hs
        · rw [if_neg hx]
          cases hv : s.capture with
          | none => exact h
          | some v =>
            dsimp only
            have hset : ∀ v' : VideoCapture,
                Inv w.svc (w.heap.set pr.src { s with capture := some v' }) w.chans
                  w.producers :=
              fun v' => h.heap_set pr.src s _ hs rfl rfl rfl (fun _ => rfl)
            cases r with
            | readFail =>
              dsimp only
              by_cases hf : s.config.Typ = "file"
              · rw [if_pos hf]
                exact hset _
              · rw [if_neg hf]
                exact captureExit_inv w t pr s h ht hs
            | emptyFrame => exact hset _
            | encodeFail => exact hset _
            | frame data =>
              have h2 : Inv w.svc
                  (w.heap.set pr.src { s with capture := some (v.Read (.frame data)) })
                  w.chans
                  (w.producers.set t { pr with frameID := wrapInt64 (pr.frameID + 1) }) :=
                (hset _).prod_set t pr _ ht rfl id
              dsimp only
              cases hc : w.chans[s.frames]? with
              | none => exact h2
              | some c =>
                dsimp only
                cases hsend : c.trySend
                    { ID := pr.frameID, Timestamp := now, Data := data,
                      Source := s.config.URI } with
                | sent c' =>
                  dsimp only
                  obtain ⟨_, hlen, hc'⟩ := Chan.trySend_sent _ _ _ hsend
                  subst hc'
                  refine h2.chan_set s.frames c _ hc rfl ?_ rfl
                  have := (h.chan_cap _ c hc).1
                  simp only [Chan.len, List.length_append, List.length_singleton] at hlen ⊢
                  omega
                | full => exact h2
                | panic => exact h

theorem Inv.send {svc : CameraService} {heap : List VideoSource} {chans : List Chan}
    {producers : List Producer} (h : Inv svc heap chans producers)
    (x : Nat) (c c' : Chan) (f : FrameData) (hc : chans[x]? = some c)
    (hs : c.trySend f = .sent c') : Inv svc heap (chans.set x c') producers := by
  obtain ⟨_, hlen, hc'⟩ := Chan.trySend_sent _ _ _ hs
  subst hc'
  refine h.chan_set x c _ hc rfl ?_ rfl
  have := (h.chan_cap _ c hc).1
  simp only [Chan.len, List.length_append, List.length_singleton] at hlen ⊢
  omega

theorem Inv.recv {svc : CameraService} {heap : List VideoSource} {chans : List Chan}
    {producers : List Producer} (h : Inv svc heap chans producers)
    (x : Nat) (c c' : Chan) (f : FrameData) (hc : chans[x]? = some c)
    (hr : c.recv = .frame f c') : Inv svc heap (chans.set x c') producers := by
  obtain ⟨_, hc'⟩ := Chan.recv_frame _ _ _ hr
  subst hc'
  refine h.chan_set x c _ hc rfl ?_ rfl
  have := (h.chan_cap _ c hc).2
  simp only [Chan.len] at this ⊢
  omega

theorem distributeFrames_inv (w : World) (d : Nat) (a : DistStep) (h : w.Inv) :
    (distributeFrames w d a).Inv := by
  unfold distributeFrames
  split
  · exact h
  · split
    · split <;> exact h
    · split <;> exact h
    · split
      · exact h
      · next c hc =>
        split
        · next f c' hr => exact Inv.recv h _ c c' f hc hr
        · exact h
        · exact h
    · exact h
    · exact h
    · split
      · exact h
      · next c hc =>
        split
        · next c' hs => exact Inv.send h _ c c' _ hc hs
        · exact h
        · exact h
    · exact h

theorem consume_inv (w : World) (c : Nat) (h : w.Inv) : (consume w c).Inv := by
  unfold consume
  split
  · exact h
  · split
    · exact h
    · next ch hc =>
      split
      · next f ch' hr => exact Inv.recv h _ ch ch' f hc hr
      · exact h

theorem step_inv (be : Backend) (w : World) (ev : Event) (h : w.Inv) :
    (step be w ev).Inv := by
  unfold step
  split
  · exact h
  · cases ev with
    | addSource ctx config => exact AddSource_inv be w ctx config h
    | subscribe sourceID => exact Subscribe_inv w sourceID h
    | removeSource sourceID => exact RemoveSource_inv w sourceID h
    | cancel ctx => exact h
    | capture t now r => exact captureFrames_inv w t now r h
    | dist d a => exact distributeFrames_inv w d a h
    | consume c => exact consume_inv w c h

theorem NewCameraService_inv : NewCameraService.Inv := by
  refine ⟨?_, ?_, ?_, ?_, ?_, ?_, ?_, ?_, ?_, ?_, ?_, ?_, ?_⟩ <;>
    simp [NewCameraService]

theorem run_inv_of (be : Backend) (evs : List Event) : ∀ w : World, w.Inv →
    (run be w evs).Inv := by
  induction evs with
  | nil => intro w h; exact h
  | cons ev evs ih =>
    intro w h
    exact ih _ (step_inv be w ev h)

/-- Every world the process reaches from `NewCameraService` satisfies the
invariant. -/
theorem run_inv (be : Backend) (evs : List Event) :
    (run be NewCameraService evs).Inv :=
  run_inv_of be evs _ NewCameraService_inv

theorem filter_key_length_one {α : Type} (m : List (String × α)) (k : String) (v : α)
    (hk : (m.map Prod.fst).Nodup) (h : mapGet m k = some v) :
    (m.filter (fun e => decide (e.1 = k))).length = 1 := by
  induction m with
  | nil => simp [mapGet] at h
  | cons e m ih =>
    obtain ⟨k', v'⟩ := e
    simp only [List.map_cons, List.nodup_cons] at hk
    by_cases h1 : k' = k
    · subst h1
      have : m.filter (fun e => decide (e.1 = k')) = [] := by
        rw [List.filter_eq_nil_iff]
        intro e he hek
        simp at hek
        exact hk.1 (hek ▸ List.mem_map_of_mem Prod.fst he)
      simp [List.filter_cons, this]
    · simp only [mapGet, h1, if_false] at h
      simp [List.filter_cons, h1, ih hk.2 h]

theorem captureExit_svc (w : World) (t : Nat) (pr : Producer) (s : VideoSource) :
    (captureExit w t pr s).svc = w.svc := by
  unfold captureExit
  repeat (first | rfl | split)

theorem captureFrames_svc (w : World) (t : Nat) (now : Nat) (r : BackendRead) :
    (captureFrames w t now r).svc = w.svc := by
  unfold captureFrames
  repeat (first | rfl | exact captureExit_svc _ _ _ _ | split | dsimp only)

theorem distributeFrames_svc (w : World) (d : Nat) (a : DistStep) :
    (distributeFrames w d a).svc = w.svc := by
  unfold distributeFrames
  repeat (first | rfl | split)

theorem consume_svc (w : World) (c : Nat) : (consume w c).svc = w.svc := by
  unfold consume
  repeat (first | rfl | split)

/-- What `RemoveSource` does to a registered id in a world that satisfies the
invariant: the close loop succeeds and the call returns `ok`. -/
theorem RemoveSource_registered (w : World) (sourceID : String) (p : Nat) (h : w.Inv)
    (hg : mapGet w.svc.sources sourceID = some p) :
    ∃ (s : VideoSource) (chans' : List Chan), w.heap[p]? = some s ∧
      closeAll w.chans ((mapGet w.svc.subscribers sourceID).getD []) = some chans' ∧
      RemoveSource w sourceID =
        ({ w with
            heap := w.heap.set p { s with isActive := false },
            chans := chans',
            svc := { sources := mapDelete w.svc.sources sourceID,
                     subscribers := mapDelete w.svc.subscribers sourceID } },
         .ok ()) := by
  obtain ⟨s, hs, _⟩ := h.src_valid _ _ (mapGet_some_mem _ _ _ hg)
  have hnd : ((mapGet w.svc.subscribers sourceID).getD []).Nodup := by
    cases hl : mapGet w.svc.subscribers sourceID with
    | none => simp
    | some l => simpa using h.sub_nodup _ _ (mapGet_some_mem _ _ _ hl)
  obtain ⟨chans', hc⟩ := closeAll_isSome _ w.chans hnd (by
    intro x hx
    exact h.sub_open _ _ (mapGet_getD_mem _ _ x hx) x hx)
  refine ⟨s, chans', hs, hc, ?_⟩
  simp only [RemoveSource, hg, VideoSource.Stop, hc, World.deref_of_some w p s hs]

theorem AddSource_keeps (be : Backend) (w : World) (ctx : Nat) (config : SourceConfig)
    (k : String) (hk : (mapGet w.svc.sources k).isSome = true) :
    mapGet (AddSource be w ctx config).1.svc.sources k = mapGet w.svc.sources k ∧
    mapGet (AddSource be w ctx config).1.svc.subscribers k = mapGet w.svc.subscribers k := by
  cases hg : mapGet w.svc.sources (sourceIDOf config) with
  | some p =>
    rw [AddSource_registered be w ctx config p hg]
    exact ⟨rfl, rfl⟩
  | none =>
    have hne : k ≠ sourceIDOf config := by
      intro e
      rw [e, hg] at hk
      simp at hk
    cases ho : openCapture be config with
    | none =>
      rw [AddSource_unsupported be w ctx config hg ho]
      exact ⟨rfl, rfl⟩
    | some b =>
      cases b with
      | false =>
        rw [AddSource_openFailed be w ctx config hg ho]
        exact ⟨rfl, rfl⟩
      | true =>
        rw [AddSource_opened be w ctx config hg ho]
        exact ⟨mapGet_mapSet_other _ _ _ _ hne, mapGet_mapSet_other _ _ _ _ hne⟩

theorem RemoveSource_keeps (w : World) (sourceID k : String) (hk : k ≠ sourceID) :
    mapGet (RemoveSource w sourceID).1.svc.sources k = mapGet w.svc.sources k ∧
    mapGet (RemoveSource w sourceID).1.svc.subscribers k = mapGet w.svc.subscribers k := by
  unfold RemoveSource
  split
  · exact ⟨rfl, rfl⟩
  · dsimp only
    split
    · exact ⟨rfl, rfl⟩
    · exact ⟨mapGet_mapDelete_other _ _ _ hk, mapGet_mapDelete_other _ _ _ hk⟩

/-- While an id stays registered and is not removed, its subscriber list grows
by exactly the channels its `Subscribe` calls return. -/
theorem subscribers_after_run (be : Backend) (sourceID : String) (evs : List Event) :
    ∀ (w : World) (p : Nat) (l : List Nat),
      mapGet w.svc.sources sourceID = some p →
      mapGet w.svc.subscribers sourceID = some l →
      Event.removeSource sourceID ∉ evs →
      mapGet (run be w evs).svc.sources sourceID = some p ∧
      mapGet (run be w evs).svc.subscribers sourceID =
        some (l ++ subscribed be sourceID w evs) := by
  induction evs with
  | nil =>
    intro w p l hp hl _
    simp [run, subscribed, hp, hl]
  | cons ev evs ih =>
    intro w p l hp hl hrm
    have hrm' : Event.removeSource sourceID ∉ evs := fun h => hrm (List.mem_cons_of_mem _ h)
    have hev : ev ≠ Event.removeSource sourceID := fun h => hrm (h ▸ List.mem_cons_self _ _)
    show mapGet (run be (step be w ev) evs).svc.sources sourceID = some p ∧
      mapGet (run be (step be w ev) evs).svc.subscribers sourceID =
        some (l ++ subscribed be sourceID w (ev :: evs))
    by_cases hpan : w.panicked = true
    · have hstep : step be w ev = w := by simp [step, hpan]
      have := ih w p l hp hl hrm'
      rw [hstep]
      have hsub : subscribed be sourceID w (ev :: evs) = subscribed be sourceID w evs := by
        cases ev <;> simp [subscribed, hpan, hstep]
      rw [hsub]
      exact this
    · have hpan' : w.panicked = false := by simpa using hpan
      -- the step leaves the entry of `sourceID` alone unless it is a `Subscribe` to it
      have key : ∀ l' : List Nat,
          mapGet (step be w ev).svc.sources sourceID = some p →
          mapGet (step be w ev).svc.subscribers sourceID = some (l ++ l') →
          subscribed be sourceID w (ev :: evs) =
            l' ++ subscribed be sourceID (step be w ev) evs →
          mapGet (run be (step be w ev) evs).svc.sources sourceID = some p ∧
          mapGet (run be (step be w ev) evs).svc.subscribers sourceID =
            some (l ++ subscribed be sourceID w (ev :: evs)) := by
        intro l' h1 h2 h3
        have := ih (step be w ev) p (l ++ l') h1 h2 hrm'
        rw [h3, ← List.append_assoc]
        exact this
      cases ev with
      | addSource ctx config =>
        have hk := AddSource_keeps be w ctx config sourceID (by simp [hp])
        refine key [] ?_ ?_ ?_
        · simp only [step, hpan', Bool.false_eq_true, if_false]
          rw [hk.1]; exact hp
        · simp only [step, hpan', Bool.false_eq_true, if_false]
          rw [hk.2]; simpa using hl
        · simp [subscribed]
      | subscribe k =>
        by_cases hks : k = sourceID
        · subst hks
          refine key [w.chans.length] ?_ ?_ ?_
          · simp [step, hpan', Subscribe, hp]
          · simp [step, hpan', Subscribe, hp, hl, mapGet_mapSet_same]
          · simp [subscribed, hpan', Subscribe, hp]
        · refine key [] ?_ ?_ ?_
          · simp only [step, hpan', Bool.false_eq_true, if_false, Subscribe]
            split
            · exact hp
            · exact hp
          · simp only [step, hpan', Bool.false_eq_true, if_false, Subscribe]
            split
            · simpa using hl
            · simp only [List.append_nil]
              rw [mapGet_mapSet_other _ _ _ _ (Ne.symm hks)]
              exact hl
          · simp [subscribed, hks]
      | removeSource k =>
        have hks : sourceID ≠ k := fun e => hev (by rw [e])
        have hk := RemoveSource_keeps w k sourceID hks
        refine key [] ?_ ?_ ?_
        · simp only [step, hpan', Bool.false_eq_true, if_false]
          rw [hk.1]; exact hp
        · simp only [step, hpan', Bool.false_eq_true, if_false]
          rw [hk.2]; simpa using hl
        · simp [subscribed]
      | cancel ctx =>
        refine key [] ?_ ?_ ?_
        · simpa [step, hpan'] using hp
        · simpa [step, hpan'] using hl
        · simp [subscribed]
      | capture t now r =>
        refine key [] ?_ ?_ ?_
        · simpa [step, hpan', captureFrames_svc] using hp
        · simpa [step, hpan', captureFrames_svc] using hl
        · simp [subscribed]
      | dist d a =>
        refine key [] ?_ ?_ ?_
        · simpa [step, hpan', distributeFrames_svc] using hp
        · simpa [step, hpan', distributeFrames_svc] using hl
        · simp [subscribed]
      | consume c =>
        refine key [] ?_ ?_ ?_
        · simpa [step, hpan', consume_svc] using hp
        · simpa [step, hpan', consume_svc] using hl
        · simp [subscribed]

theorem AddSource_ok_inv (be : Backend) (w : World) (ctx : Nat) (config : SourceConfig)
    (id : String) (h : (AddSource be w ctx config).2 = .ok id) :
    mapGet w.svc.sources (sourceIDOf config) = none ∧ openCapture be config = some true := by
  cases hg : mapGet w.svc.sources (sourceIDOf config) with
  | some p =>
    rw [AddSource_registered be w ctx config p hg] at h
    simp at h
  | none =>
    cases ho : openCapture be config with
    | none =>
      rw [AddSource_unsupported be w ctx config hg ho] at h
      simp at h
    | some b =>
      cases b with
      | false =>
        rw [AddSource_openFailed be w ctx config hg ho] at h
        simp at h
      | true => exact ⟨rfl, rfl⟩

theorem ListSources_ids (w : World) (h : w.Inv) :
    (ListSources w).map (fun info => info.ID) = w.svc.sources.map Prod.fst := by
  unfold ListSources
  rw [List.map_map]
  apply List.map_congr_left
  intro e he
  obtain ⟨s, hs, hid⟩ := h.src_valid e.1 e.2 he
  simp only [Function.comp, World.deref_of_some w e.2 s hs, VideoSource.GetInfo]
  exact hid

theorem ListSources_mem_iff (w : World) (h : w.Inv) (info : SourceInfo) :
    info ∈ ListSources w ↔
      ∃ (p : Nat) (s : VideoSource), mapGet w.svc.sources info.ID = some p ∧
        w.heap[p]? = some s ∧ info = s.GetInfo := by
  unfold ListSources
  constructor
  · intro hm
    obtain ⟨e, he, hinfo⟩ := List.mem_map.1 hm
    obtain ⟨s, hs, hid⟩ := h.src_valid e.1 e.2 he
    rw [World.deref_of_some w e.2 s hs] at hinfo
    refine ⟨e.2, s, ?_, hs, hinfo.symm⟩
    have hID : info.ID = e.1 := by
      rw [← hinfo]
      exact hid
    rw [hID]
    exact mapGet_of_mem _ _ _ h.src_keys he
  · rintro ⟨p, s, hg, hs, hinfo⟩
    refine List.mem_map.2 ⟨(info.ID, p), mapGet_some_mem _ _ _ hg, ?_⟩
    simp only [World.deref_of_some w p s hs]
    exact hinfo.symm

theorem RemoveSource_ok_inv (w : World) (sourceID : String)
    (h : (RemoveSource w sourceID).2 = .ok ()) :
    ∃ p : Nat, mapGet w.svc.sources sourceID = some p := by
  cases hg : mapGet w.svc.sources sourceID with
  | none => simp [RemoveSource, hg] at h
  | some p => exact ⟨p, rfl⟩

theorem distributeFrames_snapshot (w : World) (d : Nat) (ds : Distributor) (fc : Nat)
    (f : FrameData) (hd : w.distributors[d]? = some ds) (hst : ds.state = .gotFrame fc f) :
    distributeFrames w d .snapshot =
      { w with
          distributors := w.distributors.set d
            { ds with
                state := .sending fc f ((mapGet w.svc.subscribers ds.sourceID).getD []) } } := by
  obtain ⟨ctx, sid, st⟩ := ds
  simp only at hst
  subst hst
  simp [distributeFrames, hd]

theorem distributeFrames_send_nil (w : World) (d : Nat) (ds : Distributor) (fc : Nat)
    (f : FrameData) (hd : w.distributors[d]? = some ds) (hst : ds.state = .sending fc f []) :
    distributeFrames w d .send =
      { w with distributors := w.distributors.set d { ds with state := .waiting fc } } := by
  obtain ⟨ctx, sid, st⟩ := ds
  simp only at hst
  subst hst
  simp [distributeFrames, hd]

theorem distributeFrames_send_cons (w : World) (d : Nat) (ds : Distributor) (fc : Nat)
    (f : FrameData) (sub : Nat) (rest : List Nat) (c : Chan)
    (hd : w.distributors[d]? = some ds) (hst : ds.state = .sending fc f (sub :: rest))
    (hc : w.chans[sub]? = some c) :
    distributeFrames w d .send =
      match c.trySend f with
      | .sent c' =>
        { w with
            chans := w.chans.set sub c',
            distributors := w.distributors.set d { ds with state := .sending fc f rest } }
      | .full =>
        { w with distributors := w.distributors.set d { ds with state := .sending fc f rest } }
      | .panic => { w with panicked := true } := by
  obtain ⟨ctx, sid, st⟩ := ds
  simp only at hst
  subst hst
  simp [distributeFrames, hd, hc]

theorem run_cons (be : Backend) (w : World) (ev : Event) (evs : List Event) :
    run be w (ev :: evs) = run be (step be w ev) evs := rfl

theorem step_dist (be : Backend) (w : World) (d : Nat) (a : DistStep)
    (h : w.panicked = false) : step be w (.dist d a) = distributeFrames w d a := by
  simp [step, h]

/-- The whole loop `for _, sub := range subs` of one distributor, run without
interruption from the state `sending fc f rest`, when the channels of `rest`
are distinct and open: no panic, the goroutine is back in the outer `select`,
every channel of `rest` with room has the frame at its tail, every full one and
every channel outside `rest` is as before. -/
theorem send_loop (be : Backend) (fc : Nat) (f : FrameData) (d : Nat) (rest : List Nat) :
    ∀ (w : World) (ds : Distributor), w.panicked = false →
      w.distributors[d]? = some ds → ds.state = .sending fc f rest → rest.Nodup →
      (∀ c : Nat, c ∈ rest → ∃ ch : Chan, w.chans[c]? = some ch ∧ ch.closed = false) →
      (run be w (List.replicate (rest.length + 1) (.dist d .send))).panicked = false ∧
      (run be w (List.replicate (rest.length + 1) (.dist d .send))).distributors[d]? =
        some { ds with state := .waiting fc } ∧
      (∀ c : Nat, c ∈ rest → ∃ ch : Chan, w.chans[c]? = some ch ∧
        (run be w (List.replicate (rest.length + 1) (.dist d .send))).chans[c]? =
          some (if ch.len < ch.cap then { ch with sent := ch.sent ++ [f] } else ch)) ∧
      (∀ c : Nat, c ∉ rest →
        (run be w (List.replicate (rest.length + 1) (.dist d .send))).chans[c]? =
          w.chans[c]?) := by
  induction rest with
  | nil =>
    intro w ds hpan hd hst _ _
    have hlt := getElem?_lt _ _ _ hd
    simp only [List.length_nil, Nat.zero_add, List.replicate_one, run_cons, step_dist be w d _ hpan,
      distributeFrames_send_nil w d ds fc f hd hst]
    refine ⟨hpan, by simp [run, hlt], by simp, fun c _ => rfl⟩
  | cons sub rest ih =>
    intro w ds hpan hd hst hnd hop
    have hlt := getElem?_lt _ _ _ hd
    obtain ⟨hsub, hnd'⟩ := List.nodup_cons.1 hnd
    obtain ⟨ch, hch, hcl⟩ := hop sub (List.mem_cons_self _ _)
    have hclt := getElem?_lt _ _ _ hch
    have hrun : run be w (List.replicate ((sub :: rest).length + 1) (.dist d .send)) =
        run be (distributeFrames w d .send) (List.replicate (rest.length + 1) (.dist d .send)) := by
      rw [List.length_cons, List.replicate_succ, run_cons, step_dist be w d _ hpan]
    rw [hrun, distributeFrames_send_cons w d ds fc f sub rest ch hd hst hch]
    by_cases hroom : ch.len < ch.cap
    · have hsend : ch.trySend f = .sent { ch with sent := ch.sent ++ [f] } := by
        simp [Chan.trySend, hcl, hroom]
      rw [hsend]
      dsimp only
      obtain ⟨h1, h2, h3, h4⟩ := ih
        { w with
            chans := w.chans.set sub { ch with sent := ch.sent ++ [f] },
            distributors := w.distributors.set d { ds with state := .sending fc f rest } }
        { ds with state := .sending fc f rest } hpan (by simp [hlt]) rfl hnd' (by
          intro c hc
          have hne : sub ≠ c := fun e => hsub (e ▸ hc)
          obtain ⟨ch2, hch2, hcl2⟩ := hop c (List.mem_cons_of_mem _ hc)
          exact ⟨ch2, by simp [hne, hch2], hcl2⟩)
      refine ⟨h1, h2, ?_, ?_⟩
      · intro c hc
        rcases List.mem_cons.1 hc with e | hc'
        · subst e
          refine ⟨ch, hch, ?_⟩
          rw [h4 c hsub]
          simp [hclt, hroom]
        · have hne : sub ≠ c := fun e => hsub (e ▸ hc')
          obtain ⟨ch2, hch2, hres⟩ := h3 c hc'
          simp only [List.getElem?_set_ne hne] at hch2
          exact ⟨ch2, hch2, hres⟩
      · intro c hc
        simp only [List.mem_cons, not_or] at hc
        rw [h4 c hc.2]
        simp [Ne.symm hc.1]
    · have hsend : ch.trySend f = .full := by
        simp [Chan.trySend, hcl, hroom]
      rw [hsend]
      dsimp only
      obtain ⟨h1, h2, h3, h4⟩ := ih
        { w with
            distributors := w.distributors.set d { ds with state := .sending fc f rest } }
        { ds with state := .sending fc f rest } hpan (by simp [hlt]) rfl hnd' (by
          intro c hc
          exact hop c (List.mem_cons_of_mem _ hc))
      refine ⟨h1, h2, ?_, ?_⟩
      · intro c hc
        rcases List.mem_cons.1 hc with e | hc'
        · subst e
          refine ⟨ch, hch, ?_⟩
          rw [h4 c hsub]
          simp [hroom, hch]
        · exact h3 c hc'
      · intro c hc
        simp only [List.mem_cons, not_or] at hc
        exact h4 c hc.2

/-- A producer iteration that finds its context cancelled, or whose read fails
on a source that is not a file, leaves the loop. -/
theorem captureFrames_exits (w : World) (t : Nat) (now : Nat) (r : BackendRead)
    (pr : Producer) (ht : w.producers[t]? = some pr) (hrun : pr.done = false)
    (hcap : (w.deref pr.src).capture.isSome = true)
    (hstop : pr.ctx ∈ w.cancelled ∨
      (r = .readFail ∧ (w.deref pr.src).config.Typ ≠ "file")) :
    captureFrames w t now r = captureExit w t pr (w.deref pr.src) := by
  unfold captureFrames
  simp only [ht, hrun, Bool.false_eq_true, if_false]
  by_cases ha : (w.deref pr.src).isActive = false
  · rw [if_pos ha]
  · rw [if_neg ha]
    by_cases hx : pr.ctx ∈ w.cancelled
    · rw [if_pos hx]
    · rw [if_neg hx]
      obtain ⟨v, hv⟩ := Option.isSome_iff_exists.1 hcap
      rcases hstop with h1 | ⟨h1, h2⟩
      · exact absurd h1 hx
      · subst h1
        simp only [hv, if_neg h2]

/-! ## The order invariant holds in every run without a re-added id -/

theorem sublist_take_succ {α : Type} (l F : List α) (m : Nat) (f : α)
    (h : l.Sublist (F.take m)) (hf : F[m]? = some f) :
    (l ++ [f]).Sublist (F.take (m + 1)) := by
  rw [List.take_succ, hf]
  exact List.Sublist.append h (List.Sublist.refl _)

theorem sublist_take_mono {α : Type} (l F : List α) (m m' : Nat)
    (h : l.Sublist (F.take m)) (hm : m ≤ m') : l.Sublist (F.take m') :=
  h.trans (List.take_sublist_take_left F hm)

theorem Increasing.of_sublist_take (l F : List FrameData) (m : Nat)
    (h : l.Sublist (F.take m)) (hF : Increasing F) : Increasing l :=
  List.Pairwise.sublist (h.trans (List.take_sublist m F)) hF

/-- A distributor's agreement with the channels survives a change of the world
that leaves what it reads alone: objects keep config and output channel, new
objects and new subscribers use new channels, the subscriber lists of other ids
gain no old channel, its output channel keeps its receive count and only gains
frames, and the channels it serves keep their frames. -/
theorem DistOK.transfer {subs subs' : List (String × List Nat)} {heap heap' : List VideoSource}
    {chans chans' : List Chan} {ds : Distributor} (h : DistOK subs heap chans ds)
    (hlen : chans.length ≤ chans'.length)
    (hheap : ∀ (q : Nat) (s : VideoSource), heap[q]? = some s →
      ∃ s' : VideoSource, heap'[q]? = some s' ∧ s'.frames = s.frames ∧ s'.config = s.config)
    (hheap' : ∀ (q : Nat) (s' : VideoSource), heap'[q]? = some s' →
      (∃ s : VideoSource, heap[q]? = some s ∧ s.frames = s'.frames) ∨
        chans.length ≤ s'.frames)
    (hsubs : ∀ c : Nat, c ∈ subsOf subs' ds.sourceID → c ∈ subsOf subs ds.sourceID ∨
      ∃ ch' : Chan, chans'[c]? = some ch' ∧ ch'.sent = [])
    (hforeign : ∀ (k : String) (l' : List Nat), (k, l') ∈ subs' → k ≠ ds.sourceID →
      ∀ c : Nat, c ∈ l' → c < chans.length → ∃ l : List Nat, (k, l) ∈ subs ∧ c ∈ l)
    (hfc : ∀ (fc : Nat) (och : Chan), ds.state.fc? = some fc → chans[fc]? = some och →
      och.rcvd ≤ och.sent.length ∧
      ∃ och' : Chan, chans'[fc]? = some och' ∧ och'.rcvd = och.rcvd ∧
        ∃ ex : List FrameData, och'.sent = och.sent ++ ex)
    (hch : ∀ (c : Nat) (ch : Chan), chans[c]? = some ch →
      (c ∈ subsOf subs ds.sourceID ∨ c ∈ ds.state.rest) →
      ∃ ch' : Chan, chans'[c]? = some ch' ∧ ch'.sent = ch.sent) :
    DistOK subs' heap' chans' ds := by
  obtain ⟨h1, h2, h3, h4⟩ := h
  refine ⟨?_, ?_, h3, ?_⟩
  · intro hst c hc
    rcases hsubs c hc with hold | hnew
    · obtain ⟨ch, hch1, hch2⟩ := h1 hst c hold
      obtain ⟨ch', hch', hs'⟩ := hch c ch hch1 (Or.inl hold)
      exact ⟨ch', hch', by rw [hs', hch2]⟩
    · exact hnew
  · intro fc hfcs
    obtain ⟨⟨q, s, hq, hsf, hsk⟩, och, hoch, hheld, hfed⟩ := h2 fc hfcs
    obtain ⟨s', hs', hs'f, hs'c⟩ := hheap q s hq
    obtain ⟨hrl, och', hoch', hrc, ex, hex⟩ := hfc fc och hfcs hoch
    refine ⟨⟨q, s', hs', by rw [hs'f, hsf], by rw [hs'c, hsk]⟩, och', hoch', ?_, ?_⟩
    · intro f hf
      obtain ⟨hge, hget⟩ := hheld f hf
      refine ⟨by rw [hrc]; exact hge, ?_⟩
      rw [hrc, hex, List.getElem?_append_left (getElem?_lt _ _ _ hget)]
      exact hget
    · intro c hc
      have hprog : ds.state.progress och.rcvd c ≤ och.sent.length := by
        have : ds.state.progress och.rcvd c ≤ och.rcvd := by
          unfold DistState.progress
          split
          · omega
          · split <;> omega
          · omega
        omega
      have htake : och'.sent.take (ds.state.progress och'.rcvd c) =
          och.sent.take (ds.state.progress och.rcvd c) := by
        rw [hrc, hex, List.take_append_of_le_length hprog]
      have hold : c ∈ subsOf subs ds.sourceID ∨ c ∈ ds.state.rest →
          Fed chans' och' (ds.state.progress och'.rcvd c) c := by
        intro hc'
        obtain ⟨ch, hch1, hch2⟩ := hfed c hc'
        obtain ⟨ch', hch', hs'⟩ := hch c ch hch1 hc'
        exact ⟨ch', hch', by rw [hs', htake]; exact hch2⟩
      rcases hc with hc | hc
      · rcases hsubs c hc with ho | ⟨ch', hch', hs'⟩
        · exact hold (Or.inl ho)
        · exact ⟨ch', hch', by rw [hs']; exact List.nil_sublist _⟩
      · exact hold (Or.inr hc)
  · intro c hc
    obtain ⟨hlt, hnf, hfo⟩ := h4 c hc
    refine ⟨by omega, ?_, ?_⟩
    · intro q s' hq hsc
      rcases hheap' q s' hq with ⟨s, hs, hsf⟩ | hge
      · exact hnf q s hs (by rw [hsf]; exact hsc)
      · omega
    · intro k l' hk hne hcl
      obtain ⟨l, hl, hcl'⟩ := hforeign k l' hk hne c hcl hlt
      exact hfo k l hl hne hcl'

/-- The order invariant survives a change of the world that appends no frame
and leaves the distributors as they are. -/
theorem Ord.frame {R R' : List String} {n n' : Nat} {svc svc' : CameraService}
    {heap heap' : List VideoSource} {chans chans' : List Chan}
    {prods prods' : List Producer} {dists : List Distributor}
    (h : Ord R n svc heap chans prods dists)
    (hn : n ≤ n')
    (hreg : ∀ k : String, (mapGet svc.sources k).isSome = true ∨ k ∈ R →
      (mapGet svc'.sources k).isSome = true ∨ k ∈ R')
    (hgone : ∀ k : String, k ∈ R' → mapGet svc'.sources k = none)
    (hlen : chans.length ≤ chans'.length)
    (hfv : ∀ (q : Nat) (s : VideoSource), heap[q]? = some s → s.frames < chans.length)
    (hheap : ∀ (q : Nat) (s : VideoSource), heap[q]? = some s →
      ∃ s' : VideoSource, heap'[q]? = some s' ∧ s'.frames = s.frames ∧ s'.config = s.config)
    (hheap' : ∀ (q : Nat) (s' : VideoSource), heap'[q]? = some s' →
      (∃ s : VideoSource, heap[q]? = some s ∧ s.frames = s'.frames) ∨
        chans.length ≤ s'.frames)
    (hprods : ∀ (t : Nat) (pr' : Producer), prods'[t]? = some pr' →
      ∃ (pr : Producer) (s : VideoSource), prods[t]? = some pr ∧ heap[pr.src]? = some s ∧
        pr'.src = pr.src ∧ pr'.frameID = pr.frameID)
    (hchans : ∀ (c : Nat) (ch : Chan), chans[c]? = some ch →
      ∃ ch' : Chan, chans'[c]? = some ch' ∧ ch'.sent = ch.sent ∧
        ch'.rcvd ≤ ch'.sent.length ∧
        ((∃ (q : Nat) (s : VideoSource), heap[q]? = some s ∧ s.frames = c) →
          ch'.rcvd = ch.rcvd))
    (hchans' : ∀ (c : Nat) (ch' : Chan), chans'[c]? = some ch' → chans.length ≤ c →
      ch'.sent = [] ∧ ch'.rcvd = 0)
    (hsubs : ∀ (k : String) (c : Nat), c ∈ subsOf svc'.subscribers k →
      c ∈ subsOf svc.subscribers k ∨ ∃ ch' : Chan, chans'[c]? = some ch' ∧ ch'.sent = [])
    (hforeign : ∀ (k : String) (l' : List Nat), (k, l') ∈ svc'.subscribers →
      ∀ c : Nat, c ∈ l' → c < chans.length → ∃ l : List Nat, (k, l) ∈ svc.subscribers ∧ c ∈ l) :
    Ord R' n' svc' heap' chans' prods' dists := by
  have old : ∀ (c : Nat) (ch' : Chan), chans'[c]? = some ch' →
      (∃ ch : Chan, chans[c]? = some ch ∧ ch'.sent = ch.sent ∧ ch'.rcvd ≤ ch'.sent.length) ∨
        (ch'.sent = [] ∧ ch'.rcvd = 0) := by
    intro c ch' hc
    by_cases hlt : c < chans.length
    · obtain ⟨ch, hch⟩ : ∃ ch : Chan, chans[c]? = some ch :=
        ⟨chans[c], List.getElem?_eq_getElem hlt⟩
      obtain ⟨ch'', hch'', h1, h2, _⟩ := hchans c ch hch
      rw [hc] at hch''
      injection hch'' with e
      subst e
      exact Or.inl ⟨ch, hch, h1, h2⟩
    · exact Or.inr (hchans' c ch' hc (by omega))
  refine ⟨?_, ?_, ?_, ?_, hgone, h.dist_inj, ?_, h.rest_disj⟩
  · intro c ch' hc
    rcases old c ch' hc with ⟨ch, hch, h1, _⟩ | ⟨h1, _⟩
    · rw [h1]
      exact h.sorted c ch hch
    · rw [h1]
      exact List.Pairwise.nil
  · intro c ch' hc
    rcases old c ch' hc with ⟨ch, hch, _, h2⟩ | ⟨h1, h2⟩
    · exact h2
    · rw [h1, h2]
      exact Nat.le_refl _
  · intro t pr' s' och' ht hs' hoch'
    obtain ⟨pr, s, hpr, hs, hsrc, hfid⟩ := hprods t pr' ht
    obtain ⟨s'', hs'', hfr, _⟩ := hheap pr.src s hs
    rw [hsrc, hs''] at hs'
    injection hs' with e
    subst e
    have hlt := hfv pr.src s hs
    obtain ⟨och, hoch⟩ : ∃ och : Chan, chans[s.frames]? = some och :=
      ⟨chans[s.frames], List.getElem?_eq_getElem hlt⟩
    obtain ⟨och'', hoch'', hsent, _, _⟩ := hchans s.frames och hoch
    rw [hfr, hoch''] at hoch'
    injection hoch' with e
    subst e
    obtain ⟨b1, b2, b3, b4, b5⟩ := h.prod_bound t pr s och hpr hs hoch
    rw [hfid, hsent]
    exact ⟨b1, by omega, b3, b4, b5⟩
  · intro d ds hd
    exact hreg _ (h.dist_reg d ds hd)
  · intro d ds hd
    have hok := h.dist_ok d ds hd
    refine hok.transfer hlen hheap hheap' (hsubs ds.sourceID)
      (fun k l' hk _ c hc hlt => hforeign k l' hk c hc hlt) ?_ ?_
    · intro fc och hfcs hoch
      obtain ⟨hown, _⟩ := hok.2.1 fc hfcs
      obtain ⟨q, s, hq, hsf, _⟩ := hown
      obtain ⟨och', hoch', hsent, _, hr⟩ := hchans fc och hoch
      exact ⟨h.rcvd_le fc och hoch, och', hoch', hr ⟨q, s, hq, hsf⟩, [], by simp [hsent]⟩
    · intro c ch hch _
      obtain ⟨ch', hch', hsent, _, _⟩ := hchans c ch hch
      exact ⟨ch', hch', hsent⟩

theorem Ord.mono {R : List String} {n n' : Nat} {svc : CameraService}
    {heap : List VideoSource} {chans : List Chan} {prods : List Producer}
    {dists : List Distributor} (h : Ord R n svc heap chans prods dists) (hn : n ≤ n') :
    Ord R n' svc heap chans prods dists := by
  refine ⟨h.sorted, h.rcvd_le, ?_, h.dist_reg, h.removed_gone, h.dist_inj, h.dist_ok,
    h.rest_disj⟩
  intro t pr s och ht hs hoch
  obtain ⟨b1, b2, b3, b4, b5⟩ := h.prod_bound t pr s och ht hs hoch
  exact ⟨b1, by omega, b3, b4, b5⟩

theorem Ord.producer_add {R : List String} {n : Nat} {svc : CameraService}
    {heap : List VideoSource} {chans : List Chan} {prods : List Producer}
    {dists : List Distributor} (h : Ord R n svc heap chans prods dists)
    (pr0 : Producer) (hid : pr0.frameID = 0)
    (hnew : ∀ (s : VideoSource) (och : Chan), heap[pr0.src]? = some s →
      chans[s.frames]? = some och → och.sent = []) :
    Ord R n svc heap chans (prods ++ [pr0]) dists := by
  refine ⟨h.sorted, h.rcvd_le, ?_, h.dist_reg, h.removed_gone, h.dist_inj, h.dist_ok,
    h.rest_disj⟩
  intro t pr s och ht hs hoch
  rcases getElem?_concat_some _ _ _ _ ht with h1 | ⟨_, h1⟩
  · exact h.prod_bound t pr s och h1 hs hoch
  · subst h1
    have he := hnew s och hs hoch
    rw [hid, he]
    refine ⟨le_refl _, by omega, ?_, fun _ => rfl, ?_⟩
    · intro f hf
      simp at hf
    · intro f hf
      simp at hf

theorem Ord.dist_add {R : List String} {n : Nat} {svc : CameraService}
    {heap : List VideoSource} {chans : List Chan} {prods : List Producer}
    {dists : List Distributor} (h : Ord R n svc heap chans prods dists)
    (d0 : Distributor) (hst : d0.state = .start)
    (hreg : (mapGet svc.sources d0.sourceID).isSome = true)
    (hsubs : subsOf svc.subscribers d0.sourceID = [])
    (hfresh : ∀ (d : Nat) (ds : Distributor), dists[d]? = some ds →
      ds.sourceID ≠ d0.sourceID) :
    Ord R n svc heap chans prods (dists ++ [d0]) := by
  have hrest : d0.state.rest = [] := by rw [hst]; rfl
  refine ⟨h.sorted, h.rcvd_le, h.prod_bound, ?_, h.removed_gone, ?_, ?_, ?_⟩
  · intro d ds hd
    rcases getElem?_concat_some _ _ _ _ hd with h1 | ⟨_, h1⟩
    · exact h.dist_reg d ds h1
    · subst h1
      exact Or.inl hreg
  · intro d e ds es hd he hsid
    rcases getElem?_concat_some _ _ _ _ hd with h1 | ⟨h1, h1'⟩
    · rcases getElem?_concat_some _ _ _ _ he with h2 | ⟨h2, h2'⟩
      · exact h.dist_inj d e ds es h1 h2 hsid
      · subst h2'
        exact absurd hsid (hfresh d ds h1)
    · rcases getElem?_concat_some _ _ _ _ he with h2 | ⟨h2, h2'⟩
      · subst h1'
        exact absurd hsid.symm (hfresh e es h2)
      · omega
  · intro d ds hd
    rcases getElem?_concat_some _ _ _ _ hd with h1 | ⟨_, h1⟩
    · exact h.dist_ok d ds h1
    · subst h1
      refine ⟨?_, ?_, ?_, ?_⟩
      · intro _ c hc
        rw [hsubs] at hc
        simp at hc
      · intro fc hfc
        rw [hst] at hfc
        simp [DistState.fc?] at hfc
      · rw [hrest]
        exact List.nodup_nil
      · intro c hc
        rw [hrest] at hc
        simp at hc
  · intro d e ds es hd he hne c hc
    rcases getElem?_concat_some _ _ _ _ hd with h1 | ⟨_, h1⟩
    · rcases getElem?_concat_some _ _ _ _ he with h2 | ⟨_, h2⟩
      · exact h.rest_disj d e ds es h1 h2 hne c hc
      · subst h2
        rw [hrest]
        simp
    · subst h1
      rw [hrest] at hc
      simp at hc

/-- A distributor takes a step that may change channels: the shared part of the
argument, given what the step does to the channels and to every distributor's
agreement with them. -/
theorem Ord.dist_update {R : List String} {n : Nat} {svc : CameraService}
    {heap : List VideoSource} {chans : List Chan} {prods : List Producer}
    {dists : List Distributor} (h : Ord R n svc heap chans prods dists)
    (chans' : List Chan) (d : Nat) (ds ds' : Distributor) (hd : dists[d]? = some ds)
    (hsid : ds'.sourceID = ds.sourceID)
    (hsorted : ∀ (c : Nat) (ch' : Chan), chans'[c]? = some ch' → Increasing ch'.sent)
    (hrcvd : ∀ (c : Nat) (ch' : Chan), chans'[c]? = some ch' → ch'.rcvd ≤ ch'.sent.length)
    (hout : ∀ (q : Nat) (s : VideoSource) (och' : Chan), heap[q]? = some s →
      chans'[s.frames]? = some och' →
      ∃ och : Chan, chans[s.frames]? = some och ∧ och'.sent = och.sent)
    (hok : DistOK svc.subscribers heap chans' ds')
    (hothers : ∀ (e : Nat) (es : Distributor), dists[e]? = some es → e ≠ d →
      DistOK svc.subscribers heap chans' es)
    (hrest : ∀ c : Nat, c ∈ ds'.state.rest → c ∈ ds.state.rest ∨
      ∀ (e : Nat) (es : Distributor), dists[e]? = some es → e ≠ d → c ∉ es.state.rest) :
    Ord R n svc heap chans' prods (dists.set d ds') := by
  have bwd : ∀ (e : Nat) (es' : Distributor), (dists.set d ds')[e]? = some es' →
      (e = d ∧ es' = ds') ∨ (e ≠ d ∧ dists[e]? = some es') := by
    intro e es' he
    rcases getElem?_set_some _ _ _ _ _ he with ⟨h1, h2, _⟩ | ⟨h1, h2⟩
    · exact Or.inl ⟨h1.symm, h2⟩
    · exact Or.inr ⟨Ne.symm h1, h2⟩
  refine ⟨hsorted, hrcvd, ?_, ?_, h.removed_gone, ?_, ?_, ?_⟩
  · intro t pr s och' ht hs hoch'
    obtain ⟨och, hoch, hsent⟩ := hout pr.src s och' hs hoch'
    rw [hsent]
    exact h.prod_bound t pr s och ht hs hoch
  · intro e es' he
    rcases bwd e es' he with ⟨_, h2⟩ | ⟨_, h2⟩
    · subst h2
      rw [hsid]
      exact h.dist_reg d ds hd
    · exact h.dist_reg e es' h2
  · intro e g es' gs' he hg hsg
    rcases bwd e es' he with ⟨h1, h2⟩ | ⟨h1, h2⟩
    · rcases bwd g gs' hg with ⟨h3, h4⟩ | ⟨h3, h4⟩
      · rw [h1, h3]
      · subst h2
        rw [hsid] at hsg
        rw [h1]
        exact h.dist_inj d g ds gs' hd h4 hsg
    · rcases bwd g gs' hg with ⟨h3, h4⟩ | ⟨h3, h4⟩
      · subst h4
        rw [hsid] at hsg
        rw [h3]
        exact h.dist_inj e d es' ds h2 hd hsg
      · exact h.dist_inj e g es' gs' h2 h4 hsg
  · intro e es' he
    rcases bwd e es' he with ⟨_, h2⟩ | ⟨h1, h2⟩
    · subst h2
      exact hok
    · exact hothers e es' h2 h1
  · intro e g es' gs' he hg hne c hc
    rcases bwd e es' he with ⟨h1, h2⟩ | ⟨h1, h2⟩
    · rcases bwd g gs' hg with ⟨h3, h4⟩ | ⟨h3, h4⟩
      · exact absurd (h1.trans h3.symm) hne
      · subst h2
        rcases hrest c hc with h5 | h5
        · exact h.rest_disj d g ds gs' hd h4 (fun e' => h3 e'.symm) c h5
        · exact h5 g gs' h4 h3
    · rcases bwd g gs' hg with ⟨h3, h4⟩ | ⟨h3, h4⟩
      · subst h4
        intro hc'
        rcases hrest c hc' with h5 | h5
        · exact h.rest_disj e d es' ds h2 hd h1 c hc h5
        · exact h5 e es' h2 h1 hc
      · exact h.rest_disj e g es' gs' h2 h4 hne c hc

/-- A distributor changes its state and nothing else changes. -/
theorem Ord.dist_set {R : List String} {n : Nat} {svc : CameraService}
    {heap : List VideoSource} {chans : List Chan} {prods : List Producer}
    {dists : List Distributor} (h : Ord R n svc heap chans prods dists)
    (d : Nat) (ds ds' : Distributor) (hd : dists[d]? = some ds)
    (hsid : ds'.sourceID = ds.sourceID)
    (hok : DistOK svc.subscribers heap chans ds')
    (hrest : ∀ c : Nat, c ∈ ds'.state.rest → c ∈ ds.state.rest ∨
      ∀ (e : Nat) (es : Distributor), dists[e]? = some es → e ≠ d → c ∉ es.state.rest) :
    Ord R n svc heap chans prods (dists.set d ds') :=
  h.dist_update chans d ds ds' hd hsid h.sorted h.rcvd_le
    (fun _ _ och' _ hoch' => ⟨och', hoch', rfl⟩) hok
    (fun e es he _ => h.dist_ok e es he) hrest

theorem wrapInt64_of_range (x : Int) (h0 : 0 ≤ x) (h1 : x < 2 ^ 63) : wrapInt64 x = x := by
  unfold wrapInt64
  have h2 : (x + 2 ^ 63) % 2 ^ 64 = x + 2 ^ 63 := by
    apply Int.emod_eq_of_lt
    · omega
    · omega
  omega

/-- A producer iteration whose frame goes into the output channel. -/
theorem Ord.produce_send {R : List String} {n : Nat} {svc : CameraService}
    {heap : List VideoSource} {chans : List Chan} {prods : List Producer}
    {dists : List Distributor} (h : Ord R n svc heap chans prods dists)
    (hinv : Inv svc heap chans prods)
    (t : Nat) (pr : Producer) (s : VideoSource) (och : Chan) (f : FrameData)
    (ht : prods[t]? = some pr) (hs : heap[pr.src]? = some s)
    (hoch : chans[s.frames]? = some och) (hf : f.ID = pr.frameID) :
    Ord R (n + 1) svc heap (chans.set s.frames { och with sent := och.sent ++ [f] })
      (prods.set t { pr with frameID := pr.frameID + 1 }) dists := by
  have hlt := getElem?_lt _ _ _ hoch
  have htlt := getElem?_lt _ _ _ ht
  obtain ⟨b1, b2, b3, b4, b5⟩ := h.prod_bound t pr s och ht hs hoch
  have hsorted := h.sorted _ och hoch
  refine ⟨?_, ?_, ?_, h.dist_reg, h.removed_gone, h.dist_inj, ?_, h.rest_disj⟩
  · intro c ch' hc
    rcases getElem?_set_some _ _ _ _ _ hc with ⟨h1, h2, _⟩ | ⟨_, h2⟩
    · subst h2
      show List.Pairwise _ (och.sent ++ [f])
      rw [List.pairwise_append]
      refine ⟨hsorted, List.pairwise_singleton _ _, ?_⟩
      intro a ha b hb
      simp at hb
      subst hb
      rw [hf]
      exact b3 a ha
    · exact h.sorted c ch' h2
  · intro c ch' hc
    rcases getElem?_set_some _ _ _ _ _ hc with ⟨h1, h2, _⟩ | ⟨_, h2⟩
    · subst h2
      have := h.rcvd_le _ och hoch
      simp only [List.length_append, List.length_singleton]
      omega
    · exact h.rcvd_le c ch' h2
  · intro u pu' su ochu hu hsu hochu
    rcases getElem?_set_some _ _ _ _ _ hu with ⟨h1, h2, _⟩ | ⟨h1, h2⟩
    · subst h1 h2
      simp only at hsu
      rw [hs] at hsu
      injection hsu with e
      subst e
      simp only [hlt, List.getElem?_set_self] at hochu
      injection hochu with e
      subst e
      refine ⟨by simp only; omega, by simp only; omega, ?_, ?_, ?_⟩
      · intro g hg
        simp only
        rcases List.mem_append.1 hg with hg | hg
        · have := b3 g hg
          omega
        · simp at hg
          subst hg
          omega
      · intro he
        simp at he
      · intro g hg
        simp only [List.head?_append] at hg
        cases hsent : och.sent with
        | nil =>
          rw [hsent] at hg
          simp at hg
          subst hg
          rw [hf]
          exact b4 hsent
        | cons a rest =>
          rw [hsent] at hg
          simp at hg
          subst hg
          exact b5 a (by rw [hsent]; rfl)
    · have hne : s.frames ≠ su.frames := by
        intro e
        have := hinv.frames_inj _ _ s su hs hsu e
        exact h1 (hinv.prod_inj t u pr pu' ht h2 this)
      rw [List.getElem?_set_ne hne] at hochu
      obtain ⟨c1, c2, c3, c4, c5⟩ := h.prod_bound u pu' su ochu h2 hsu hochu
      exact ⟨c1, by omega, c3, c4, c5⟩
  · intro d ds hd
    have hok := h.dist_ok d ds hd
    refine hok.transfer (by simp) (fun q s hq => ⟨s, hq, rfl, rfl⟩)
      (fun q s' hq => Or.inl ⟨s', hq, rfl⟩) (fun c hc => Or.inl hc) ?_ ?_ ?_
    · intro k l' hk _ c hc _
      exact ⟨l', hk, hc⟩
    · intro fc ochf hfcs hochf
      refine ⟨h.rcvd_le fc ochf hochf, ?_⟩
      by_cases hfc : s.frames = fc
      · subst hfc
        rw [hoch] at hochf
        injection hochf with e
        subst e
        exact ⟨{ och with sent := och.sent ++ [f] }, by simp [hlt], rfl, [f], rfl⟩
      · exact ⟨ochf, by simp [hfc, hochf], rfl, [], by simp⟩
    · intro c ch hch hc
      have hne : s.frames ≠ c := by
        rcases hc with hc | hc
        · exact hinv.sub_not_frames _ _ (mapGet_getD_mem _ _ c hc) c hc _ s hs
        · exact (hok.2.2.2 c hc).2.1 _ s hs
      exact ⟨ch, by simp [hne, hch], rfl⟩

/-- A producer iteration whose frame is dropped because the output channel is
full. -/
theorem Ord.produce_drop {R : List String} {n : Nat} {svc : CameraService}
    {heap : List VideoSource} {chans : List Chan} {prods : List Producer}
    {dists : List Distributor} (h : Ord R n svc heap chans prods dists)
    (hinv : Inv svc heap chans prods)
    (t : Nat) (pr : Producer) (s : VideoSource) (och : Chan)
    (ht : prods[t]? = some pr) (hs : heap[pr.src]? = some s)
    (hoch : chans[s.frames]? = some och) (hfull : ¬ och.len < och.cap) :
    Ord R (n + 1) svc heap chans (prods.set t { pr with frameID := pr.frameID + 1 })
      dists := by
  obtain ⟨b1, b2, b3, b4, b5⟩ := h.prod_bound t pr s och ht hs hoch
  have hcap := (hinv.chan_cap _ och hoch).1
  have hne : och.sent ≠ [] := by
    intro e
    apply hfull
    rw [hcap]
    simp [Chan.len, e, bufferSize]
  refine ⟨h.sorted, h.rcvd_le, ?_, h.dist_reg, h.removed_gone, h.dist_inj, h.dist_ok,
    h.rest_disj⟩
  intro u pu' su ochu hu hsu hochu
  rcases getElem?_set_some _ _ _ _ _ hu with ⟨h1, h2, _⟩ | ⟨h1, h2⟩
  · subst h1 h2
    simp only at hsu
    rw [hs] at hsu
    injection hsu with e
    subst e
    rw [hoch] at hochu
    injection hochu with e
    subst e
    refine ⟨by simp only; omega, by simp only; omega, ?_, fun e => absurd e hne, b5⟩
    intro g hg
    have := b3 g hg
    simp only
    omega
  · obtain ⟨c1, c2, c3, c4, c5⟩ := h.prod_bound u pu' su ochu h2 hsu hochu
    exact ⟨c1, by omega, c3, c4, c5⟩

theorem Owner.same_id {svc : CameraService} {heap : List VideoSource} {chans : List Chan}
    {prods : List Producer} (hinv : Inv svc heap chans prods) {fc : Nat} {k k' : String}
    (h : Owner heap fc k) (h' : Owner heap fc k') : k = k' := by
  obtain ⟨q, s, hq, hsf, hsk⟩ := h
  obtain ⟨q', s', hq', hsf', hsk'⟩ := h'
  have e := hinv.frames_inj q q' s s' hq hq' (by rw [hsf, hsf'])
  subst e
  rw [hq] at hq'
  injection hq' with e
  subst e
  rw [← hsk, ← hsk']

/-- A distributor's agreement with the channels survives a change of a channel
it neither reads nor serves. -/
theorem DistOK.chan_update {subs : List (String × List Nat)} {heap : List VideoSource}
    {chans : List Chan} {es : Distributor} (h : DistOK subs heap chans es)
    (x : Nat) (ch' : Chan)
    (hrl : ∀ (fc : Nat) (och : Chan), chans[fc]? = some och → och.rcvd ≤ och.sent.length)
    (hfc : es.state.fc? ≠ some x)
    (hrel : x ∉ subsOf subs es.sourceID ∧ x ∉ es.state.rest) :
    DistOK subs heap (chans.set x ch') es := by
  refine h.transfer (by simp) (fun q s hq => ⟨s, hq, rfl, rfl⟩)
    (fun q s' hq => Or.inl ⟨s', hq, rfl⟩) (fun c hc => Or.inl hc) ?_ ?_ ?_
  · intro k l' hk _ c hc _
    exact ⟨l', hk, hc⟩
  · intro fc och hfcs hoch
    have hne : x ≠ fc := fun e => hfc (e ▸ hfcs)
    exact ⟨hrl fc och hoch, och, by simp [hne, hoch], rfl, [], by simp⟩
  · intro c ch hch hc
    have hne : x ≠ c := by
      intro e
      subst e
      rcases hc with hc | hc
      · exact hrel.1 hc
      · exact hrel.2 hc
    exact ⟨ch, by simp [hne, hch], rfl⟩

/-- The distributor of `fc` receives a frame. -/
theorem Ord.dist_recv {R : List String} {n : Nat} {svc : CameraService}
    {heap : List VideoSource} {chans : List Chan} {prods : List Producer}
    {dists : List Distributor} (h : Ord R n svc heap chans prods dists)
    (hinv : Inv svc heap chans prods)
    (d : Nat) (ds : Distributor) (fc : Nat) (och : Chan) (f : FrameData)
    (hd : dists[d]? = some ds) (hst : ds.state = .waiting fc)
    (hoch : chans[fc]? = some och) (hf : och.sent[och.rcvd]? = some f) :
    Ord R n svc heap (chans.set fc { och with rcvd := och.rcvd + 1 }) prods
      (dists.set d { ds with state := .gotFrame fc f }) := by
  have hlt := getElem?_lt _ _ _ hoch
  have hrlt := getElem?_lt _ _ _ hf
  have hold := h.dist_ok d ds hd
  obtain ⟨hown, och0, hoch0, _, hfed⟩ := hold.2.1 fc (by rw [hst]; rfl)
  rw [hoch] at hoch0
  injection hoch0 with e
  subst e
  obtain ⟨q, s, hq, hsf, hsk⟩ := hown
  have hsub_ne : ∀ c : Nat, c ∈ subsOf svc.subscribers ds.sourceID → fc ≠ c := by
    intro c hc e
    exact hinv.sub_not_frames _ _ (mapGet_getD_mem _ _ c hc) c hc q s hq (by rw [hsf, e])
  refine h.dist_update _ d ds _ hd rfl ?_ ?_ ?_ ?_ ?_ ?_
  · intro c ch' hc
    rcases getElem?_set_some _ _ _ _ _ hc with ⟨_, h2, _⟩ | ⟨_, h2⟩
    · subst h2
      exact h.sorted fc och hoch
    · exact h.sorted c ch' h2
  · intro c ch' hc
    rcases getElem?_set_some _ _ _ _ _ hc with ⟨_, h2, _⟩ | ⟨_, h2⟩
    · subst h2
      show och.rcvd + 1 ≤ och.sent.length
      omega
    · exact h.rcvd_le c ch' h2
  · intro q' s' och' hq' hoch'
    rcases getElem?_set_some _ _ _ _ _ hoch' with ⟨h1, h2, _⟩ | ⟨_, h2⟩
    · subst h2
      exact ⟨och, by rw [← h1]; exact hoch, rfl⟩
    · exact ⟨och', h2, rfl⟩
  · refine ⟨?_, ?_, List.nodup_nil, ?_⟩
    · intro hcontra
      simp at hcontra
    · intro fc' hfc'
      simp only [DistState.fc?, Option.some.injEq] at hfc'
      subst hfc'
      refine ⟨⟨q, s, hq, hsf, hsk⟩, { och with rcvd := och.rcvd + 1 }, by simp [hlt], ?_, ?_⟩
      · intro f' hf'
        simp only [DistState.held, Option.some.injEq] at hf'
        subst hf'
        exact ⟨by simp, by simpa using hf⟩
      · intro c hc
        have hc' : c ∈ subsOf svc.subscribers ds.sourceID := by
          rcases hc with hc | hc
          · exact hc
          · simp [DistState.rest] at hc
        obtain ⟨ch, hch1, hch2⟩ := hfed c (Or.inl hc')
        refine ⟨ch, by simp [hsub_ne c hc', hch1], ?_⟩
        simp only [DistState.progress, Nat.add_sub_cancel]
        rw [hst] at hch2
        simpa [DistState.progress] using hch2
    · intro c hc
      simp [DistState.rest] at hc
  · intro e es he hne
    have hes := h.dist_ok e es he
    refine hes.chan_update fc _ h.rcvd_le ?_ ⟨?_, ?_⟩
    · intro hfce
      obtain ⟨hown', _⟩ := hes.2.1 fc hfce
      have hk := Owner.same_id hinv hown' ⟨q, s, hq, hsf, hsk⟩
      exact hne (h.dist_inj e d es ds he hd hk)
    · intro hc
      exact hinv.sub_not_frames _ _ (mapGet_getD_mem _ _ fc hc) fc hc q s hq hsf
    · intro hc
      exact (hes.2.2.2 fc hc).2.1 q s hq hsf
  · intro c hc
    simp [DistState.rest] at hc

/-- A distributor sends the frame it holds to the next subscriber, whose
channel has room. -/
theorem Ord.dist_send {R : List String} {n : Nat} {svc : CameraService}
    {heap : List VideoSource} {chans : List Chan} {prods : List Producer}
    {dists : List Distributor} (h : Ord R n svc heap chans prods dists)
    (d : Nat) (ds : Distributor) (fc : Nat) (f : FrameData) (c : Nat) (rest : List Nat)
    (ch : Chan) (hd : dists[d]? = some ds) (hst : ds.state = .sending fc f (c :: rest))
    (hch : chans[c]? = some ch) :
    Ord R n svc heap (chans.set c { ch with sent := ch.sent ++ [f] }) prods
      (dists.set d { ds with state := .sending fc f rest }) := by
  have hlt := getElem?_lt _ _ _ hch
  have hold := h.dist_ok d ds hd
  obtain ⟨hown, och, hoch, hheld, hfed⟩ := hold.2.1 fc (by rw [hst]; rfl)
  obtain ⟨hge, hget⟩ := hheld f (by rw [hst]; rfl)
  have hnd : (c :: rest).Nodup := by
    have := hold.2.2.1
    rw [hst] at this
    exact this
  obtain ⟨hcr, hnd'⟩ := List.nodup_cons.1 hnd
  have hprops := hold.2.2.2
  rw [hst] at hprops
  simp only [DistState.rest] at hprops
  obtain ⟨_, hnf, hfo⟩ := hprops c (List.mem_cons_self _ _)
  have hfcne : fc ≠ c := by
    obtain ⟨q, s, hq, hsf, _⟩ := hown
    intro e
    exact hnf q s hq (by rw [hsf, e])
  have hsentc : (ch.sent ++ [f]).Sublist (och.sent.take och.rcvd) := by
    obtain ⟨ch0, hch0, hsub⟩ := hfed c (Or.inr (by rw [hst]; exact List.mem_cons_self _ _))
    rw [hch] at hch0
    injection hch0 with e
    subst e
    rw [hst] at hsub
    simp only [DistState.progress, List.mem_cons, true_or, if_true] at hsub
    have := sublist_take_succ _ _ _ f hsub hget
    rwa [Nat.sub_add_cancel hge] at this
  refine h.dist_update _ d ds _ hd rfl ?_ ?_ ?_ ?_ ?_ ?_
  · intro x ch' hx
    rcases getElem?_set_some _ _ _ _ _ hx with ⟨_, h2, _⟩ | ⟨_, h2⟩
    · subst h2
      exact Increasing.of_sublist_take _ _ _ hsentc (h.sorted fc och hoch)
    · exact h.sorted x ch' h2
  · intro x ch' hx
    rcases getElem?_set_some _ _ _ _ _ hx with ⟨_, h2, _⟩ | ⟨_, h2⟩
    · subst h2
      have := h.rcvd_le c ch hch
      simp only [List.length_append, List.length_singleton]
      omega
    · exact h.rcvd_le x ch' h2
  · intro q s och' hq hoch'
    have hne : c ≠ s.frames := fun e => hnf q s hq e.symm
    rw [List.getElem?_set_ne hne] at hoch'
    exact ⟨och', hoch', rfl⟩
  · refine ⟨?_, ?_, hnd', ?_⟩
    · intro hcontra
      simp at hcontra
    · intro fc' hfc'
      simp only [DistState.fc?, Option.some.injEq] at hfc'
      subst hfc'
      refine ⟨hown, och, by simp [Ne.symm hfcne, hoch], ?_, ?_⟩
      · intro f' hf'
        simp only [DistState.held, Option.some.injEq] at hf'
        subst hf'
        exact ⟨hge, hget⟩
      · intro x hx
        by_cases hxc : x = c
        · subst hxc
          refine ⟨{ ch with sent := ch.sent ++ [f] }, by simp [hlt], ?_⟩
          simp only [DistState.progress, hcr, if_false]
          exact hsentc
        · have hx' : x ∈ subsOf svc.subscribers ds.sourceID ∨ x ∈ ds.state.rest := by
            rcases hx with hx | hx
            · exact Or.inl hx
            · refine Or.inr ?_
              rw [hst]
              exact List.mem_cons_of_mem _ hx
          obtain ⟨chx, hchx, hsub⟩ := hfed x hx'
          refine ⟨chx, by simp [Ne.symm hxc, hchx], ?_⟩
          rw [hst] at hsub
          simpa [DistState.progress, hxc] using hsub
    · intro x hx
      obtain ⟨p1, p2, p3⟩ := hprops x (List.mem_cons_of_mem _ hx)
      exact ⟨by simpa using p1, p2, p3⟩
  · intro e es he hne
    have hes := h.dist_ok e es he
    refine hes.chan_update c _ h.rcvd_le ?_ ⟨?_, ?_⟩
    · intro hfce
      obtain ⟨⟨q, s, hq, hsf, _⟩, _⟩ := hes.2.1 c hfce
      exact hnf q s hq hsf
    · intro hc
      have hk : es.sourceID ≠ ds.sourceID := fun e' => hne (h.dist_inj e d es ds he hd e')
      exact hfo _ _ (mapGet_getD_mem _ _ c hc) hk hc
    · intro hc
      exact h.rest_disj d e ds es hd he (Ne.symm hne) c
        (by rw [hst]; exact List.mem_cons_self _ _) hc
  · intro x hx
    refine Or.inl ?_
    rw [hst]
    exact List.mem_cons_of_mem _ hx

/-- A distributor finds the next subscriber's channel full and moves on. -/
theorem Ord.dist_skip {R : List String} {n : Nat} {svc : CameraService}
    {heap : List VideoSource} {chans : List Chan} {prods : List Producer}
    {dists : List Distributor} (h : Ord R n svc heap chans prods dists)
    (d : Nat) (ds : Distributor) (fc : Nat) (f : FrameData) (c : Nat) (rest : List Nat)
    (hd : dists[d]? = some ds) (hst : ds.state = .sending fc f (c :: rest)) :
    Ord R n svc heap chans prods (dists.set d { ds with state := .sending fc f rest }) := by
  have hold := h.dist_ok d ds hd
  obtain ⟨hown, och, hoch, hheld, hfed⟩ := hold.2.1 fc (by rw [hst]; rfl)
  obtain ⟨hge, hget⟩ := hheld f (by rw [hst]; rfl)
  have hnd : (c :: rest).Nodup := by
    have := hold.2.2.1
    rw [hst] at this
    exact this
  obtain ⟨hcr, hnd'⟩ := List.nodup_cons.1 hnd
  have hprops := hold.2.2.2
  rw [hst] at hprops
  simp only [DistState.rest] at hprops
  refine h.dist_set d ds _ hd rfl ⟨?_, ?_, hnd', ?_⟩ ?_
  · intro hcontra
    simp at hcontra
  · intro fc' hfc'
    simp only [DistState.fc?, Option.some.injEq] at hfc'
    subst hfc'
    refine ⟨hown, och, hoch, ?_, ?_⟩
    · intro f' hf'
      simp only [DistState.held, Option.some.injEq] at hf'
      subst hf'
      exact ⟨hge, hget⟩
    · intro x hx
      have hx' : x ∈ subsOf svc.subscribers ds.sourceID ∨ x ∈ ds.state.rest := by
        rcases hx with hx | hx
        · exact Or.inl hx
        · refine Or.inr ?_
          rw [hst]
          exact List.mem_cons_of_mem _ hx
      obtain ⟨chx, hchx, hsub⟩ := hfed x hx'
      refine ⟨chx, hchx, ?_⟩
      rw [hst] at hsub
      by_cases hxc : x = c
      · subst hxc
        simp only [DistState.progress, List.mem_cons, true_or, if_true] at hsub
        simp only [DistState.progress, hcr, if_false]
        exact sublist_take_mono _ _ _ _ hsub (by omega)
      · simpa [DistState.progress, hxc] using hsub
  · intro x hx
    exact hprops x (List.mem_cons_of_mem _ hx)
  · intro x hx
    refine Or.inl ?_
    rw [hst]
    exact List.mem_cons_of_mem _ hx

/-- A distributor leaves its send loop. -/
theorem Ord.dist_loop_end {R : List String} {n : Nat} {svc : CameraService}
    {heap : List VideoSource} {chans : List Chan} {prods : List Producer}
    {dists : List Distributor} (h : Ord R n svc heap chans prods dists)
    (d : Nat) (ds : Distributor) (fc : Nat) (f : FrameData)
    (hd : dists[d]? = some ds) (hst : ds.state = .sending fc f []) :
    Ord R n svc heap chans prods (dists.set d { ds with state := .waiting fc }) := by
  have hold := h.dist_ok d ds hd
  obtain ⟨hown, och, hoch, _, hfed⟩ := hold.2.1 fc (by rw [hst]; rfl)
  refine h.dist_set d ds _ hd rfl ⟨?_, ?_, List.nodup_nil, ?_⟩ ?_
  · intro hcontra
    simp at hcontra
  · intro fc' hfc'
    simp only [DistState.fc?, Option.some.injEq] at hfc'
    subst hfc'
    refine ⟨hown, och, hoch, ?_, ?_⟩
    · intro f' hf'
      simp [DistState.held] at hf'
    · intro x hx
      have hx' : x ∈ subsOf svc.subscribers ds.sourceID ∨ x ∈ ds.state.rest := by
        rcases hx with hx | hx
        · exact Or.inl hx
        · simp [DistState.rest] at hx
      obtain ⟨chx, hchx, hsub⟩ := hfed x hx'
      refine ⟨chx, hchx, ?_⟩
      rw [hst] at hsub
      simpa [DistState.progress] using hsub
  · intro x hx
    simp [DistState.rest] at hx
  · intro x hx
    simp [DistState.rest] at hx

/-- A distributor that holds a frame reads the subscriber list. -/
theorem Ord.dist_snapshot {R : List String} {n : Nat} {svc : CameraService}
    {heap : List VideoSource} {chans : List Chan} {prods : List Producer}
    {dists : List Distributor} (h : Ord R n svc heap chans prods dists)
    (hinv : Inv svc heap chans prods)
    (d : Nat) (ds : Distributor) (fc : Nat) (f : FrameData)
    (hd : dists[d]? = some ds) (hst : ds.state = .gotFrame fc f) :
    Ord R n svc heap chans prods
      (dists.set d
        { ds with state := .sending fc f ((mapGet svc.subscribers ds.sourceID).getD []) }) := by
  have hold := h.dist_ok d ds hd
  obtain ⟨hown, och, hoch, hheld, hfed⟩ := hold.2.1 fc (by rw [hst]; rfl)
  obtain ⟨hge, hget⟩ := hheld f (by rw [hst]; rfl)
  have hmem : ∀ c : Nat, c ∈ (mapGet svc.subscribers ds.sourceID).getD [] →
      (ds.sourceID, (mapGet svc.subscribers ds.sourceID).getD []) ∈ svc.subscribers :=
    fun c hc => mapGet_getD_mem _ _ c hc
  refine h.dist_set d ds _ hd rfl ⟨?_, ?_, ?_, ?_⟩ ?_
  · intro hcontra
    simp at hcontra
  · intro fc' hfc'
    simp only [DistState.fc?, Option.some.injEq] at hfc'
    subst hfc'
    refine ⟨hown, och, hoch, ?_, ?_⟩
    · intro f' hf'
      simp only [DistState.held, Option.some.injEq] at hf'
      subst hf'
      exact ⟨hge, hget⟩
    · intro x hx
      have hx' : x ∈ subsOf svc.subscribers ds.sourceID := by
        rcases hx with hx | hx
        · exact hx
        · exact hx
      obtain ⟨chx, hchx, hsub⟩ := hfed x (Or.inl hx')
      refine ⟨chx, hchx, ?_⟩
      rw [hst] at hsub
      have hin : x ∈ (mapGet svc.subscribers ds.sourceID).getD [] := hx'
      simpa [DistState.progress, hin] using hsub
  · show ((mapGet svc.subscribers ds.sourceID).getD []).Nodup
    cases hl : mapGet svc.subscribers ds.sourceID with
    | none => simp
    | some l => simpa using hinv.sub_nodup _ _ (mapGet_some_mem _ _ _ hl)
  · intro x hx
    have hx' : x ∈ (mapGet svc.subscribers ds.sourceID).getD [] := hx
    obtain ⟨chx, hchx, _⟩ := hinv.sub_open _ _ (hmem x hx') x hx'
    refine ⟨getElem?_lt _ _ _ hchx, hinv.sub_not_frames _ _ (hmem x hx') x hx', ?_⟩
    intro k l hk hne hxl
    exact hinv.sub_disj k l _ _ hk (hmem x hx') hne x hxl hx'
  · intro x hx
    refine Or.inr ?_
    intro e es he hne hxe
    have hx' : x ∈ (mapGet svc.subscribers ds.sourceID).getD [] := hx
    have hk : ds.sourceID ≠ es.sourceID := fun e' => hne (h.dist_inj e d es ds he hd e'.symm)
    exact ((h.dist_ok e es he).2.2.2 x hxe).2.2 _ _ (hmem x hx') hk hx'

/-- A distributor passes lines 76 and 77. -/
theorem Ord.dist_start {R : List String} {n : Nat} {svc : CameraService}
    {heap : List VideoSource} {chans : List Chan} {prods : List Producer}
    {dists : List Distributor} (h : Ord R n svc heap chans prods dists)
    (hinv : Inv svc heap chans prods)
    (d : Nat) (ds : Distributor) (p : Nat) (s : VideoSource)
    (hd : dists[d]? = some ds) (hst : ds.state = .start)
    (hp : mapGet svc.sources ds.sourceID = some p) (hs : heap[p]? = some s) :
    Ord R n svc heap chans prods (dists.set d { ds with state := .waiting s.frames }) := by
  have hold := h.dist_ok d ds hd
  obtain ⟨s0, hs0, hid⟩ := hinv.src_valid _ _ (mapGet_some_mem _ _ _ hp)
  rw [hs] at hs0
  injection hs0 with e
  subst e
  have hlt := hinv.frames_valid p s hs
  refine h.dist_set d ds _ hd rfl ⟨?_, ?_, List.nodup_nil, ?_⟩ ?_
  · intro hcontra
    simp at hcontra
  · intro fc' hfc'
    simp only [DistState.fc?, Option.some.injEq] at hfc'
    subst hfc'
    refine ⟨⟨p, s, hs, rfl, hid⟩, chans[s.frames], List.getElem?_eq_getElem hlt, ?_, ?_⟩
    · intro f' hf'
      simp [DistState.held] at hf'
    · intro x hx
      have hx' : x ∈ subsOf svc.subscribers ds.sourceID := by
        rcases hx with hx | hx
        · exact hx
        · simp [DistState.rest] at hx
      obtain ⟨chx, hchx, hsent⟩ := hold.1 hst x hx'
      exact ⟨chx, hchx, by rw [hsent]; exact List.nil_sublist _⟩
  · intro x hx
    simp [DistState.rest] at hx
  · intro x hx
    simp [DistState.rest] at hx

/-- A distributor returns. -/
theorem Ord.dist_done {R : List String} {n : Nat} {svc : CameraService}
    {heap : List VideoSource} {chans : List Chan} {prods : List Producer}
    {dists : List Distributor} (h : Ord R n svc heap chans prods dists)
    (d : Nat) (ds : Distributor) (hd : dists[d]? = some ds) :
    Ord R n svc heap chans prods (dists.set d { ds with state := .done }) := by
  refine h.dist_set d ds _ hd rfl ⟨?_, ?_, List.nodup_nil, ?_⟩ ?_
  · intro hcontra
    simp at hcontra
  · intro fc' hfc'
    simp [DistState.fc?] at hfc'
  · intro x hx
    simp [DistState.rest] at hx
  · intro x hx
    simp [DistState.rest] at hx

theorem distributeFrames_ord (R : List String) (n : Nat) (w : World) (d : Nat) (a : DistStep)
    (hinv : w.Inv) (h : w.Ord R n) : (distributeFrames w d a).Ord R n := by
  unfold distributeFrames
  split
  · exact h
  · next ds hd =>
    split
    · next hst =>
      split
      · exact h
      · next p hp =>
        obtain ⟨s, hs, _⟩ := hinv.src_valid _ _ (mapGet_some_mem _ _ _ hp)
        rw [World.deref_of_some w p s hs]
        exact Ord.dist_start h hinv d ds p s hd hst hp hs
    · split
      · exact Ord.dist_done h d ds hd
      · exact h
    · next fc hst =>
      split
      · exact h
      · next c hc =>
        split
        · next f c' hr =>
          obtain ⟨hf, hc'⟩ := Chan.recv_frame _ _ _ hr
          subst hc'
          exact Ord.dist_recv h hinv d ds fc c f hd hst hc hf
        · exact Ord.dist_done h d ds hd
        · exact h
    · next fc f hst =>
      exact Ord.dist_snapshot h hinv d ds fc f hd hst
    · next fc f hst =>
      exact Ord.dist_loop_end h d ds fc f hd hst
    · next fc f sub rest hst =>
      split
      · exact h
      · next c hc =>
        split
        · next c' hs =>
          obtain ⟨_, _, hc'⟩ := Chan.trySend_sent _ _ _ hs
          subst hc'
          exact Ord.dist_send h d ds fc f sub rest c hd hst hc
        · exact Ord.dist_skip h d ds fc f sub rest hd hst
        · exact h
    · exact h

theorem HeapStep.heap_refl (chans : List Chan) (heap : List VideoSource) :
    HeapStep chans heap heap :=
  ⟨fun _ s hq => ⟨s, hq, rfl, rfl⟩, fun _ s' hq => Or.inl ⟨s', hq, rfl⟩⟩

theorem HeapStep.heap_write (chans : List Chan) (heap : List VideoSource) (p : Nat)
    (s s' : VideoSource) (hp : heap[p]? = some s) (hfr : s'.frames = s.frames)
    (hcfg : s'.config = s.config) : HeapStep chans heap (heap.set p s') := by
  have hlt := getElem?_lt _ _ _ hp
  constructor
  · intro q t hq
    by_cases hpq : p = q
    · subst hpq
      rw [hp] at hq
      injection hq with e
      subst e
      exact ⟨s', by simp [hlt], hfr, hcfg⟩
    · exact ⟨t, by simp [hpq, hq], rfl, rfl⟩
  · intro q t' hq
    rcases getElem?_set_some _ _ _ _ _ hq with ⟨h1, h2, _⟩ | ⟨_, h2⟩
    · subst h1 h2
      exact Or.inl ⟨s, hp, hfr.symm⟩
    · exact Or.inl ⟨t', h2, rfl⟩

theorem HeapStep.heap_alloc (chans : List Chan) (heap : List VideoSource) (s0 s1 : VideoSource)
    (hfr : s1.frames = chans.length) :
    HeapStep chans heap ((heap ++ [s0]).set heap.length s1) := by
  constructor
  · intro q t hq
    have hlt := getElem?_lt _ _ _ hq
    refine ⟨t, ?_, rfl, rfl⟩
    rw [List.getElem?_set_ne (by omega)]
    exact getElem?_concat_of_some _ _ _ _ hq
  · intro q t' hq
    rcases getElem?_set_some _ _ _ _ _ hq with ⟨_, h2, _⟩ | ⟨h1, h2⟩
    · subst h2
      exact Or.inr (by omega)
    · rcases getElem?_concat_some _ _ _ _ h2 with h3 | ⟨h3, _⟩
      · exact Or.inl ⟨t', h3, rfl⟩
      · exact absurd h3.symm h1

theorem HeapStep.alloc_only (chans : List Chan) (heap : List VideoSource) (s0 : VideoSource)
    (hfr : s0.frames = chans.length) : HeapStep chans heap (heap ++ [s0]) := by
  constructor
  · intro q t hq
    exact ⟨t, getElem?_concat_of_some _ _ _ _ hq, rfl, rfl⟩
  · intro q t' hq
    rcases getElem?_concat_some _ _ _ _ hq with h3 | ⟨_, h3⟩
    · exact Or.inl ⟨t', h3, rfl⟩
    · subst h3
      exact Or.inr (by omega)

theorem ChanStep.chan_refl (heap : List VideoSource) (chans : List Chan)
    (hrl : ∀ (c : Nat) (ch : Chan), chans[c]? = some ch → ch.rcvd ≤ ch.sent.length) :
    ChanStep heap chans chans := by
  refine ⟨Nat.le_refl _, fun c ch hc => ⟨ch, hc, rfl, hrl c ch hc, fun _ => rfl⟩, ?_⟩
  intro c ch' hc hge
  have := getElem?_lt _ _ _ hc
  omega

theorem ChanStep.chan_write (heap : List VideoSource) (chans : List Chan)
    (hrl : ∀ (c : Nat) (ch : Chan), chans[c]? = some ch → ch.rcvd ≤ ch.sent.length)
    (x : Nat) (ch ch' : Chan) (hx : chans[x]? = some ch) (hsent : ch'.sent = ch.sent)
    (hr : ch'.rcvd ≤ ch'.sent.length)
    (hfr : (∃ (q : Nat) (s : VideoSource), heap[q]? = some s ∧ s.frames = x) →
      ch'.rcvd = ch.rcvd) :
    ChanStep heap chans (chans.set x ch') := by
  have hlt := getElem?_lt _ _ _ hx
  refine ⟨by simp, ?_, ?_⟩
  · intro c c0 hc
    by_cases hxc : x = c
    · subst hxc
      rw [hx] at hc
      injection hc with e
      subst e
      exact ⟨ch', by simp [hlt], hsent, hr, hfr⟩
    · exact ⟨c0, by simp [hxc, hc], rfl, hrl c c0 hc, fun _ => rfl⟩
  · intro c c' hc hge
    have := getElem?_lt _ _ _ hc
    simp at this
    omega

theorem ChanStep.chan_alloc (heap : List VideoSource) (chans : List Chan)
    (hrl : ∀ (c : Nat) (ch : Chan), chans[c]? = some ch → ch.rcvd ≤ ch.sent.length) :
    ChanStep heap chans (chans ++ [Chan.make bufferSize]) := by
  refine ⟨by simp, ?_, ?_⟩
  · intro c ch hc
    exact ⟨ch, getElem?_concat_of_some _ _ _ _ hc, rfl, hrl c ch hc, fun _ => rfl⟩
  · intro c ch' hc hge
    rcases getElem?_concat_some _ _ _ _ hc with h1 | ⟨_, h1⟩
    · have := getElem?_lt _ _ _ h1
      omega
    · subst h1
      exact ⟨rfl, rfl⟩

theorem ChanStep.closeAll (heap : List VideoSource) (chans chans' : List Chan)
    (hrl : ∀ (c : Nat) (ch : Chan), chans[c]? = some ch → ch.rcvd ≤ ch.sent.length)
    (l : List Nat) (hc : closeAll chans l = some chans') : ChanStep heap chans chans' := by
  obtain ⟨_, hin, hout⟩ := closeAll_spec _ _ _ hc
  have hlen := closeAll_length _ _ _ hc
  refine ⟨by omega, ?_, ?_⟩
  · intro c ch hch
    by_cases hcl : c ∈ l
    · obtain ⟨y, hy, _, hy'⟩ := hin c hcl
      rw [hch] at hy
      injection hy with e
      subst e
      exact ⟨_, hy', rfl, hrl c ch hch, fun _ => rfl⟩
    · exact ⟨ch, by rw [hout c hcl]; exact hch, rfl, hrl c ch hch, fun _ => rfl⟩
  · intro c ch' hch hge
    have := getElem?_lt _ _ _ hch
    omega

theorem ProdStep.prod_refl {svc : CameraService} {heap : List VideoSource} {chans : List Chan}
    {prods : List Producer} (hinv : Inv svc heap chans prods) : ProdStep heap prods prods := by
  intro t pr ht
  obtain ⟨s, hs, _⟩ := hinv.prod_valid t pr ht
  exact ⟨pr, s, ht, hs, rfl, rfl⟩

theorem ProdStep.prod_write {svc : CameraService} {heap : List VideoSource} {chans : List Chan}
    {prods : List Producer} (hinv : Inv svc heap chans prods) (t : Nat) (pr pr' : Producer)
    (ht : prods[t]? = some pr) (hsrc : pr'.src = pr.src) (hfid : pr'.frameID = pr.frameID) :
    ProdStep heap prods (prods.set t pr') := by
  intro u pu' hu
  rcases getElem?_set_some _ _ _ _ _ hu with ⟨h1, h2, _⟩ | ⟨_, h2⟩
  · subst h1 h2
    obtain ⟨s, hs, _⟩ := hinv.prod_valid t pr ht
    exact ⟨pr, s, ht, hs, hsrc, hfid⟩
  · obtain ⟨s, hs, _⟩ := hinv.prod_valid u pu' h2
    exact ⟨pu', s, h2, hs, rfl, rfl⟩

/-- The order invariant survives a step that changes objects, channels and
producers as `HeapStep`, `ChanStep` and `ProdStep` allow and leaves the maps
and the distributors alone. -/
theorem Ord.frame_stores {R : List String} {n n' : Nat} {svc : CameraService}
    {heap heap' : List VideoSource} {chans chans' : List Chan}
    {prods prods' : List Producer} {dists : List Distributor}
    (h : Ord R n svc heap chans prods dists) (hinv : Inv svc heap chans prods)
    (hn : n ≤ n') (hheap : HeapStep chans heap heap') (hchans : ChanStep heap chans chans')
    (hprods : ProdStep heap prods prods') :
    Ord R n' svc heap' chans' prods' dists :=
  h.frame hn (fun _ hk => hk) h.removed_gone hchans.1 hinv.frames_valid hheap.1 hheap.2
    hprods hchans.2.1 hchans.2.2 (fun _ _ hc => Or.inl hc)
    (fun _ l' hk _ hc _ => ⟨l', hk, hc⟩)

theorem consume_ord (R : List String) (n : Nat) (w : World) (c : Nat)
    (hinv : w.Inv) (h : w.Ord R n) : (consume w c).Ord R n := by
  unfold consume
  split
  · exact h
  · next hany =>
    split
    · exact h
    · next ch hc =>
      split
      · next f ch' hr =>
        obtain ⟨hf, hc'⟩ := Chan.recv_frame _ _ _ hr
        subst hc'
        have hlt := getElem?_lt _ _ _ hf
        refine Ord.frame_stores h hinv (Nat.le_refl _) (HeapStep.heap_refl _ _)
          (ChanStep.chan_write _ _ h.rcvd_le c ch _ hc rfl (by show ch.rcvd + 1 ≤ ch.sent.length; omega) ?_)
          (ProdStep.prod_refl hinv)
        rintro ⟨q, s, hq, hsf⟩
        exfalso
        apply hany
        rw [List.any_eq_true]
        exact ⟨s, List.getElem?_mem hq, by simp [hsf]⟩
      · exact h

theorem captureExit_ord (R : List String) (n : Nat) (w : World) (t : Nat) (pr : Producer)
    (s : VideoSource) (hinv : w.Inv) (h : w.Ord R n) (ht : w.producers[t]? = some pr)
    (hs : w.heap[pr.src]? = some s) : (captureExit w t pr s).Ord R n := by
  unfold captureExit
  by_cases hco : s.closeOnce = true
  · rw [if_pos hco]
    exact Ord.frame_stores h hinv (Nat.le_refl _) (HeapStep.heap_refl _ _)
      (ChanStep.chan_refl _ _ h.rcvd_le) (ProdStep.prod_write hinv t pr _ ht rfl rfl)
  · rw [if_neg hco]
    cases hc : w.chans[s.frames]? with
    | none => exact h
    | some c =>
      dsimp only
      cases hcl : c.close with
      | none => exact h
      | some c' =>
        dsimp only
        obtain ⟨_, hc'⟩ := Chan.close_some c c' hcl
        subst hc'
        exact Ord.frame_stores h hinv (Nat.le_refl _)
          (HeapStep.heap_write _ _ pr.src s _ hs rfl rfl)
          (ChanStep.chan_write _ _ h.rcvd_le s.frames c _ hc rfl (h.rcvd_le _ c hc) (fun _ => rfl))
          (ProdStep.prod_write hinv t pr _ ht rfl rfl)

theorem captureFrames_ord (R : List String) (n : Nat) (w : World) (t : Nat) (now : Nat)
    (r : BackendRead) (hinv : w.Inv) (h : w.Ord R n) (hn : ((n : Int) + 1) < 2 ^ 63) :
    (captureFrames w t now r).Ord R (n + 1) := by
  have h' : w.Ord R (n + 1) := Ord.mono h (Nat.le_succ n)
  unfold captureFrames
  cases ht : w.producers[t]? with
  | none => exact h'
  | some pr =>
    dsimp only
    by_cases hd : pr.done = true
    · rw [if_pos hd]
      exact h'
    · obtain ⟨s, hs, hcap, hco⟩ := hinv.prod_valid t pr ht
      rw [if_neg hd, World.deref_of_some w pr.src s hs]
      by_cases ha : s.isActive = false
      · rw [if_pos ha]
        exact captureExit_ord R (n + 1) w t pr s hinv h' ht hs
      · rw [if_neg ha]
        by_cases hx : pr.ctx ∈ w.cancelled
        · rw [if_pos hx]
          exact captureExit_ord R (n + 1) w t pr s hinv h' ht hs
        · rw [if_neg hx]
          cases hv : s.capture with
          | none => exact h'
          | some v =>
            dsimp only
            have hset : ∀ v' : VideoCapture,
                Ord R (n + 1) w.svc (w.heap.set pr.src { s with capture := some v' }) w.chans
                  w.producers w.distributors :=
              fun v' => Ord.frame_stores h hinv (Nat.le_succ n)
                (HeapStep.heap_write _ _ pr.src s _ hs rfl rfl) (ChanStep.chan_refl _ _ h.rcvd_le)
                (ProdStep.prod_refl hinv)
            cases r with
            | readFail =>
              dsimp only
              by_cases hf : s.config.Typ = "file"
              · rw [if_pos hf]
                exact hset _
              · rw [if_neg hf]
                exact captureExit_ord R (n + 1) w t pr s hinv h' ht hs
            | emptyFrame => exact hset _
            | encodeFail => exact hset _
            | frame data =>
              -- the heap changes first, then the producer emits
              have hinv1 : Inv w.svc
                  (w.heap.set pr.src { s with capture := some (v.Read (.frame data)) })
                  w.chans w.producers :=
                hinv.heap_set pr.src s _ hs rfl rfl rfl (fun _ => rfl)
              have hord1 : Ord R n w.svc
                  (w.heap.set pr.src { s with capture := some (v.Read (.frame data)) })
                  w.chans w.producers w.distributors :=
                Ord.frame_stores h hinv (Nat.le_refl _)
                  (HeapStep.heap_write _ _ pr.src s _ hs rfl rfl) (ChanStep.chan_refl _ _ h.rcvd_le)
                  (ProdStep.prod_refl hinv)
              have hs1 : (w.heap.set pr.src
                  { s with capture := some (v.Read (.frame data)) })[pr.src]? =
                  some { s with capture := some (v.Read (.frame data)) } := by
                simp [getElem?_lt _ _ _ hs]
              have hlt := hinv.frames_valid pr.src s hs
              obtain ⟨och, hoch⟩ : ∃ och : Chan, w.chans[s.frames]? = some och :=
                ⟨w.chans[s.frames], List.getElem?_eq_getElem hlt⟩
              obtain ⟨b1, b2, _⟩ := h.prod_bound t pr s och ht hs hoch
              have hwrap : wrapInt64 (pr.frameID + 1) = pr.frameID + 1 :=
                wrapInt64_of_range _ (by omega) (by omega)
              dsimp only
              rw [hwrap, hoch]
              dsimp only
              cases hsend : och.trySend
                  { ID := pr.frameID, Timestamp := now, Data := data,
                    Source := s.config.URI } with
              | sent c' =>
                dsimp only
                obtain ⟨_, _, hc'⟩ := Chan.trySend_sent _ _ _ hsend
                subst hc'
                exact Ord.produce_send hord1 hinv1 t pr
                  { s with capture := some (v.Read (.frame data)) } och _ ht hs1 hoch rfl
              | full =>
                obtain ⟨_, hfull⟩ := Chan.trySend_full _ _ hsend
                exact Ord.produce_drop hord1 hinv1 t pr
                  { s with capture := some (v.Read (.frame data)) } och ht hs1 hoch hfull
              | panic => exact h'

theorem subsOf_mapSet_same (subs : List (String × List Nat)) (k : String) (l : List Nat) :
    subsOf (mapSet subs k l) k = l := by
  simp [subsOf, mapGet_mapSet_same]

theorem subsOf_mapSet_other (subs : List (String × List Nat)) (k k2 : String) (l : List Nat)
    (h : k2 ≠ k) : subsOf (mapSet subs k l) k2 = subsOf subs k2 := by
  simp [subsOf, mapGet_mapSet_other _ _ _ _ h]

theorem subsOf_mapDelete_same (subs : List (String × List Nat)) (k : String) :
    subsOf (mapDelete subs k) k = [] := by
  simp [subsOf, mapGet_mapDelete_same]

theorem subsOf_mapDelete_other (subs : List (String × List Nat)) (k k2 : String)
    (h : k2 ≠ k) : subsOf (mapDelete subs k) k2 = subsOf subs k2 := by
  simp [subsOf, mapGet_mapDelete_other _ _ _ h]

theorem Subscribe_ord (R : List String) (n : Nat) (w : World) (sourceID : String)
    (hinv : w.Inv) (h : w.Ord R n) : (Subscribe w sourceID).1.Ord R n := by
  unfold Subscribe
  cases hg : mapGet w.svc.sources sourceID with
  | none => exact h
  | some p =>
    have hcs := ChanStep.chan_alloc w.heap w.chans h.rcvd_le
    refine Ord.frame h (Nat.le_refl _) (fun _ hk => hk) h.removed_gone hcs.1
      hinv.frames_valid (HeapStep.heap_refl w.chans w.heap).1 (HeapStep.heap_refl w.chans w.heap).2 (ProdStep.prod_refl hinv)
      hcs.2.1 hcs.2.2 ?_ ?_
    · intro k c hc
      by_cases hk : k = sourceID
      · subst hk
        rw [subsOf_mapSet_same] at hc
        rcases List.mem_append.1 hc with hc | hc
        · exact Or.inl hc
        · simp at hc
          subst hc
          exact Or.inr ⟨Chan.make bufferSize, List.getElem?_concat_length _ _, rfl⟩
      · rw [subsOf_mapSet_other _ _ _ _ hk] at hc
        exact Or.inl hc
    · intro k l' hk c hc hlt
      rcases mem_mapSet _ _ _ hinv.sub_keys _ hk with h1 | ⟨h1, _⟩
      · injection h1 with h2 h3
        subst h2 h3
        rcases List.mem_append.1 hc with hc | hc
        · exact ⟨_, mapGet_getD_mem _ _ c hc, hc⟩
        · simp at hc
          omega
      · exact ⟨l', h1, hc⟩

theorem RemoveSource_ord (R : List String) (n : Nat) (w : World) (sourceID : String)
    (hinv : w.Inv) (h : w.Ord R n) : (RemoveSource w sourceID).1.Ord (sourceID :: R) n := by
  cases hg : mapGet w.svc.sources sourceID with
  | none =>
    have hw : (RemoveSource w sourceID).1 = w := by simp [RemoveSource, hg]
    rw [hw]
    have hcs := ChanStep.chan_refl w.heap w.chans h.rcvd_le
    refine Ord.frame h (Nat.le_refl _) ?_ ?_ hcs.1 hinv.frames_valid (HeapStep.heap_refl w.chans w.heap).1
      (HeapStep.heap_refl w.chans w.heap).2 (ProdStep.prod_refl hinv) hcs.2.1 hcs.2.2 (fun _ _ hc => Or.inl hc)
      (fun _ l' hk _ hc _ => ⟨l', hk, hc⟩)
    · intro k hk
      rcases hk with hk | hk
      · exact Or.inl hk
      · exact Or.inr (List.mem_cons_of_mem _ hk)
    · intro k hk
      rcases List.mem_cons.1 hk with e | hk
      · rw [e]
        exact hg
      · exact h.removed_gone k hk
  | some p =>
    obtain ⟨s, chans', hs, hc, heq⟩ := RemoveSource_registered w sourceID p hinv hg
    rw [heq]
    have hcs := ChanStep.closeAll w.heap w.chans chans' h.rcvd_le _ hc
    have hhs := HeapStep.heap_write w.chans w.heap p s { s with isActive := false } hs rfl rfl
    refine Ord.frame h (Nat.le_refl _) ?_ ?_ hcs.1 hinv.frames_valid hhs.1 hhs.2
      (ProdStep.prod_refl hinv) hcs.2.1 hcs.2.2 ?_ ?_
    · intro k hk
      by_cases hks : k = sourceID
      · exact Or.inr (hks ▸ List.mem_cons_self _ _)
      · rcases hk with hk | hk
        · refine Or.inl ?_
          show (mapGet (mapDelete w.svc.sources sourceID) k).isSome = true
          rw [mapGet_mapDelete_other _ _ _ hks]
          exact hk
        · exact Or.inr (List.mem_cons_of_mem _ hk)
    · intro k hk
      show mapGet (mapDelete w.svc.sources sourceID) k = none
      by_cases hks : k = sourceID
      · rw [hks]
        exact mapGet_mapDelete_same _ _
      · rw [mapGet_mapDelete_other _ _ _ hks]
        rcases List.mem_cons.1 hk with e | hk
        · exact absurd e hks
        · exact h.removed_gone k hk
    · intro k c hc
      by_cases hks : k = sourceID
      · subst hks
        rw [show subsOf (mapDelete w.svc.subscribers k) k = [] from
          subsOf_mapDelete_same _ _] at hc
        simp at hc
      · rw [show subsOf (mapDelete w.svc.subscribers sourceID) k = subsOf w.svc.subscribers k
          from subsOf_mapDelete_other _ _ _ hks] at hc
        exact Or.inl hc
    · intro k l' hk c hc _
      exact ⟨l', ((mem_mapDelete _ _ _).1 hk).1, hc⟩

theorem AddSource_ord (be : Backend) (R : List String) (n : Nat) (w : World) (ctx : Nat)
    (config : SourceConfig) (hinv : w.Inv) (h : w.Ord R n)
    (hid : sourceIDOf config ∉ R) : (AddSource be w ctx config).1.Ord R n := by
  cases hg : mapGet w.svc.sources (sourceIDOf config) with
  | some p =>
    rw [AddSource_registered be w ctx config p hg]
    exact h
  | none =>
    have hcs := ChanStep.chan_alloc w.heap w.chans h.rcvd_le
    cases ho : openCapture be config with
    | none =>
      rw [AddSource_unsupported be w ctx config hg ho]
      exact Ord.frame_stores h hinv (Nat.le_refl _)
        (HeapStep.alloc_only _ _ (newSource w config) rfl) hcs (ProdStep.prod_refl hinv)
    | some b =>
      cases b with
      | false =>
        rw [AddSource_openFailed be w ctx config hg ho]
        exact Ord.frame_stores h hinv (Nat.le_refl _)
          (HeapStep.heap_alloc _ _ (newSource w config) (newSource w config) rfl) hcs
          (ProdStep.prod_refl hinv)
      | true =>
        rw [AddSource_opened be w ctx config hg ho]
        have hhs := HeapStep.heap_alloc w.chans w.heap (newSource w config)
          (startedSource w config) rfl
        have h1 : Ord R n
            { sources := mapSet w.svc.sources (sourceIDOf config) w.heap.length,
              subscribers := mapSet w.svc.subscribers (sourceIDOf config) [] }
            ((w.heap ++ [newSource w config]).set w.heap.length (startedSource w config))
            (w.chans ++ [Chan.make bufferSize]) w.producers w.distributors := by
          refine Ord.frame h (Nat.le_refl _) ?_ ?_ hcs.1 hinv.frames_valid hhs.1 hhs.2
            (ProdStep.prod_refl hinv) hcs.2.1 hcs.2.2 ?_ ?_
          · intro k hk
            rcases hk with hk | hk
            · refine Or.inl ?_
              show (mapGet (mapSet w.svc.sources (sourceIDOf config) w.heap.length) k).isSome
                = true
              by_cases hks : k = sourceIDOf config
              · rw [hks, mapGet_mapSet_same]
                rfl
              · rw [mapGet_mapSet_other _ _ _ _ hks]
                exact hk
            · exact Or.inr hk
          · intro k hk
            show mapGet (mapSet w.svc.sources (sourceIDOf config) w.heap.length) k = none
            have hks : k ≠ sourceIDOf config := fun e => hid (e ▸ hk)
            rw [mapGet_mapSet_other _ _ _ _ hks]
            exact h.removed_gone k hk
          · intro k c hc
            by_cases hks : k = sourceIDOf config
            · subst hks
              rw [show subsOf (mapSet w.svc.subscribers (sourceIDOf config) [])
                (sourceIDOf config) = [] from subsOf_mapSet_same _ _ _] at hc
              simp at hc
            · rw [show subsOf (mapSet w.svc.subscribers (sourceIDOf config) []) k =
                subsOf w.svc.subscribers k from subsOf_mapSet_other _ _ _ _ hks] at hc
              exact Or.inl hc
          · intro k l' hk c hc _
            rcases mem_mapSet _ _ _ hinv.sub_keys _ hk with e | ⟨h2, _⟩
            · injection e with _ e2
              subst e2
              simp at hc
            · exact ⟨l', h2, hc⟩
        have h2 := h1.producer_add { src := w.heap.length, ctx := ctx, frameID := 0, done := false }
          rfl (by
            intro s och hs hoch
            have hs1 : ((w.heap ++ [newSource w config]).set w.heap.length
                (startedSource w config))[w.heap.length]? = some (startedSource w config) := by
              simp
            simp only at hs
            rw [hs1] at hs
            injection hs with e
            subst e
            simp only [startedSource, List.getElem?_concat_length] at hoch
            injection hoch with e
            subst e
            rfl)
        exact h2.dist_add { ctx := ctx, sourceID := sourceIDOf config, state := .start } rfl
          (by
            show (mapGet (mapSet w.svc.sources (sourceIDOf config) w.heap.length)
              (sourceIDOf config)).isSome = true
            rw [mapGet_mapSet_same]
            rfl)
          (subsOf_mapSet_same _ _ _)
          (by
            intro d ds hd hsid
            simp only at hsid
            rcases h.dist_reg d ds hd with hr | hr
            · rw [hsid, hg] at hr
              simp at hr
            · exact hid (hsid ▸ hr))

theorem run_panicked (be : Backend) (evs : List Event) : ∀ w : World, w.panicked = true →
    run be w evs = w := by
  induction evs with
  | nil => intro w _; rfl
  | cons ev evs ih =>
    intro w hp
    have hstep : step be w ev = w := by simp [step, hp]
    rw [run_cons, hstep]
    exact ih w hp

theorem step_ord (be : Backend) (R : List String) (n : Nat) (w : World) (ev : Event)
    (hinv : w.Inv) (h : w.Ord R n) (hn : ((n : Int) + 1) < 2 ^ 63)
    (hpan : w.panicked = false) (hno : noReAdd R [ev] = true) :
    (step be w ev).Ord (removedAfter R ev) (n + 1) := by
  have hstep : ∀ w' : World, (if w.panicked = true then w else w') = w' := by
    intro w'
    simp [hpan]
  unfold step
  rw [hstep]
  cases ev with
  | addSource ctx config =>
    have hid : sourceIDOf config ∉ R := by
      intro hmem
      simp [noReAdd, hmem] at hno
    exact Ord.mono (AddSource_ord be R n w ctx config hinv h hid) (Nat.le_succ n)
  | subscribe sourceID => exact Ord.mono (Subscribe_ord R n w sourceID hinv h) (Nat.le_succ n)
  | removeSource sourceID =>
    exact Ord.mono (RemoveSource_ord R n w sourceID hinv h) (Nat.le_succ n)
  | cancel ctx => exact Ord.mono h (Nat.le_succ n)
  | capture t now r => exact captureFrames_ord R n w t now r hinv h hn
  | dist d a => exact Ord.mono (distributeFrames_ord R n w d a hinv h) (Nat.le_succ n)
  | consume c => exact Ord.mono (consume_ord R n w c hinv h) (Nat.le_succ n)

theorem noReAdd_cons (R : List String) (ev : Event) (evs : List Event)
    (h : noReAdd R (ev :: evs) = true) :
    noReAdd R [ev] = true ∧ noReAdd (removedAfter R ev) evs = true := by
  cases ev <;> simp_all [noReAdd, removedAfter]

theorem run_ord (be : Backend) (evs : List Event) : ∀ (R : List String) (n : Nat) (w : World),
    w.Inv → w.Ord R n → ((n : Int) + evs.length) < 2 ^ 63 → noReAdd R evs = true →
    ∃ R' : List String, (run be w evs).Ord R' (n + evs.length) := by
  induction evs with
  | nil =>
    intro R n w _ h _ _
    exact ⟨R, h⟩
  | cons ev evs ih =>
    intro R n w hinv h hn hno
    simp only [List.length_cons, Nat.cast_add, Nat.cast_one] at hn
    by_cases hpan : w.panicked = true
    · rw [run_panicked be _ w hpan]
      exact ⟨R, Ord.mono h (Nat.le_add_right _ _)⟩
    · have hpan' : w.panicked = false := by simpa using hpan
      obtain ⟨hno1, hno2⟩ := noReAdd_cons R ev evs hno
      have h1 := step_ord be R n w ev hinv h (by omega) hpan' hno1
      obtain ⟨R', h2⟩ := ih _ (n + 1) (step be w ev) (step_inv be w ev hinv) h1
        (by push_cast; omega) hno2
      refine ⟨R', ?_⟩
      rw [run_cons]
      have e : n + (ev :: evs).length = n + 1 + evs.length := by
        simp only [List.length_cons]
        omega
      rw [e]
      exact h2

theorem NewCameraService_ord : NewCameraService.Ord [] 0 := by
  refine ⟨?_, ?_, ?_, ?_, ?_, ?_, ?_, ?_⟩ <;> simp [NewCameraService]

/-- Sequence numbers in runs without an id added again: in every run of fewer
than `2 ^ 63` events in which no id is added again after a `RemoveSource` of
it, the IDs of the frames appended to any one channel, output channel or
subscriber queue, are strictly increasing; the first frame a producer puts on its output channel has ID 0;
and what a subscriber queue holds is a subsequence of what the producer of its
source has sent on the output channel, so frames are omitted at most, never
repeated or reordered. -/
theorem ids_increasing_without_readd (be : Backend) (evs : List Event) (w : World)
    (hw : w = run be NewCameraService evs) (hno : noReAdd [] evs = true)
    (hlen : evs.length < 2 ^ 63) :
    (∀ (c : Nat) (ch : Chan), w.chans[c]? = some ch → Increasing ch.sent) ∧
    (∀ (t : Nat) (pr : Producer) (s : VideoSource) (och : Chan),
      w.producers[t]? = some pr → w.heap[pr.src]? = some s →
      w.chans[s.frames]? = some och →
      ∀ f : FrameData, och.sent.head? = some f → f.ID = 0) ∧
    (∀ (d : Nat) (ds : Distributor) (fc : Nat) (och : Chan),
      w.distributors[d]? = some ds → ds.state.fc? = some fc → w.chans[fc]? = some och →
      ∀ c : Nat, c ∈ subsOf w.svc.subscribers ds.sourceID →
        ∃ ch : Chan, w.chans[c]? = some ch ∧ ch.sent.Sublist och.sent) := by
  have hn : (((0 : Nat) : Int) + evs.length) < 2 ^ 63 := by
    have : (evs.length : Int) < 2 ^ 63 := by exact_mod_cast hlen
    simpa using this
  obtain ⟨R', h⟩ := run_ord be evs [] 0 NewCameraService NewCameraService_inv
    NewCameraService_ord hn hno
  rw [← hw] at h
  refine ⟨h.sorted, ?_, ?_⟩
  · intro t pr s och ht hs hoch
    exact (h.prod_bound t pr s och ht hs hoch).2.2.2.2
  · intro d ds fc och hd hfc hoch c hc
    obtain ⟨_, och', hoch', _, hfed⟩ := (h.dist_ok d ds hd).2.1 fc hfc
    rw [hoch] at hoch'
    injection hoch' with e
    subst e
    obtain ⟨ch, hch, hsub⟩ := hfed c (Or.inl hc)
    exact ⟨ch, hch, hsub.trans (List.take_sublist _ _)⟩

theorem ids_increasing_without_readd_witness :
    noReAdd [] orderedEvents = true ∧
    orderedEvents.length < 2 ^ 63 ∧
    (run Backend.allOpen NewCameraService orderedEvents).chans[1]? =
      some { cap := 100,
             sent := [{ ID := 0, Timestamp := 5, Data := [1], Source := "clip.mp4" },
                      { ID := 1, Timestamp := 6, Data := [2], Source := "clip.mp4" }],
             rcvd := 0, closed := true } ∧
    Increasing [{ ID := 0, Timestamp := 5, Data := [1], Source := "clip.mp4" },
                { ID := 1, Timestamp := 6, Data := [2], Source := "clip.mp4" }] :=
  ⟨by decide, by decide, by decide,
    (ids_increasing_without_readd Backend.allOpen orderedEvents _ rfl (by decide)
      (by decide)).1 1
      { cap := 100,
        sent := [{ ID := 0, Timestamp := 5, Data := [1], Source := "clip.mp4" },
                 { ID := 1, Timestamp := 6, Data := [2], Source := "clip.mp4" }],
        rcvd := 0, closed := true } (by decide)⟩

/-- The run `readdEvents` adds the id of the clip again after removing it. -/
theorem readdEvents_readds : noReAdd [] readdEvents = false := by decide

/-! ## What a step leaves in place -/

theorem ObjStep.unchanged (s : VideoSource) : ObjStep s s :=
  ⟨rfl, rfl, id, id, fun v' h => ⟨v', h, fun _ => rfl⟩, fun v h => ⟨v, h, id⟩⟩

theorem set_concat {α : Type} (l : List α) (a b : α) : (l ++ [a]).set l.length b = l ++ [b] := by
  induction l with
  | nil => rfl
  | cons x l ih => simp [List.set, ih]

theorem Subscribe_heap (w : World) (sourceID : String) :
    (Subscribe w sourceID).1.heap = w.heap := by
  unfold Subscribe
  split <;> rfl

theorem Subscribe_producers (w : World) (sourceID : String) :
    (Subscribe w sourceID).1.producers = w.producers := by
  unfold Subscribe
  split <;> rfl

theorem distributeFrames_heap (w : World) (d : Nat) (a : DistStep) :
    (distributeFrames w d a).heap = w.heap := by
  unfold distributeFrames
  repeat (first | rfl | split | dsimp only)

theorem distributeFrames_producers (w : World) (d : Nat) (a : DistStep) :
    (distributeFrames w d a).producers = w.producers := by
  unfold distributeFrames
  repeat (first | rfl | split | dsimp only)

theorem consume_heap (w : World) (c : Nat) : (consume w c).heap = w.heap := by
  unfold consume
  repeat (first | rfl | split | dsimp only)

theorem consume_producers (w : World) (c : Nat) : (consume w c).producers = w.producers := by
  unfold consume
  repeat (first | rfl | split | dsimp only)

theorem RemoveSource_producers (w : World) (sourceID : String) :
    (RemoveSource w sourceID).1.producers = w.producers := by
  unfold RemoveSource VideoSource.Stop
  repeat (first | rfl | split | dsimp only)

theorem captureExit_cleanedUp (w : World) (t : Nat) (pr : Producer) (s : VideoSource)
    (v : VideoCapture) (och : Chan) (hv : s.capture = some v) (hco : s.closeOnce = false)
    (hoch : w.chans[s.frames]? = some och) (hcl : och.closed = false) :
    captureExit w t pr s = cleanedUp w t pr s v och := by
  simp [captureExit, cleanedUp, hco, hoch, Chan.close, hcl, hv]

/-- What one iteration of `captureFrames` does in a world the process can
reach: nothing when the goroutine is over; the cleanup when the source is
inactive, the context cancelled or a read failed on a source that is no file;
a change of the capture only when nothing was read, or an empty or unencodable
frame; and otherwise a new frame, numbered and offered to the output channel. -/
theorem captureFrames_cases (w : World) (t : Nat) (now : Nat) (r : BackendRead)
    (hinv : w.Inv) :
    ((w.producers[t]? = none ∨ ∃ pr : Producer, w.producers[t]? = some pr ∧ pr.done = true) ∧
      captureFrames w t now r = w) ∨
    ∃ (pr : Producer) (s : VideoSource) (v : VideoCapture) (och : Chan),
      w.producers[t]? = some pr ∧ pr.done = false ∧ w.heap[pr.src]? = some s ∧
      s.capture = some v ∧ s.closeOnce = false ∧ w.chans[s.frames]? = some och ∧
      och.closed = false ∧
      (((s.isActive = false ∨ pr.ctx ∈ w.cancelled ∨
            (r = .readFail ∧ s.config.Typ ≠ "file")) ∧
          captureFrames w t now r = cleanedUp w t pr s v och) ∨
        (s.isActive = true ∧ pr.ctx ∉ w.cancelled ∧ (∀ data : List Nat, r ≠ .frame data) ∧
          ∃ v' : VideoCapture, v'.closed = v.closed ∧
            captureFrames w t now r =
              { w with heap := w.heap.set pr.src { s with capture := some v' } }) ∨
        (s.isActive = true ∧ pr.ctx ∉ w.cancelled ∧ ∃ data : List Nat, r = .frame data ∧
          captureFrames w t now r =
            { w with
                heap := w.heap.set pr.src { s with capture := some (v.Read r) },
                producers := w.producers.set t
                  { pr with frameID := wrapInt64 (pr.frameID + 1) },
                chans :=
                  if och.len < och.cap then
                    w.chans.set s.frames
                      { och with sent := och.sent ++ [builtFrame pr s now data] }
                  else w.chans })) := by
  cases ht : w.producers[t]? with
  | none => exact Or.inl ⟨Or.inl rfl, by simp [captureFrames, ht]⟩
  | some pr =>
    by_cases hd : pr.done = true
    · exact Or.inl ⟨Or.inr ⟨pr, rfl, hd⟩, by simp [captureFrames, ht, hd]⟩
    · have hd' : pr.done = false := by simpa using hd
      obtain ⟨s, hs, hcap, hco⟩ := hinv.prod_valid t pr ht
      have hco' := hco hd'
      obtain ⟨och, hoch, hcl⟩ := hinv.frames_open pr.src s hs hco'
      obtain ⟨v, hv⟩ := Option.isSome_iff_exists.1 hcap
      have hderef := World.deref_of_some w pr.src s hs
      have hexit := captureExit_cleanedUp w t pr s v och hv hco' hoch hcl
      refine Or.inr ⟨pr, s, v, och, rfl, hd', hs, hv, hco', hoch, hcl, ?_⟩
      by_cases ha : s.isActive = false
      · refine Or.inl ⟨Or.inl ha, ?_⟩
        rw [← hexit]
        simp [captureFrames, ht, hd', hderef, ha]
      · have ha' : s.isActive = true := by simpa using ha
        by_cases hx : pr.ctx ∈ w.cancelled
        · refine Or.inl ⟨Or.inr (Or.inl hx), ?_⟩
          rw [← hexit]
          simp [captureFrames, ht, hd', hderef, ha', hx]
        · cases r with
          | readFail =>
            by_cases hf : s.config.Typ = "file"
            · refine Or.inr (Or.inl ⟨ha', hx, by simp, { v with posFrames := 0 }, rfl, ?_⟩)
              simp [captureFrames, ht, hd', hderef, ha', hx, hv, hf]
            · refine Or.inl ⟨Or.inr (Or.inr ⟨rfl, hf⟩), ?_⟩
              rw [← hexit]
              simp [captureFrames, ht, hd', hderef, ha', hx, hv, hf]
          | emptyFrame =>
            refine Or.inr (Or.inl ⟨ha', hx, by simp, v.Read .emptyFrame, rfl, ?_⟩)
            simp [captureFrames, ht, hd', hderef, ha', hx, hv]
          | encodeFail =>
            refine Or.inr (Or.inl ⟨ha', hx, by simp, v.Read .encodeFail, rfl, ?_⟩)
            simp [captureFrames, ht, hd', hderef, ha', hx, hv]
          | frame data =>
            refine Or.inr (Or.inr ⟨ha', hx, data, rfl, ?_⟩)
            by_cases hl : och.len < och.cap
            · simp [captureFrames, ht, hd', hderef, ha', hx, hv, hoch, Chan.trySend, hcl, hl,
                builtFrame]
            · simp [captureFrames, ht, hd', hderef, ha', hx, hv, hoch, Chan.trySend, hcl, hl]

theorem getElem?_set_of_some {α : Type} (l : List α) (i j : Nat) (a b : α)
    (h : l[j]? = some b) : (l.set i a)[j]? = some (if i = j then a else b) := by
  have hj := getElem?_lt l j b h
  by_cases e : i = j
  · subst e
    simp [hj]
  · simp [e, h]

theorem HeapFoot.same (chans : List Chan) (heap : List VideoSource) :
    HeapFoot chans heap heap := by
  refine ⟨fun p s h => ⟨s, h, ObjStep.unchanged s⟩, fun p s' h hp => ?_⟩
  have := getElem?_lt _ _ _ h
  omega

theorem HeapFoot.write (chans : List Chan) (heap : List VideoSource) (q : Nat)
    (s s' : VideoSource) (hq : heap[q]? = some s) (hstep : ObjStep s s') :
    HeapFoot chans heap (heap.set q s') := by
  refine ⟨fun p x h => ?_, fun p x h hp => ?_⟩
  · refine ⟨_, getElem?_set_of_some heap q p s' x h, ?_⟩
    by_cases e : q = p
    · subst e
      rw [hq] at h
      injection h with h
      subst h
      simpa using hstep
    · simpa [e] using ObjStep.unchanged x
  · have := getElem?_lt _ _ _ h
    simp at this
    omega

theorem HeapFoot.append (chans : List Chan) (heap : List VideoSource) (s0 : VideoSource)
    (hfr : s0.frames = chans.length) (hco : s0.closeOnce = false)
    (hv : ∀ v' : VideoCapture, s0.capture = some v' → v'.closed = false) :
    HeapFoot chans heap (heap ++ [s0]) := by
  refine ⟨fun p x h => ⟨x, getElem?_concat_of_some _ _ _ _ h, ObjStep.unchanged x⟩,
    fun p x h hp => ?_⟩
  rcases getElem?_concat_some _ _ _ _ h with h1 | ⟨_, h1⟩
  · have := getElem?_lt _ _ _ h1
    omega
  · subst h1
    exact ⟨hfr, hco, hv⟩

theorem captureFrames_heap (w : World) (t : Nat) (now : Nat) (r : BackendRead)
    (hinv : w.Inv) : HeapFoot w.chans w.heap (captureFrames w t now r).heap := by
  rcases captureFrames_cases w t now r hinv with ⟨_, h⟩ |
    ⟨pr, s, v, och, ht, hd, hs, hv, hco, hoch, hcl, h⟩
  · rw [h]
    exact HeapFoot.same _ _
  · rcases h with ⟨_, h⟩ | ⟨_, _, _, v', hv', h⟩ | ⟨_, _, data, hr, h⟩
    · rw [h]
      refine HeapFoot.write _ _ _ s _ hs ⟨rfl, rfl, by simp, by simp, ?_, ?_⟩
      · intro v1 h1
        exact ⟨v, hv, by simp⟩
      · intro v1 h1
        exact ⟨_, rfl, fun _ => rfl⟩
    · rw [h]
      refine HeapFoot.write _ _ _ s _ hs ⟨rfl, rfl, id, id, ?_, ?_⟩
      · intro v1 h1
        injection h1 with h1
        subst h1
        exact ⟨v, hv, fun _ => hv'⟩
      · intro v1 h1
        rw [hv] at h1
        injection h1 with h1
        subst h1
        exact ⟨v', rfl, fun hc => by rw [hv']; exact hc⟩
    · rw [h]
      refine HeapFoot.write _ _ _ s _ hs ⟨rfl, rfl, id, id, ?_, ?_⟩
      · intro v1 h1
        injection h1 with h1
        subst h1
        refine ⟨v, hv, fun _ => ?_⟩
        subst hr
        rfl
      · intro v1 h1
        rw [hv] at h1
        injection h1 with h1
        subst h1
        refine ⟨_, rfl, fun hc => ?_⟩
        subst hr
        exact hc

theorem AddSource_heap (be : Backend) (w : World) (ctx : Nat) (config : SourceConfig) :
    HeapFoot w.chans w.heap (AddSource be w ctx config).1.heap := by
  cases hg : mapGet w.svc.sources (sourceIDOf config) with
  | some p =>
    rw [AddSource_registered be w ctx config p hg]
    exact HeapFoot.same _ _
  | none =>
    cases ho : openCapture be config with
    | none =>
      rw [AddSource_unsupported be w ctx config hg ho]
      exact HeapFoot.append _ _ _ rfl rfl (by simp [newSource])
    | some b =>
      cases b with
      | false =>
        rw [AddSource_openFailed be w ctx config hg ho]
        show HeapFoot w.chans w.heap ((w.heap ++ [newSource w config]).set w.heap.length _)
        rw [set_concat]
        exact HeapFoot.append _ _ _ rfl rfl (by simp [newSource])
      | true =>
        rw [AddSource_opened be w ctx config hg ho]
        show HeapFoot w.chans w.heap ((w.heap ++ [newSource w config]).set w.heap.length _)
        rw [set_concat]
        refine HeapFoot.append _ _ _ rfl rfl ?_
        intro v' h
        simp only [startedSource] at h
        injection h with h
        subst h
        rfl

theorem RemoveSource_heap (w : World) (sourceID : String) (hinv : w.Inv) :
    HeapFoot w.chans w.heap (RemoveSource w sourceID).1.heap := by
  cases hg : mapGet w.svc.sources sourceID with
  | none =>
    have : RemoveSource w sourceID = (w, .err (.notFound sourceID)) := by
      simp [RemoveSource, hg]
    rw [this]
    exact HeapFoot.same _ _
  | some p =>
    obtain ⟨s, chans', hs, _, h⟩ := RemoveSource_registered w sourceID p hinv hg
    rw [h]
    refine HeapFoot.write _ _ _ s _ hs ⟨rfl, rfl, id, by simp, ?_, ?_⟩
    · intro v' hv
      exact ⟨v', hv, fun _ => rfl⟩
    · intro v hv
      exact ⟨v, hv, id⟩

/-- Every step changes the object store as `HeapFoot` allows. -/
theorem step_heap (be : Backend) (w : World) (ev : Event) (hinv : w.Inv) :
    HeapFoot w.chans w.heap (step be w ev).heap := by
  unfold step
  split
  · exact HeapFoot.same _ _
  · cases ev with
    | addSource ctx config => exact AddSource_heap be w ctx config
    | subscribe sourceID =>
      show HeapFoot w.chans w.heap (Subscribe w sourceID).1.heap
      rw [Subscribe_heap]
      exact HeapFoot.same _ _
    | removeSource sourceID => exact RemoveSource_heap w sourceID hinv
    | cancel ctx => exact HeapFoot.same _ _
    | capture t now r => exact captureFrames_heap w t now r hinv
    | dist d a =>
      show HeapFoot w.chans w.heap (distributeFrames w d a).heap
      rw [distributeFrames_heap]
      exact HeapFoot.same _ _
    | consume c =>
      show HeapFoot w.chans w.heap (consume w c).heap
      rw [consume_heap]
      exact HeapFoot.same _ _

/-- What one action of a distributor does to the channels: nothing, a receive
on the output channel, or a send on the first channel of the rest of its
snapshot. -/
theorem distributeFrames_cases (w : World) (d : Nat) (a : DistStep) :
    (distributeFrames w d a).chans = w.chans ∨
    (∃ (fc : Nat) (c : Chan), w.chans[fc]? = some c ∧
      (distributeFrames w d a).chans = w.chans.set fc { c with rcvd := c.rcvd + 1 }) ∨
    (∃ (ds : Distributor) (fc : Nat) (f : FrameData) (sub : Nat) (rest : List Nat) (c : Chan),
      w.distributors[d]? = some ds ∧ ds.state = .sending fc f (sub :: rest) ∧
      w.chans[sub]? = some c ∧ c.closed = false ∧ c.len < c.cap ∧
      (distributeFrames w d a).chans = w.chans.set sub { c with sent := c.sent ++ [f] }) := by
  unfold distributeFrames
  split
  · exact Or.inl rfl
  · next ds hd =>
    split
    · split <;> exact Or.inl rfl
    · split <;> exact Or.inl rfl
    · split
      · exact Or.inl rfl
      · next fc c hc =>
        split
        · next f c' hr =>
          obtain ⟨_, hc'⟩ := Chan.recv_frame c c' f hr
          subst hc'
          exact Or.inr (Or.inl ⟨_, c, hc, rfl⟩)
        · exact Or.inl rfl
        · exact Or.inl rfl
    · exact Or.inl rfl
    · exact Or.inl rfl
    · next _ _ fc f sub rest hst =>
      split
      · exact Or.inl rfl
      · next c hc =>
        split
        · next c' hs =>
          obtain ⟨hcl, hlen, hc'⟩ := Chan.trySend_sent c c' f hs
          subst hc'
          exact Or.inr (Or.inr ⟨ds, fc, f, sub, rest, c, hd, hst, hc, hcl, hlen, rfl⟩)
        · exact Or.inl rfl
        · exact Or.inl rfl
    · exact Or.inl rfl

theorem consume_cases (w : World) (c : Nat) :
    (consume w c).chans = w.chans ∨
    (∃ ch : Chan, w.chans[c]? = some ch ∧
      (∀ (q : Nat) (s : VideoSource), w.heap[q]? = some s → s.frames ≠ c) ∧
      (consume w c).chans = w.chans.set c { ch with rcvd := ch.rcvd + 1 }) := by
  unfold consume
  split
  · exact Or.inl rfl
  · next hany =>
    split
    · exact Or.inl rfl
    · next ch hc =>
      split
      · next f ch' hr =>
        obtain ⟨_, hc'⟩ := Chan.recv_frame ch ch' f hr
        subst hc'
        refine Or.inr ⟨ch, hc, ?_, rfl⟩
        intro q s hq hfr
        apply hany
        simp only [List.any_eq_true, decide_eq_true_eq]
        exact ⟨s, List.mem_iff_getElem?.2 ⟨q, hq⟩, hfr⟩
      · exact Or.inl rfl

theorem HeapFoot.capOpen {chans : List Chan} {heap heap' : List VideoSource}
    (h : HeapFoot chans heap heap') (hc : CapOpen heap) : CapOpen heap' := by
  intro p s' v' hs' hv' hco'
  by_cases hp : p < heap.length
  · obtain ⟨s, hs⟩ : ∃ s : VideoSource, heap[p]? = some s :=
      ⟨heap[p], List.getElem?_eq_getElem hp⟩
    obtain ⟨s2, hs2, _, _, hco, _, hcap, _⟩ := h.1 p s hs
    rw [hs'] at hs2
    injection hs2 with hs2
    subst hs2
    obtain ⟨v, hv, hvc⟩ := hcap v' hv'
    rw [hvc hco']
    exact hc p s v hs hv (hco hco')
  · exact (h.2 p s' hs' (by omega)).2.2 v' hv'

theorem run_capOpen (be : Backend) (evs : List Event) : ∀ w : World, w.Inv →
    CapOpen w.heap → CapOpen (run be w evs).heap := by
  induction evs with
  | nil => intro w _ h; exact h
  | cons ev evs ih =>
    intro w hinv h
    exact ih _ (step_inv be w ev hinv) ((step_heap be w ev hinv).capOpen h)

theorem AddSource_chans (be : Backend) (w : World) (ctx : Nat) (config : SourceConfig) :
    (AddSource be w ctx config).1.chans = w.chans ∨
    (AddSource be w ctx config).1.chans = w.chans ++ [Chan.make bufferSize] := by
  cases hg : mapGet w.svc.sources (sourceIDOf config) with
  | some p =>
    rw [AddSource_registered be w ctx config p hg]
    exact Or.inl rfl
  | none =>
    cases ho : openCapture be config with
    | none =>
      rw [AddSource_unsupported be w ctx config hg ho]
      exact Or.inr rfl
    | some b =>
      cases b with
      | false =>
        rw [AddSource_openFailed be w ctx config hg ho]
        exact Or.inr rfl
      | true =>
        rw [AddSource_opened be w ctx config hg ho]
        exact Or.inr rfl

theorem AddSource_producers (be : Backend) (w : World) (ctx : Nat) (config : SourceConfig) :
    (AddSource be w ctx config).1.producers = w.producers ∨
    (openCapture be config = some true ∧
      mapGet w.svc.sources (sourceIDOf config) = none ∧
      (AddSource be w ctx config).1.producers =
        w.producers ++ [{ src := w.heap.length, ctx := ctx, frameID := 0, done := false }]) := by
  cases hg : mapGet w.svc.sources (sourceIDOf config) with
  | some p =>
    rw [AddSource_registered be w ctx config p hg]
    exact Or.inl rfl
  | none =>
    cases ho : openCapture be config with
    | none =>
      rw [AddSource_unsupported be w ctx config hg ho]
      exact Or.inl rfl
    | some b =>
      cases b with
      | false =>
        rw [AddSource_openFailed be w ctx config hg ho]
        exact Or.inl rfl
      | true =>
        rw [AddSource_opened be w ctx config hg ho]
        exact Or.inr ⟨rfl, rfl, rfl⟩

theorem Subscribe_chans (w : World) (sourceID : String) :
    (Subscribe w sourceID).1.chans = w.chans ∨
    (Subscribe w sourceID).1.chans = w.chans ++ [Chan.make bufferSize] := by
  unfold Subscribe
  split
  · exact Or.inl rfl
  · exact Or.inr rfl

/-- A producer goroutine that is over stays as it is. -/
theorem step_done (be : Backend) (w : World) (ev : Event) (hinv : w.Inv) (t : Nat)
    (pr : Producer) (ht : w.producers[t]? = some pr) (hd : pr.done = true) :
    (step be w ev).producers[t]? = some pr := by
  unfold step
  split
  · exact ht
  · cases ev with
    | addSource ctx config =>
      rcases AddSource_producers be w ctx config with h | ⟨_, _, h⟩
      · show (AddSource be w ctx config).1.producers[t]? = some pr
        rw [h]
        exact ht
      · show (AddSource be w ctx config).1.producers[t]? = some pr
        rw [h]
        exact getElem?_concat_of_some _ _ _ _ ht
    | subscribe sourceID =>
      show (Subscribe w sourceID).1.producers[t]? = some pr
      rw [Subscribe_producers]
      exact ht
    | removeSource sourceID =>
      show (RemoveSource w sourceID).1.producers[t]? = some pr
      rw [RemoveSource_producers]
      exact ht
    | cancel ctx => exact ht
    | capture u now r =>
      show (captureFrames w u now r).producers[t]? = some pr
      have hne : ∀ pu : Producer, w.producers[u]? = some pu → pu.done = false → u ≠ t := by
        intro pu hu hdu e
        subst e
        rw [ht] at hu
        injection hu with hu
        subst hu
        rw [hd] at hdu
        exact Bool.noConfusion hdu
      rcases captureFrames_cases w u now r hinv with ⟨_, h⟩ |
        ⟨pu, s, v, och, hu, hdu, hs, hv, hco, hoch, hcl, h⟩
      · rw [h]
        exact ht
      · have hut := hne pu hu hdu
        rcases h with ⟨_, h⟩ | ⟨_, _, _, v', hv', h⟩ | ⟨_, _, data, hr, h⟩
        · rw [h]
          simpa [cleanedUp, hut] using ht
        · rw [h]
          exact ht
        · rw [h]
          simpa [hut] using ht
    | dist d a =>
      show (distributeFrames w d a).producers[t]? = some pr
      rw [distributeFrames_producers]
      exact ht
    | consume c =>
      show (consume w c).producers[t]? = some pr
      rw [consume_producers]
      exact ht

/-- A closed channel stays closed. -/
theorem step_closed (be : Backend) (w : World) (ev : Event) (hinv : w.Inv) (c : Nat)
    (ch : Chan) (hc : w.chans[c]? = some ch) (hcl : ch.closed = true) :
    ∃ ch' : Chan, (step be w ev).chans[c]? = some ch' ∧ ch'.closed = true := by
  have hset : ∀ (x : Nat) (y : Chan), y.closed = true ∨ x ≠ c →
      ∃ ch' : Chan, (w.chans.set x y)[c]? = some ch' ∧ ch'.closed = true := by
    intro x y hxy
    refine ⟨_, getElem?_set_of_some w.chans x c y ch hc, ?_⟩
    by_cases e : x = c
    · rcases hxy with h | h
      · simpa [e] using h
      · exact absurd e h
    · simpa [e] using hcl
  have hopen : ∀ (x : Nat) (y : Chan), w.chans[x]? = some y → y.closed = false → x ≠ c := by
    intro x y hx hy e
    subst e
    rw [hc] at hx
    injection hx with hx
    subst hx
    rw [hcl] at hy
    exact Bool.noConfusion hy
  unfold step
  split
  · exact ⟨ch, hc, hcl⟩
  · cases ev with
    | addSource ctx config =>
      show ∃ ch' : Chan, (AddSource be w ctx config).1.chans[c]? = some ch' ∧ _
      rcases AddSource_chans be w ctx config with h | h
      · rw [h]
        exact ⟨ch, hc, hcl⟩
      · rw [h]
        exact ⟨ch, getElem?_concat_of_some _ _ _ _ hc, hcl⟩
    | subscribe sourceID =>
      show ∃ ch' : Chan, (Subscribe w sourceID).1.chans[c]? = some ch' ∧ _
      rcases Subscribe_chans w sourceID with h | h
      · rw [h]
        exact ⟨ch, hc, hcl⟩
      · rw [h]
        exact ⟨ch, getElem?_concat_of_some _ _ _ _ hc, hcl⟩
    | removeSource sourceID =>
      show ∃ ch' : Chan, (RemoveSource w sourceID).1.chans[c]? = some ch' ∧ _
      cases hg : mapGet w.svc.sources sourceID with
      | none =>
        have : RemoveSource w sourceID = (w, .err (.notFound sourceID)) := by
          simp [RemoveSource, hg]
        rw [this]
        exact ⟨ch, hc, hcl⟩
      | some p =>
        obtain ⟨s, chans', hs, hca, h⟩ := RemoveSource_registered w sourceID p hinv hg
        rw [h]
        obtain ⟨_, hin, hout⟩ := closeAll_spec _ _ _ hca
        refine ⟨ch, ?_, hcl⟩
        show chans'[c]? = some ch
        rw [hout c, hc]
        intro hmem
        obtain ⟨y, hy, hyc, _⟩ := hin c hmem
        exact hopen c y hy hyc rfl
    | cancel ctx => exact ⟨ch, hc, hcl⟩
    | capture u now r =>
      show ∃ ch' : Chan, (captureFrames w u now r).chans[c]? = some ch' ∧ _
      rcases captureFrames_cases w u now r hinv with ⟨_, h⟩ |
        ⟨pu, s, v, och, hu, hdu, hs, hv, hco, hoch, hcl', h⟩
      · rw [h]
        exact ⟨ch, hc, hcl⟩
      · rcases h with ⟨_, h⟩ | ⟨_, _, _, v', hv', h⟩ | ⟨_, _, data, hr, h⟩
        · rw [h]
          exact hset _ _ (Or.inl rfl)
        · rw [h]
          exact ⟨ch, hc, hcl⟩
        · rw [h]
          by_cases hl : och.len < och.cap
          · simp only [hl, if_true]
            exact hset _ _ (Or.inr (hopen _ och hoch hcl'))
          · simp only [hl, if_false]
            exact ⟨ch, hc, hcl⟩
    | dist d a =>
      show ∃ ch' : Chan, (distributeFrames w d a).chans[c]? = some ch' ∧ _
      rcases distributeFrames_cases w d a with h | ⟨fc, y, hy, h⟩ |
        ⟨ds, fc, f, sub, rest, y, _, _, hy, hyc, _, h⟩
      · rw [h]
        exact ⟨ch, hc, hcl⟩
      · rw [h]
        by_cases e : fc = c
        · subst e
          rw [hc] at hy
          injection hy with hy
          subst hy
          exact hset _ _ (Or.inl hcl)
        · exact hset _ _ (Or.inr e)
      · rw [h]
        exact hset _ _ (Or.inr (hopen _ y hy hyc))
    | consume x =>
      show ∃ ch' : Chan, (consume w x).chans[c]? = some ch' ∧ _
      rcases consume_cases w x with h | ⟨y, hy, _, h⟩
      · rw [h]
        exact ⟨ch, hc, hcl⟩
      · rw [h]
        by_cases e : x = c
        · subst e
          rw [hc] at hy
          injection hy with hy
          subst hy
          exact hset _ _ (Or.inl hcl)
        · exact hset _ _ (Or.inr e)

theorem step_cleaned (be : Backend) (w : World) (ev : Event) (hinv : w.Inv) (t p fc : Nat)
    (h : Cleaned w t p fc) : Cleaned (step be w ev) t p fc := by
  obtain ⟨⟨pr, ht, hd, hsrc⟩, ⟨s, v, hs, hfr, hco, hact, hv, hvc⟩, ⟨och, hoch, hcl⟩⟩ := h
  refine ⟨⟨pr, step_done be w ev hinv t pr ht hd, hd, hsrc⟩, ?_,
    step_closed be w ev hinv fc och hoch hcl⟩
  obtain ⟨s', hs', _, hfr', hco', hact', _, hcap⟩ := (step_heap be w ev hinv).1 p s hs
  obtain ⟨v', hv', hvc'⟩ := hcap v hv
  refine ⟨s', v', hs', by rw [hfr', hfr], ?_, ?_, hv', hvc' hvc⟩
  · cases h1 : s'.closeOnce with
    | true => rfl
    | false =>
      rw [hco' h1] at hco
      exact Bool.noConfusion hco
  · cases h1 : s'.isActive with
    | false => rfl
    | true =>
      rw [hact' h1] at hact
      exact Bool.noConfusion hact

theorem run_cleaned (be : Backend) (evs : List Event) (t p fc : Nat) : ∀ w : World, w.Inv →
    Cleaned w t p fc → Cleaned (run be w evs) t p fc := by
  induction evs with
  | nil => intro w _ h; exact h
  | cons ev evs ih =>
    intro w hinv h
    exact ih _ (step_inv be w ev hinv) (step_cleaned be w ev hinv t p fc h)

theorem NewCameraService_capOpen : CapOpen NewCameraService.heap := by
  intro p s v h
  simp [NewCameraService] at h

/-- The file case on a run: the clip source has read one frame, its next read
fails, and the step puts the capture back to frame 0 and changes nothing else. -/
theorem clipPlayed_readFail_seeks :
    (run Backend.allOpen NewCameraService clipPlayed).heap[0]? =
      some { config := clipConfig, capture := some { posFrames := 1, closed := false },
             isActive := true, frames := 0, closeOnce := false } ∧
    step Backend.allOpen (run Backend.allOpen NewCameraService clipPlayed)
        (.capture 0 6 .readFail) =
      { run Backend.allOpen NewCameraService clipPlayed with
          heap := [{ config := clipConfig, capture := some { posFrames := 0, closed := false },
                     isActive := true, frames := 0, closeOnce := false }] } := by
  decide

/-! ## Registered sources are of a supported type -/

/-- On configs of a type `Start` knows, the derived id determines the config. -/
theorem sourceIDOf_injective (c1 c2 : SourceConfig) (h1 : supportedType c1.Typ)
    (h2 : supportedType c2.Typ) (h : sourceIDOf c1 = sourceIDOf c2) : c1 = c2 := by
  obtain ⟨t1, u1⟩ := c1
  obtain ⟨t2, u2⟩ := c2
  simp only [sourceIDOf] at h
  have hd := congrArg String.data h
  simp only [String.data_append] at hd
  simp only [supportedType] at h1 h2
  rcases h1 with e1 | e1 | e1 <;> rcases h2 with e2 | e2 | e2 <;> subst e1 <;> subst e2
  all_goals first
    | (have hu : u1 = u2 := by
         apply String.ext
         simpa using hd
       subst hu
       rfl)
    | (exfalso
       revert hd
       simp [String.data])

/-- Without the restriction to the types `Start` knows the derived id does not
determine the config: the separator may occur in a type. -/
theorem sourceIDOf_shared :
    sourceIDOf { Typ := "ip", URI := "camera_x" } = sourceIDOf { Typ := "ip_camera", URI := "x" } ∧
    ({ Typ := "ip", URI := "camera_x" } : SourceConfig) ≠ { Typ := "ip_camera", URI := "x" } := by
  decide

/-- Where a new entry of the source map comes from: a successful `AddSource`,
which registers the object it has just started. -/
theorem step_sources (be : Backend) (w : World) (ev : Event) (hinv : w.Inv) (k : String)
    (p : Nat) (h : (k, p) ∈ (step be w ev).svc.sources) :
    (k, p) ∈ w.svc.sources ∨
    ∃ config : SourceConfig, openCapture be config = some true ∧
      (step be w ev).heap[p]? = some (startedSource w config) := by
  unfold step at h ⊢
  split at h
  · exact Or.inl h
  · next hpan =>
    rw [if_neg hpan]
    cases ev with
    | addSource ctx config =>
      dsimp only at h ⊢
      cases hg : mapGet w.svc.sources (sourceIDOf config) with
      | some q =>
        rw [AddSource_registered be w ctx config q hg] at h
        exact Or.inl h
      | none =>
        cases ho : openCapture be config with
        | none =>
          rw [AddSource_unsupported be w ctx config hg ho] at h
          exact Or.inl h
        | some b =>
          cases b with
          | false =>
            rw [AddSource_openFailed be w ctx config hg ho] at h
            exact Or.inl h
          | true =>
            rw [AddSource_opened be w ctx config hg ho] at h ⊢
            rcases mem_mapSet _ _ _ hinv.src_keys _ h with e | ⟨h1, _⟩
            · injection e with _ e2
              subst e2
              refine Or.inr ⟨config, ho, ?_⟩
              show ((w.heap ++ [newSource w config]).set w.heap.length _)[w.heap.length]? = _
              simp
            · exact Or.inl h1
    | subscribe sourceID =>
      dsimp only at h
      refine Or.inl ?_
      unfold Subscribe at h
      split at h
      · exact h
      · exact h
    | removeSource sourceID =>
      dsimp only at h
      refine Or.inl ?_
      cases hg : mapGet w.svc.sources sourceID with
      | none =>
        have e : RemoveSource w sourceID = (w, .err (.notFound sourceID)) := by
          simp [RemoveSource, hg]
        rw [e] at h
        exact h
      | some q =>
        obtain ⟨s, chans', _, _, e⟩ := RemoveSource_registered w sourceID q hinv hg
        rw [e] at h
        exact ((mem_mapDelete _ _ _).1 h).1
    | cancel ctx => exact Or.inl h
    | capture t now r =>
      dsimp only at h
      rw [captureFrames_svc] at h
      exact Or.inl h
    | dist d a =>
      dsimp only at h
      rw [distributeFrames_svc] at h
      exact Or.inl h
    | consume c =>
      dsimp only at h
      rw [consume_svc] at h
      exact Or.inl h

theorem step_regSup (be : Backend) (w : World) (ev : Event) (hinv : w.Inv) (h : RegSup w) :
    RegSup (step be w ev) := by
  intro k p s' hk hs'
  rcases step_sources be w ev hinv k p hk with hold | ⟨config, ho, hnew⟩
  · obtain ⟨s, hs, _⟩ := hinv.src_valid k p hold
    obtain ⟨s2, hs2, hcfg, _⟩ := (step_heap be w ev hinv).1 p s hs
    rw [hs'] at hs2
    injection hs2 with hs2
    subst hs2
    rw [hcfg]
    exact h k p s hold hs
  · rw [hs'] at hnew
    injection hnew with hnew
    subst hnew
    by_contra hns
    rw [(openCapture_none_iff be config).2 hns] at ho
    exact Option.noConfusion ho

theorem run_regSup (be : Backend) (evs : List Event) : ∀ w : World, w.Inv → RegSup w →
    RegSup (run be w evs) := by
  induction evs with
  | nil => intro w _ h; exact h
  | cons ev evs ih =>
    intro w hinv h
    exact ih _ (step_inv be w ev hinv) (step_regSup be w ev hinv h)

theorem NewCameraService_regSup : RegSup NewCameraService := by
  intro k p s h
  simp [NewCameraService] at h

theorem AddSource_alreadyExists (be : Backend) (w : World) (ctx : Nat) (config : SourceConfig)
    (id : String) (h : (AddSource be w ctx config).2 = .err (.alreadyExists id)) :
    ∃ p : Nat, mapGet w.svc.sources (sourceIDOf config) = some p := by
  cases hg : mapGet w.svc.sources (sourceIDOf config) with
  | some p => exact ⟨p, rfl⟩
  | none =>
    exfalso
    cases ho : openCapture be config with
    | none =>
      rw [AddSource_unsupported be w ctx config hg ho] at h
      simp at h
    | some b =>
      cases b with
      | false =>
        rw [AddSource_openFailed be w ctx config hg ho] at h
        simp at h
      | true =>
        rw [AddSource_opened be w ctx config hg ho] at h
        simp at h

/-! ## The numbering invariant holds in every world the process reaches -/

theorem wrapInt64_succ (x : Int) : wrapInt64 (wrapInt64 x + 1) = wrapInt64 (x + 1) := by
  unfold wrapInt64
  omega

theorem numbered_snoc (l : List Bool) (b : Bool) : ∀ n : Nat,
    numbered n (l ++ [b]) = numbered n l ++ (if b then [((n + l.length : Nat) : Int)] else []) := by
  induction l with
  | nil =>
    intro n
    cases b <;> simp [numbered]
  | cons a l ih =>
    intro n
    have e : n + 1 + l.length = n + (l.length + 1) := by omega
    cases a <;> simp [numbered, ih, e]

theorem numbered_range (l : List Bool) : ∀ (n : Nat) (x : Int), x ∈ numbered n l →
    (n : Int) ≤ x ∧ x < ((n + l.length : Nat) : Int) := by
  induction l with
  | nil =>
    intro n x h
    simp [numbered] at h
  | cons a l ih =>
    intro n x h
    cases a with
    | true =>
      simp only [numbered, List.mem_cons] at h
      rcases h with h | h
      · subst h
        simp only [List.length_cons]
        omega
      · have := ih (n + 1) x h
        simp only [List.length_cons]
        omega
    | false =>
      simp only [numbered] at h
      have := ih (n + 1) x h
      simp only [List.length_cons]
      omega

theorem numbered_wrap (l : List Bool) (h : l.length ≤ 2 ^ 63) :
    (numbered 0 l).map wrapInt64 = numbered 0 l := by
  conv_rhs => rw [← List.map_id (numbered 0 l)]
  apply List.map_congr_left
  intro x hx
  have := numbered_range l 0 x hx
  simp only [Nat.zero_add, Nat.cast_zero, id] at this ⊢
  apply wrapInt64_of_range x this.1
  have h2 : (l.length : Int) ≤ 2 ^ 63 := by exact_mod_cast h
  omega

theorem wrapInt64_zero : wrapInt64 0 = 0 := by
  unfold wrapInt64
  omega

theorem Num.congr {L L2 : Nat → List Bool} {heap : List VideoSource} {chans : List Chan}
    {prods : List Producer} {dists : List Distributor} (h : Num L heap chans prods dists)
    (e : ∀ t : Nat, L2 t = L t) : Num L2 heap chans prods dists := by
  have : L2 = L := funext e
  rw [this]
  exact h

/-- The numbering invariant survives a step that sends no frame on an output
channel and leaves the counters alone. -/
theorem Num.keep {L : Nat → List Bool} {heap heap2 : List VideoSource}
    {chans chans2 : List Chan} {prods prods2 : List Producer}
    {dists dists2 : List Distributor} (h : Num L heap chans prods dists)
    (hpv : ∀ (t : Nat) (pr : Producer), prods[t]? = some pr →
      ∃ s : VideoSource, heap[pr.src]? = some s)
    (hfv : ∀ (p : Nat) (s : VideoSource), heap[p]? = some s → s.frames < chans.length)
    (hheap : HeapFoot chans heap heap2)
    (hlen : chans.length ≤ chans2.length)
    (hch : ∀ (c : Nat) (ch : Chan), chans[c]? = some ch →
      (∃ (q : Nat) (s : VideoSource), heap[q]? = some s ∧ s.frames = c) →
      ∃ ch2 : Chan, chans2[c]? = some ch2 ∧ ch2.sent = ch.sent)
    (hnew : ∀ (c : Nat) (ch2 : Chan), chans2[c]? = some ch2 → chans.length ≤ c →
      ch2.sent = [])
    (hplen : prods.length ≤ prods2.length)
    (hprods : ∀ (t : Nat) (pr2 : Producer), prods2[t]? = some pr2 →
      (∃ pr : Producer, prods[t]? = some pr ∧ pr2.src = pr.src ∧ pr2.frameID = pr.frameID) ∨
      (prods.length ≤ t ∧ pr2.frameID = 0 ∧ heap.length ≤ pr2.src))
    (hdists : ∀ (d : Nat) (ds2 : Distributor), dists2[d]? = some ds2 →
      ∀ c : Nat, c ∈ ds2.state.rest →
        (∃ ds : Distributor, dists[d]? = some ds ∧ c ∈ ds.state.rest) ∨
        (c < chans.length ∧ ∀ (q : Nat) (s : VideoSource), heap[q]? = some s → s.frames ≠ c)) :
    Num L heap2 chans2 prods2 dists2 := by
  refine ⟨?_, ?_, ?_, ?_⟩
  · intro t ht
    exact h.fresh t (by omega)
  · intro t pr2 ht
    rcases hprods t pr2 ht with ⟨pr, hpr, _, hid⟩ | ⟨hnewt, hid, _⟩
    · rw [hid]
      exact h.count t pr hpr
    · rw [hid, h.fresh t hnewt]
      exact wrapInt64_zero.symm
  · intro t pr2 s2 och2 ht hs2 hoch2
    rcases hprods t pr2 ht with ⟨pr, hpr, hsrc, _⟩ | ⟨hnewt, _, hsrc⟩
    · obtain ⟨s, hs⟩ := hpv t pr hpr
      obtain ⟨s3, hs3, _, hfr, _⟩ := hheap.1 pr.src s hs
      rw [hsrc, hs3] at hs2
      injection hs2 with hs2
      subst hs2
      have hlt := hfv pr.src s hs
      obtain ⟨och, hoch⟩ : ∃ och : Chan, chans[s.frames]? = some och :=
        ⟨chans[s.frames], List.getElem?_eq_getElem hlt⟩
      obtain ⟨ch2, hch2, hsent⟩ := hch s.frames och hoch ⟨pr.src, s, hs, rfl⟩
      rw [hfr, hch2] at hoch2
      injection hoch2 with hoch2
      subst hoch2
      rw [hsent]
      exact h.out t pr s och hpr hs hoch
    · obtain ⟨hfr, _⟩ := hheap.2 pr2.src s2 hs2 hsrc
      rw [hfr] at hoch2
      rw [hnew chans.length och2 hoch2 (Nat.le_refl _), h.fresh t hnewt]
      rfl
  · intro d ds2 hd c hc
    have hold : c < chans.length ∧
        ∀ (q : Nat) (s : VideoSource), heap[q]? = some s → s.frames ≠ c := by
      rcases hdists d ds2 hd c hc with ⟨ds, hds, hcds⟩ | hfresh
      · exact h.rest d ds hds c hcds
      · exact hfresh
    refine ⟨by omega, ?_⟩
    intro q s2 hq
    by_cases hlt : q < heap.length
    · obtain ⟨s, hs⟩ : ∃ s : VideoSource, heap[q]? = some s :=
        ⟨heap[q], List.getElem?_eq_getElem hlt⟩
      obtain ⟨s3, hs3, _, hfr, _⟩ := hheap.1 q s hs
      rw [hq] at hs3
      injection hs3 with hs3
      subst hs3
      rw [hfr]
      exact hold.2 q s hs
    · obtain ⟨hfr, _⟩ := hheap.2 q s2 hq (by omega)
      rw [hfr]
      omega

theorem Inv.prod_heap {svc : CameraService} {heap : List VideoSource} {chans : List Chan}
    {producers : List Producer} (h : Inv svc heap chans producers) (t : Nat) (pr : Producer)
    (ht : producers[t]? = some pr) : ∃ s : VideoSource, heap[pr.src]? = some s := by
  obtain ⟨s, hs, _⟩ := h.prod_valid t pr ht
  exact ⟨s, hs⟩

theorem AddSource_num (be : Backend) (w : World) (ctx : Nat) (config : SourceConfig)
    (L : Nat → List Bool) (hinv : w.Inv) (h : w.Num L) :
    (AddSource be w ctx config).1.Num L := by
  have hheap := AddSource_heap be w ctx config
  have hold : ∀ (t : Nat) (pr2 : Producer), w.producers[t]? = some pr2 →
      (∃ pr : Producer, w.producers[t]? = some pr ∧ pr2.src = pr.src ∧
        pr2.frameID = pr.frameID) ∨
      (w.producers.length ≤ t ∧ pr2.frameID = 0 ∧ w.heap.length ≤ pr2.src) :=
    fun t pr2 ht => Or.inl ⟨pr2, ht, rfl, rfl⟩
  have hdold : ∀ (d : Nat) (ds2 : Distributor), w.distributors[d]? = some ds2 →
      ∀ c : Nat, c ∈ ds2.state.rest →
        (∃ ds : Distributor, w.distributors[d]? = some ds ∧ c ∈ ds.state.rest) ∨
        (c < w.chans.length ∧
          ∀ (q : Nat) (s : VideoSource), w.heap[q]? = some s → s.frames ≠ c) :=
    fun d ds2 hd c hc => Or.inl ⟨ds2, hd, hc⟩
  have happ : ∀ (c : Nat) (ch : Chan), w.chans[c]? = some ch →
      (∃ (q : Nat) (s : VideoSource), w.heap[q]? = some s ∧ s.frames = c) →
      ∃ ch2 : Chan, (w.chans ++ [Chan.make bufferSize])[c]? = some ch2 ∧ ch2.sent = ch.sent :=
    fun c ch hc _ => ⟨ch, getElem?_concat_of_some _ _ _ _ hc, rfl⟩
  have hnew : ∀ (c : Nat) (ch2 : Chan), (w.chans ++ [Chan.make bufferSize])[c]? = some ch2 →
      w.chans.length ≤ c → ch2.sent = [] := by
    intro c ch2 hc hle
    rcases getElem?_concat_some _ _ _ _ hc with h1 | ⟨_, h1⟩
    · have := getElem?_lt _ _ _ h1
      omega
    · rw [h1]
      rfl
  cases hg : mapGet w.svc.sources (sourceIDOf config) with
  | some p =>
    rw [AddSource_registered be w ctx config p hg]
    exact h
  | none =>
    cases ho : openCapture be config with
    | none =>
      rw [AddSource_unsupported be w ctx config hg ho] at hheap ⊢
      exact Num.keep h hinv.prod_heap hinv.frames_valid hheap (by simp) happ hnew
        (Nat.le_refl _) hold hdold
    | some b =>
      cases b with
      | false =>
        rw [AddSource_openFailed be w ctx config hg ho] at hheap ⊢
        exact Num.keep h hinv.prod_heap hinv.frames_valid hheap (by simp) happ hnew
          (Nat.le_refl _) hold hdold
      | true =>
        rw [AddSource_opened be w ctx config hg ho] at hheap ⊢
        refine Num.keep h hinv.prod_heap hinv.frames_valid hheap (by simp) happ hnew
          (by simp) ?_ ?_
        · intro t pr2 ht
          rcases getElem?_concat_some _ _ _ _ ht with h1 | ⟨h1, h2⟩
          · exact Or.inl ⟨pr2, h1, rfl, rfl⟩
          · subst h2
            exact Or.inr ⟨by omega, rfl, Nat.le_refl _⟩
        · intro d ds2 hd c hc
          rcases getElem?_concat_some _ _ _ _ hd with h1 | ⟨_, h2⟩
          · exact Or.inl ⟨ds2, h1, hc⟩
          · subst h2
            simp [DistState.rest] at hc

theorem Subscribe_num (w : World) (sourceID : String) (L : Nat → List Bool) (hinv : w.Inv)
    (h : w.Num L) : (Subscribe w sourceID).1.Num L := by
  unfold Subscribe
  split
  · exact h
  · refine Num.keep h hinv.prod_heap hinv.frames_valid (HeapFoot.same _ _) (by simp)
      (fun c ch hc _ => ⟨ch, getElem?_concat_of_some _ _ _ _ hc, rfl⟩) ?_ (Nat.le_refl _)
      (fun t pr2 ht => Or.inl ⟨pr2, ht, rfl, rfl⟩)
      (fun d ds2 hd c hc => Or.inl ⟨ds2, hd, hc⟩)
    intro c ch2 hc hle
    rcases getElem?_concat_some _ _ _ _ hc with h1 | ⟨_, h1⟩
    · have := getElem?_lt _ _ _ h1
      omega
    · rw [h1]
      rfl

theorem RemoveSource_num (w : World) (sourceID : String) (L : Nat → List Bool)
    (hinv : w.Inv) (h : w.Num L) : (RemoveSource w sourceID).1.Num L := by
  have hheap := RemoveSource_heap w sourceID hinv
  cases hg : mapGet w.svc.sources sourceID with
  | none =>
    have e : RemoveSource w sourceID = (w, .err (.notFound sourceID)) := by
      simp [RemoveSource, hg]
    rw [e]
    exact h
  | some p =>
    obtain ⟨s, chans2, hs, hca, e⟩ := RemoveSource_registered w sourceID p hinv hg
    rw [e] at hheap ⊢
    obtain ⟨_, hin, hout⟩ := closeAll_spec _ _ _ hca
    have hl := closeAll_length _ _ _ hca
    refine Num.keep h hinv.prod_heap hinv.frames_valid hheap (by rw [hl]) ?_ ?_
      (Nat.le_refl _) (fun t pr2 ht => Or.inl ⟨pr2, ht, rfl, rfl⟩)
      (fun d ds2 hd c hc => Or.inl ⟨ds2, hd, hc⟩)
    · intro c ch hc _
      by_cases hmem : c ∈ (mapGet w.svc.subscribers sourceID).getD []
      · obtain ⟨y, hy, _, hy2⟩ := hin c hmem
        rw [hc] at hy
        injection hy with hy
        subst hy
        exact ⟨_, hy2, rfl⟩
      · exact ⟨ch, by rw [hout c hmem]; exact hc, rfl⟩
    · intro c ch2 hc hle
      have := getElem?_lt _ _ _ hc
      rw [hl] at this
      omega

/-- The channels a distributor has still to serve after an action were to be
served before it, or are subscriber channels read from the map. -/
theorem distributeFrames_rest (w : World) (d : Nat) (a : DistStep) (e : Nat)
    (ds2 : Distributor) (he : (distributeFrames w d a).distributors[e]? = some ds2)
    (c : Nat) (hc : c ∈ ds2.state.rest) :
    (∃ ds : Distributor, w.distributors[e]? = some ds ∧ c ∈ ds.state.rest) ∨
    (∃ k : String, c ∈ (mapGet w.svc.subscribers k).getD []) := by
  have hset : ∀ (ds : Distributor) (st : DistState), w.distributors[d]? = some ds →
      (∀ x : Nat, x ∈ st.rest → x ∈ ds.state.rest ∨
        ∃ k : String, x ∈ (mapGet w.svc.subscribers k).getD []) →
      (w.distributors.set d { ds with state := st })[e]? = some ds2 →
      (∃ ds : Distributor, w.distributors[e]? = some ds ∧ c ∈ ds.state.rest) ∨
      (∃ k : String, c ∈ (mapGet w.svc.subscribers k).getD []) := by
    intro ds st hd hst h
    rcases getElem?_set_some _ _ _ _ _ h with ⟨hde, hb, _⟩ | ⟨_, hb⟩
    · subst hde
      subst hb
      rcases hst c hc with h1 | h1
      · exact Or.inl ⟨ds, hd, h1⟩
      · exact Or.inr h1
    · exact Or.inl ⟨ds2, hb, hc⟩
  have hnil : ∀ st : DistState, st.rest = [] → ∀ x : Nat, x ∈ st.rest →
      x ∈ ds2.state.rest ∨ x ∈ ds2.state.rest := by
    intro st hst x hx
    rw [hst] at hx
    simp at hx
  unfold distributeFrames at he
  split at he
  · exact Or.inl ⟨ds2, he, hc⟩
  · next ds hd =>
    split at he
    · split at he
      · exact Or.inl ⟨ds2, he, hc⟩
      · exact hset ds _ hd (by intro x hx; simp [DistState.rest] at hx) he
    · split at he
      · exact hset ds _ hd (by intro x hx; simp [DistState.rest] at hx) he
      · exact Or.inl ⟨ds2, he, hc⟩
    · split at he
      · exact Or.inl ⟨ds2, he, hc⟩
      · split at he
        · exact hset ds _ hd (by intro x hx; simp [DistState.rest] at hx) he
        · exact hset ds _ hd (by intro x hx; simp [DistState.rest] at hx) he
        · exact Or.inl ⟨ds2, he, hc⟩
    · refine hset ds _ hd ?_ he
      intro x hx
      exact Or.inr ⟨ds.sourceID, hx⟩
    · exact hset ds _ hd (by intro x hx; simp [DistState.rest] at hx) he
    · next _ _ fc f sub rest hst =>
      have htail : ∀ x : Nat, x ∈ (DistState.sending fc f rest).rest → x ∈ ds.state.rest ∨
          ∃ k : String, x ∈ (mapGet w.svc.subscribers k).getD [] := by
        intro x hx
        left
        rw [hst]
        exact List.mem_cons_of_mem _ hx
      split at he
      · exact Or.inl ⟨ds2, he, hc⟩
      · split at he
        · exact hset ds _ hd htail he
        · exact hset ds _ hd htail he
        · exact Or.inl ⟨ds2, he, hc⟩
    · exact Or.inl ⟨ds2, he, hc⟩

theorem chan_write_sent (heap : List VideoSource) {chans : List Chan} (x : Nat) (y y2 : Chan)
    (hx : chans[x]? = some y)
    (hy : y2.sent = y.sent ∨ ∀ (q : Nat) (s : VideoSource), heap[q]? = some s → s.frames ≠ x) :
    (∀ (c : Nat) (ch : Chan), chans[c]? = some ch →
      (∃ (q : Nat) (s : VideoSource), heap[q]? = some s ∧ s.frames = c) →
      ∃ ch2 : Chan, (chans.set x y2)[c]? = some ch2 ∧ ch2.sent = ch.sent) ∧
    (∀ (c : Nat) (ch2 : Chan), (chans.set x y2)[c]? = some ch2 → chans.length ≤ c →
      ch2.sent = []) := by
  refine ⟨?_, ?_⟩
  · intro c ch hc ⟨q, s, hq, hfr⟩
    refine ⟨_, getElem?_set_of_some chans x c y2 ch hc, ?_⟩
    by_cases e : x = c
    · subst e
      rw [hx] at hc
      injection hc with hc
      subst hc
      rcases hy with h1 | h1
      · simpa using h1
      · exact absurd hfr (h1 q s hq)
    · simp [e]
  · intro c ch2 hc hle
    have := getElem?_lt _ _ _ hc
    simp at this
    omega

theorem chan_same_sent (heap : List VideoSource) (chans : List Chan) :
    (∀ (c : Nat) (ch : Chan), chans[c]? = some ch →
      (∃ (q : Nat) (s : VideoSource), heap[q]? = some s ∧ s.frames = c) →
      ∃ ch2 : Chan, chans[c]? = some ch2 ∧ ch2.sent = ch.sent) ∧
    (∀ (c : Nat) (ch2 : Chan), chans[c]? = some ch2 → chans.length ≤ c → ch2.sent = []) := by
  refine ⟨fun c ch hc _ => ⟨ch, hc, rfl⟩, ?_⟩
  intro c ch2 hc hle
  have := getElem?_lt _ _ _ hc
  omega

theorem distributeFrames_num (w : World) (d : Nat) (a : DistStep) (L : Nat → List Bool)
    (hinv : w.Inv) (h : w.Num L) : (distributeFrames w d a).Num L := by
  have hheap : HeapFoot w.chans w.heap (distributeFrames w d a).heap := by
    rw [distributeFrames_heap]
    exact HeapFoot.same _ _
  have hprods : ∀ (t : Nat) (pr2 : Producer),
      (distributeFrames w d a).producers[t]? = some pr2 →
      (∃ pr : Producer, w.producers[t]? = some pr ∧ pr2.src = pr.src ∧
        pr2.frameID = pr.frameID) ∨
      (w.producers.length ≤ t ∧ pr2.frameID = 0 ∧ w.heap.length ≤ pr2.src) := by
    intro t pr2 ht
    rw [distributeFrames_producers] at ht
    exact Or.inl ⟨pr2, ht, rfl, rfl⟩
  have hdists : ∀ (e : Nat) (ds2 : Distributor),
      (distributeFrames w d a).distributors[e]? = some ds2 →
      ∀ c : Nat, c ∈ ds2.state.rest →
        (∃ ds : Distributor, w.distributors[e]? = some ds ∧ c ∈ ds.state.rest) ∨
        (c < w.chans.length ∧
          ∀ (q : Nat) (s : VideoSource), w.heap[q]? = some s → s.frames ≠ c) := by
    intro e ds2 he c hc
    rcases distributeFrames_rest w d a e ds2 he c hc with h1 | ⟨k, hk⟩
    · exact Or.inl h1
    · have hmem := mapGet_getD_mem _ _ c hk
      obtain ⟨ch, hch, _⟩ := hinv.sub_open _ _ hmem c hk
      exact Or.inr ⟨getElem?_lt _ _ _ hch, hinv.sub_not_frames _ _ hmem c hk⟩
  have hplen : w.producers.length ≤ (distributeFrames w d a).producers.length := by
    rw [distributeFrames_producers]
  rcases distributeFrames_cases w d a with e | ⟨fc, y, hy, e⟩ |
    ⟨ds, fc, f, sub, rest, y, hd, hst, hy, _, _, e⟩
  · have hc := chan_same_sent w.heap w.chans
    exact Num.keep h hinv.prod_heap hinv.frames_valid hheap (by rw [e])
      (by rw [e]; exact hc.1) (by rw [e]; exact hc.2) hplen hprods hdists
  · have hc := chan_write_sent w.heap fc y { y with rcvd := y.rcvd + 1 } hy (Or.inl rfl)
    exact Num.keep h hinv.prod_heap hinv.frames_valid hheap (by rw [e]; simp)
      (by rw [e]; exact hc.1) (by rw [e]; exact hc.2) hplen hprods hdists
  · have hsub : sub ∈ ds.state.rest := by
      rw [hst]
      exact List.mem_cons_self _ _
    have hc := chan_write_sent w.heap sub y { y with sent := y.sent ++ [f] } hy
      (Or.inr (h.rest d ds hd sub hsub).2)
    exact Num.keep h hinv.prod_heap hinv.frames_valid hheap (by rw [e]; simp)
      (by rw [e]; exact hc.1) (by rw [e]; exact hc.2) hplen hprods hdists

theorem consume_distributors (w : World) (c : Nat) :
    (consume w c).distributors = w.distributors := by
  unfold consume
  repeat (first | rfl | split | dsimp only)

theorem consume_num (w : World) (c : Nat) (L : Nat → List Bool) (hinv : w.Inv)
    (h : w.Num L) : (consume w c).Num L := by
  have hheap : HeapFoot w.chans w.heap (consume w c).heap := by
    rw [consume_heap]
    exact HeapFoot.same _ _
  have hprods : ∀ (t : Nat) (pr2 : Producer), (consume w c).producers[t]? = some pr2 →
      (∃ pr : Producer, w.producers[t]? = some pr ∧ pr2.src = pr.src ∧
        pr2.frameID = pr.frameID) ∨
      (w.producers.length ≤ t ∧ pr2.frameID = 0 ∧ w.heap.length ≤ pr2.src) := by
    intro t pr2 ht
    rw [consume_producers] at ht
    exact Or.inl ⟨pr2, ht, rfl, rfl⟩
  have hdists : ∀ (e : Nat) (ds2 : Distributor), (consume w c).distributors[e]? = some ds2 →
      ∀ x : Nat, x ∈ ds2.state.rest →
        (∃ ds : Distributor, w.distributors[e]? = some ds ∧ x ∈ ds.state.rest) ∨
        (x < w.chans.length ∧
          ∀ (q : Nat) (s : VideoSource), w.heap[q]? = some s → s.frames ≠ x) := by
    intro e ds2 he x hx
    rw [consume_distributors] at he
    exact Or.inl ⟨ds2, he, hx⟩
  have hplen : w.producers.length ≤ (consume w c).producers.length := by
    rw [consume_producers]
  rcases consume_cases w c with e | ⟨y, hy, _, e⟩
  · have hc := chan_same_sent w.heap w.chans
    exact Num.keep h hinv.prod_heap hinv.frames_valid hheap (by rw [e])
      (by rw [e]; exact hc.1) (by rw [e]; exact hc.2) hplen hprods hdists
  · have hc := chan_write_sent w.heap c y { y with rcvd := y.rcvd + 1 } hy (Or.inl rfl)
    exact Num.keep h hinv.prod_heap hinv.frames_valid hheap (by rw [e]; simp)
      (by rw [e]; exact hc.1) (by rw [e]; exact hc.2) hplen hprods hdists

theorem prod_write_foot (heap : List VideoSource) (prods : List Producer) (u : Nat)
    (pr pr2 : Producer) (hu : prods[u]? = some pr) (hsrc : pr2.src = pr.src)
    (hid : pr2.frameID = pr.frameID) :
    ∀ (t : Nat) (x : Producer), (prods.set u pr2)[t]? = some x →
      (∃ y : Producer, prods[t]? = some y ∧ x.src = y.src ∧ x.frameID = y.frameID) ∨
      (prods.length ≤ t ∧ x.frameID = 0 ∧ heap.length ≤ x.src) := by
  intro t x ht
  rcases getElem?_set_some _ _ _ _ _ ht with ⟨e, hb, _⟩ | ⟨_, hb⟩
  · subst e
    subst hb
    exact Or.inl ⟨pr, hu, hsrc, hid⟩
  · exact Or.inl ⟨x, hb, rfl, rfl⟩

/-- The numbering invariant survives an iteration in which producer `u` numbers
a frame: its record gets one more entry, `true` when the frame goes into the
output channel. -/
theorem Num.produce {L : Nat → List Bool} {svc : CameraService} {heap : List VideoSource}
    {chans : List Chan} {prods : List Producer} {dists : List Distributor}
    (h : Num L heap chans prods dists) (hinv : Inv svc heap chans prods) (u : Nat)
    (pr : Producer) (s : VideoSource) (och : Chan) (f : FrameData) (b : Bool)
    (chans2 : List Chan) (hu : prods[u]? = some pr) (hs : heap[pr.src]? = some s)
    (hoch : chans[s.frames]? = some och) (hf : f.ID = pr.frameID)
    (hch : chans2 =
      if b = true then chans.set s.frames { och with sent := och.sent ++ [f] } else chans)
    (L2 : Nat → List Bool) (hL : ∀ t : Nat, L2 t = L t ++ (if u = t then [b] else [])) :
    Num L2 heap chans2 (prods.set u { pr with frameID := wrapInt64 (pr.frameID + 1) })
      dists := by
  have hult := getElem?_lt _ _ _ hu
  have hclt := getElem?_lt _ _ _ hoch
  have hlen : chans2.length = chans.length := by
    rw [hch]
    split <;> simp
  refine ⟨?_, ?_, ?_, ?_⟩
  · intro t ht
    simp only [List.length_set] at ht
    rw [hL, if_neg (by omega), h.fresh t ht]
    rfl
  · intro t pr2 ht
    rcases getElem?_set_some _ _ _ _ _ ht with ⟨e, hb, _⟩ | ⟨e, hb⟩
    · subst e
      subst hb
      rw [hL, if_pos rfl]
      show wrapInt64 (pr.frameID + 1) = _
      rw [h.count u pr hu, wrapInt64_succ]
      simp
    · rw [hL, if_neg e, List.append_nil]
      exact h.count t pr2 hb
  · intro t pr2 s2 och2 ht hs2 hoch2
    rcases getElem?_set_some _ _ _ _ _ ht with ⟨e, hb, _⟩ | ⟨e, hb⟩
    · subst e
      subst hb
      have hs2' : heap[pr.src]? = some s2 := hs2
      rw [hs] at hs2'
      injection hs2' with hs2'
      subst hs2'
      rw [hL, if_pos rfl, numbered_snoc, List.map_append, ← h.out u pr s och hu hs hoch]
      cases b with
      | true =>
        rw [hch] at hoch2
        simp only [if_true, List.getElem?_set_self hclt] at hoch2
        injection hoch2 with hoch2
        subst hoch2
        simp [hf, h.count u pr hu]
      | false =>
        rw [hch] at hoch2
        simp only [Bool.false_eq_true, if_false] at hoch2
        rw [hoch] at hoch2
        injection hoch2 with hoch2
        subst hoch2
        simp
    · have hsrc : pr2.src ≠ pr.src := fun e2 => e (hinv.prod_inj t u pr2 pr hb hu e2).symm
      have hfr : s.frames ≠ s2.frames :=
        fun e2 => hsrc (hinv.frames_inj pr2.src pr.src s2 s hs2 hs e2.symm)
      have hoch2' : chans[s2.frames]? = some och2 := by
        rw [hch] at hoch2
        split at hoch2
        · rw [List.getElem?_set_ne hfr] at hoch2
          exact hoch2
        · exact hoch2
      rw [hL, if_neg e, List.append_nil]
      exact h.out t pr2 s2 och2 hb hs2 hoch2'
  · intro d ds hd c hc
    obtain ⟨h1, h2⟩ := h.rest d ds hd c hc
    exact ⟨by rw [hlen]; exact h1, h2⟩

theorem readOf_idle (w : World) (u now : Nat) (r : BackendRead) (h : sendOutcome w u = none)
    (t : Nat) : readOf w t (.capture u now r) = [] := by
  cases r with
  | frame data =>
    simp only [readOf]
    split
    · next e =>
      subst e
      rw [h]
      rfl
    · rfl
  | readFail => rfl
  | emptyFrame => rfl
  | encodeFail => rfl

theorem readOf_skip (w : World) (u now : Nat) (r : BackendRead)
    (h : ∀ data : List Nat, r ≠ .frame data) (t : Nat) :
    readOf w t (.capture u now r) = [] := by
  cases r with
  | frame data => exact absurd rfl (h data)
  | readFail => rfl
  | emptyFrame => rfl
  | encodeFail => rfl

theorem readOf_panicked (w : World) (ev : Event) (h : w.panicked = true) (t : Nat) :
    readOf w t ev = [] := by
  cases ev with
  | capture u now r => exact readOf_idle w u now r (by simp [sendOutcome, h]) t
  | addSource ctx config => rfl
  | subscribe k => rfl
  | removeSource k => rfl
  | cancel ctx => rfl
  | dist d a => rfl
  | consume c => rfl

theorem captureFrames_num (w : World) (u now : Nat) (r : BackendRead) (L : Nat → List Bool)
    (hinv : w.Inv) (hpan : w.panicked = false) (h : w.Num L) :
    (captureFrames w u now r).Num (fun t => L t ++ readOf w t (.capture u now r)) := by
  have hheap := captureFrames_heap w u now r hinv
  have hdold : ∀ (d : Nat) (ds2 : Distributor), w.distributors[d]? = some ds2 →
      ∀ c : Nat, c ∈ ds2.state.rest →
        (∃ ds : Distributor, w.distributors[d]? = some ds ∧ c ∈ ds.state.rest) ∨
        (c < w.chans.length ∧
          ∀ (q : Nat) (s : VideoSource), w.heap[q]? = some s → s.frames ≠ c) :=
    fun d ds2 hd c hc => Or.inl ⟨ds2, hd, hc⟩
  rcases captureFrames_cases w u now r hinv with ⟨hidle, heq⟩ |
    ⟨pr, s, v, och, ht, hd, hs, hv, hco, hoch, hcl, hrun⟩
  · rw [heq]
    refine h.congr (fun t => ?_)
    rw [readOf_idle w u now r ?_ t, List.append_nil]
    rcases hidle with h1 | ⟨pr, h1, h2⟩
    · simp [sendOutcome, h1]
    · simp [sendOutcome, h1, h2]
  · have hderef := World.deref_of_some w pr.src s hs
    rcases hrun with ⟨hcond, heq⟩ | ⟨_, _, hr, v2, _, heq⟩ | ⟨ha, hx, data, hr, heq⟩
    · rw [heq] at hheap ⊢
      have hL : ∀ t : Nat, L t ++ readOf w t (.capture u now r) = L t := by
        intro t
        rcases hcond with h1 | h1 | ⟨h1, _⟩
        · rw [readOf_idle w u now r (by simp [sendOutcome, ht, hd, hderef, h1]) t,
            List.append_nil]
        · rw [readOf_idle w u now r (by simp [sendOutcome, ht, hd, hderef, h1]) t,
            List.append_nil]
        · rw [readOf_skip w u now r (by rw [h1]; simp) t, List.append_nil]
      refine Num.congr ?_ hL
      have hc := chan_write_sent w.heap s.frames och { och with closed := true } hoch
        (Or.inl rfl)
      exact Num.keep h hinv.prod_heap hinv.frames_valid hheap (by simp [cleanedUp])
        hc.1 hc.2 (by simp [cleanedUp])
        (prod_write_foot w.heap w.producers u pr _ ht rfl rfl) hdold
    · rw [heq] at hheap ⊢
      refine Num.congr ?_ (fun t => by rw [readOf_skip w u now r hr t, List.append_nil])
      have hc := chan_same_sent w.heap w.chans
      exact Num.keep h hinv.prod_heap hinv.frames_valid hheap (Nat.le_refl _) hc.1 hc.2
        (Nat.le_refl _) (fun t pr2 ht2 => Or.inl ⟨pr2, ht2, rfl, rfl⟩) hdold
    · rw [heq] at hheap ⊢
      have hslt := getElem?_lt _ _ _ hs
      have hc := chan_same_sent w.heap w.chans
      have h1 : Num L (w.heap.set pr.src { s with capture := some (v.Read r) }) w.chans
          w.producers w.distributors :=
        Num.keep h hinv.prod_heap hinv.frames_valid hheap (Nat.le_refl _) hc.1 hc.2
          (Nat.le_refl _) (fun t pr2 ht2 => Or.inl ⟨pr2, ht2, rfl, rfl⟩) hdold
      have hinv1 : Inv w.svc (w.heap.set pr.src { s with capture := some (v.Read r) })
          w.chans w.producers :=
        hinv.heap_set pr.src s _ hs rfl rfl rfl (fun _ => rfl)
      have hso : sendOutcome w u = some (decide (och.len < och.cap)) := by
        simp [sendOutcome, hpan, ht, hd, hderef, ha, hx, hv, hoch, hcl]
      refine Num.produce h1 hinv1 u pr { s with capture := some (v.Read r) } och
        (builtFrame pr s now data) (decide (och.len < och.cap)) _ ht (by simp [hslt]) hoch rfl
        ?_ _ ?_
      · show (if och.len < och.cap then _ else _) = _
        by_cases hl : och.len < och.cap <;> simp [hl]
      · intro t
        subst hr
        show L t ++ readOf w t (.capture u now (.frame data)) = _
        simp only [readOf]
        by_cases e : u = t
        · subst e
          simp [hso]
        · simp [e]

theorem step_num (be : Backend) (w : World) (ev : Event) (L : Nat → List Bool)
    (hinv : w.Inv) (h : w.Num L) : (step be w ev).Num (fun t => L t ++ readOf w t ev) := by
  by_cases hpan : w.panicked = true
  · have e : step be w ev = w := by simp [step, hpan]
    rw [e]
    exact h.congr (fun t => by rw [readOf_panicked w ev hpan t, List.append_nil])
  · have hpan' : w.panicked = false := by simpa using hpan
    have hL : ∀ L2 : Nat → List Bool, (∀ t : Nat, L2 t = L t ++ []) →
        ∀ t : Nat, L2 t = L t := fun L2 e t => by rw [e t, List.append_nil]
    unfold step
    rw [if_neg hpan]
    cases ev with
    | addSource ctx config =>
      exact (AddSource_num be w ctx config L hinv h).congr (hL _ (fun t => rfl))
    | subscribe sourceID =>
      exact (Subscribe_num w sourceID L hinv h).congr (hL _ (fun t => rfl))
    | removeSource sourceID =>
      exact (RemoveSource_num w sourceID L hinv h).congr (hL _ (fun t => rfl))
    | cancel ctx => exact Num.congr h (hL _ (fun t => rfl))
    | capture t now r => exact captureFrames_num w t now r L hinv hpan' h
    | dist d a => exact (distributeFrames_num w d a L hinv h).congr (hL _ (fun t => rfl))
    | consume c => exact (consume_num w c L hinv h).congr (hL _ (fun t => rfl))

theorem run_num (be : Backend) (evs : List Event) : ∀ (w : World) (L : Nat → List Bool),
    w.Inv → w.Num L → (run be w evs).Num (fun t => L t ++ frameReads be t w evs) := by
  induction evs with
  | nil =>
    intro w L _ h
    exact h.congr (fun t => by simp [frameReads])
  | cons ev evs ih =>
    intro w L hinv h
    have h2 := ih (step be w ev) _ (step_inv be w ev hinv) (step_num be w ev L hinv h)
    rw [run_cons]
    exact h2.congr (fun t => by simp [frameReads])

theorem NewCameraService_num : NewCameraService.Num (fun _ => []) := by
  refine ⟨?_, ?_, ?_, ?_⟩ <;> simp [NewCameraService]

theorem sendOutcome_some (w : World) (t : Nat) (b : Bool) (h : sendOutcome w t = some b) :
    w.panicked = false ∧
    ∃ pr : Producer, w.producers[t]? = some pr ∧ pr.done = false ∧
      (w.deref pr.src).isActive = true ∧ pr.ctx ∉ w.cancelled ∧
      (w.deref pr.src).capture.isSome = true ∧
      ∀ c : Chan, w.chans[(w.deref pr.src).frames]? = some c →
        c.closed = false ∧ b = decide (c.len < c.cap) := by
  unfold sendOutcome at h
  split at h
  · exact Option.noConfusion h
  · next hpan =>
    split at h
    · exact Option.noConfusion h
    · next pr ht =>
      split at h
      · exact Option.noConfusion h
      · next hd =>
        dsimp only at h
        split at h
        · exact Option.noConfusion h
        · next ha =>
          split at h
          · exact Option.noConfusion h
          · next hx =>
            split at h
            · exact Option.noConfusion h
            · next v hv =>
              refine ⟨by simpa using hpan, pr, ht, by simpa using hd, by simpa using ha, hx,
                by rw [hv]; rfl, ?_⟩
              intro c hc
              rw [hc] at h
              dsimp only at h
              split at h
              · exact Option.noConfusion h
              · next hcl =>
                injection h with h
                exact ⟨by simpa using hcl, h.symm⟩

set_option maxRecDepth 100000 in
/-- A dropped frame takes its number with it: the output channel holds 100
frames when the 101st is numbered, so number 100 never reaches the channel,
and the next frame sent is number 101. -/
theorem dropped_frame_takes_its_number :
    ((run Backend.allOpen NewCameraService fullEvents).chans[0]?).map
        (fun ch => ch.sent.map (fun f => f.ID)) =
      some ((List.range 100).map (fun i => (i : Int)) ++ [101]) ∧
    ((run Backend.allOpen NewCameraService fullEvents).producers[0]?).map
        (fun pr => pr.frameID) = some 102 ∧
    frameReads Backend.allOpen 0 NewCameraService fullEvents =
      List.replicate 100 true ++ [false, true] := by
  decide

/-! ## The claims -/

/-- C1: for every world and every config whose derived id is already registered,
`AddSource` fails with `alreadyExists` and returns the world it was given, so
the source entries, the registered source's handle and active flag and its
subscriber list are as before; in a world the process can reach the registry
holds exactly one entry for that id. -/
theorem AddSource_duplicate (be : Backend) (w : World) (ctx : Nat) (config : SourceConfig)
    (hdup : (mapGet w.svc.sources (sourceIDOf config)).isSome = true) :
    AddSource be w ctx config = (w, .err (.alreadyExists (sourceIDOf config))) ∧
    ((∃ evs : List Event, w = run be NewCameraService evs) →
      ((AddSource be w ctx config).1.svc.sources.filter
        (fun e => decide (e.1 = sourceIDOf config))).length = 1) := by
  obtain ⟨p, hp⟩ := Option.isSome_iff_exists.1 hdup
  have heq := AddSource_registered be w ctx config p hp
  refine ⟨heq, ?_⟩
  rintro ⟨evs, rfl⟩
  rw [heq]
  exact filter_key_length_one _ _ p (run_inv be evs).src_keys hp

theorem AddSource_duplicate_witness :
    (mapGet (run Backend.allOpen NewCameraService [.addSource 0 clipConfig]).svc.sources
      (sourceIDOf clipConfig)).isSome = true ∧
    AddSource Backend.allOpen (run Backend.allOpen NewCameraService [.addSource 0 clipConfig])
        0 clipConfig =
      (run Backend.allOpen NewCameraService [.addSource 0 clipConfig],
        .err (.alreadyExists (sourceIDOf clipConfig))) ∧
    ((∃ evs : List Event, run Backend.allOpen NewCameraService [.addSource 0 clipConfig] =
        run Backend.allOpen NewCameraService evs) →
      ((AddSource Backend.allOpen
          (run Backend.allOpen NewCameraService [.addSource 0 clipConfig]) 0
          clipConfig).1.svc.sources.filter
        (fun e => decide (e.1 = sourceIDOf clipConfig))).length = 1) :=
  ⟨by decide, AddSource_duplicate Backend.allOpen _ 0 clipConfig (by decide)⟩

/-- C2: when the id is not registered and `Start` fails, because the type is
none of file, webcam, ip_camera or because the backend does not open, then
`AddSource` returns the matching error, both maps are as before, no producer
and no distributor goroutine has been started, and every object and channel
that existed is untouched. -/
theorem AddSource_failure_atomic (be : Backend) (w : World) (ctx : Nat)
    (config : SourceConfig)
    (hnew : mapGet w.svc.sources (sourceIDOf config) = none)
    (hfail : ¬ supportedType config.Typ ∨ openCapture be config = some false) :
    (¬ supportedType config.Typ →
      (AddSource be w ctx config).2 = .err (.startFailed (.unsupportedType config.Typ))) ∧
    (openCapture be config = some false →
      (AddSource be w ctx config).2 = .err (.startFailed .openFailed)) ∧
    (AddSource be w ctx config).1.svc = w.svc ∧
    (AddSource be w ctx config).1.producers = w.producers ∧
    (AddSource be w ctx config).1.distributors = w.distributors ∧
    (AddSource be w ctx config).1.panicked = w.panicked ∧
    (∀ (p : Nat) (s : VideoSource), w.heap[p]? = some s →
      (AddSource be w ctx config).1.heap[p]? = some s) ∧
    (∀ (c : Nat) (ch : Chan), w.chans[c]? = some ch →
      (AddSource be w ctx config).1.chans[c]? = some ch) := by
  have hheap : ∀ (p : Nat) (s : VideoSource), w.heap[p]? = some s →
      ((w.heap ++ [newSource w config]).set w.heap.length (newSource w config))[p]? =
        some s := by
    intro p s hp
    have hlt := getElem?_lt _ _ _ hp
    rw [List.getElem?_set_ne (by omega)]
    exact getElem?_concat_of_some _ _ _ _ hp
  cases ho : openCapture be config with
  | none =>
    rw [AddSource_unsupported be w ctx config hnew ho]
    refine ⟨fun _ => rfl, fun h => by simp at h, rfl, rfl, rfl, rfl, ?_, ?_⟩
    · intro p s hp
      exact getElem?_concat_of_some _ _ _ _ hp
    · intro c ch hc
      exact getElem?_concat_of_some _ _ _ _ hc
  | some b =>
    have hsup : supportedType config.Typ := by
      by_contra hns
      rw [(openCapture_none_iff be config).2 hns] at ho
      simp at ho
    cases b with
    | true =>
      rcases hfail with h1 | h1
      · exact absurd hsup h1
      · rw [ho] at h1
        simp at h1
    | false =>
      rw [AddSource_openFailed be w ctx config hnew ho]
      refine ⟨fun h => absurd hsup h, fun _ => rfl, rfl, rfl, rfl, rfl, hheap, ?_⟩
      intro c ch hc
      exact getElem?_concat_of_some _ _ _ _ hc

theorem AddSource_failure_atomic_witness :
    mapGet NewCameraService.svc.sources (sourceIDOf usbConfig) = none ∧
    (¬ supportedType usbConfig.Typ ∨ openCapture Backend.allOpen usbConfig = some false) ∧
    (¬ supportedType usbConfig.Typ →
      (AddSource Backend.allOpen NewCameraService 0 usbConfig).2 =
        .err (.startFailed (.unsupportedType usbConfig.Typ))) ∧
    (openCapture Backend.allOpen usbConfig = some false →
      (AddSource Backend.allOpen NewCameraService 0 usbConfig).2 =
        .err (.startFailed .openFailed)) ∧
    (AddSource Backend.allOpen NewCameraService 0 usbConfig).1.svc = NewCameraService.svc ∧
    (AddSource Backend.allOpen NewCameraService 0 usbConfig).1.producers =
      NewCameraService.producers ∧
    (AddSource Backend.allOpen NewCameraService 0 usbConfig).1.distributors =
      NewCameraService.distributors ∧
    (AddSource Backend.allOpen NewCameraService 0 usbConfig).1.panicked =
      NewCameraService.panicked ∧
    (∀ (p : Nat) (s : VideoSource), NewCameraService.heap[p]? = some s →
      (AddSource Backend.allOpen NewCameraService 0 usbConfig).1.heap[p]? = some s) ∧
    (∀ (c : Nat) (ch : Chan), NewCameraService.chans[c]? = some ch →
      (AddSource Backend.allOpen NewCameraService 0 usbConfig).1.chans[c]? = some ch) :=
  ⟨by decide, Or.inl (by decide),
    AddSource_failure_atomic Backend.allOpen NewCameraService 0 usbConfig (by decide)
      (Or.inl (by decide))⟩

/-- C3: for every config whose type `Start` knows, whose backend opens and whose
derived id is not registered, `AddSource` returns the id
`config.Typ ++ "_" ++ config.URI`; afterwards the registry maps that id to the
new source object, which is active, the id has the empty subscriber list,
every other key of both maps reads as before, every object and channel that
existed is untouched, and exactly one producer and one distributor goroutine
have been added. -/
theorem AddSource_success (be : Backend) (w : World) (ctx : Nat) (config : SourceConfig)
    (hnew : mapGet w.svc.sources (sourceIDOf config) = none)
    (hopen : openCapture be config = some true) :
    supportedType config.Typ ∧
    (AddSource be w ctx config).2 = .ok (config.Typ ++ "_" ++ config.URI) ∧
    mapGet (AddSource be w ctx config).1.svc.sources (config.Typ ++ "_" ++ config.URI) =
      some w.heap.length ∧
    (AddSource be w ctx config).1.heap[w.heap.length]? = some (startedSource w config) ∧
    mapGet (AddSource be w ctx config).1.svc.subscribers (config.Typ ++ "_" ++ config.URI) =
      some [] ∧
    (∀ k : String, k ≠ config.Typ ++ "_" ++ config.URI →
      mapGet (AddSource be w ctx config).1.svc.sources k = mapGet w.svc.sources k ∧
      mapGet (AddSource be w ctx config).1.svc.subscribers k = mapGet w.svc.subscribers k) ∧
    (∀ (p : Nat) (s : VideoSource), w.heap[p]? = some s →
      (AddSource be w ctx config).1.heap[p]? = some s) ∧
    (∀ (c : Nat) (ch : Chan), w.chans[c]? = some ch →
      (AddSource be w ctx config).1.chans[c]? = some ch) ∧
    (AddSource be w ctx config).1.producers =
      w.producers ++ [{ src := w.heap.length, ctx := ctx, frameID := 0, done := false }] ∧
    (AddSource be w ctx config).1.distributors =
      w.distributors ++
        [{ ctx := ctx, sourceID := config.Typ ++ "_" ++ config.URI, state := .start }] := by
  have hsup : supportedType config.Typ := by
    by_contra hns
    rw [(openCapture_none_iff be config).2 hns] at hopen
    simp at hopen
  rw [AddSource_opened be w ctx config hnew hopen]
  refine ⟨hsup, rfl, mapGet_mapSet_same _ _ _, by simp, mapGet_mapSet_same _ _ _, ?_, ?_, ?_,
    rfl, rfl⟩
  · intro k hk
    exact ⟨mapGet_mapSet_other _ _ _ _ hk, mapGet_mapSet_other _ _ _ _ hk⟩
  · intro p s hp
    have hlt := getElem?_lt _ _ _ hp
    show ((w.heap ++ [newSource w config]).set w.heap.length (startedSource w config))[p]? =
      some s
    rw [List.getElem?_set_ne (by omega)]
    exact getElem?_concat_of_some _ _ _ _ hp
  · intro c ch hc
    exact getElem?_concat_of_some _ _ _ _ hc

theorem AddSource_success_witness :
    mapGet NewCameraService.svc.sources (sourceIDOf clipConfig) = none ∧
    openCapture Backend.allOpen clipConfig = some true ∧
    supportedType clipConfig.Typ ∧
    (AddSource Backend.allOpen NewCameraService 7 clipConfig).2 = .ok "file_clip.mp4" ∧
    mapGet (AddSource Backend.allOpen NewCameraService 7 clipConfig).1.svc.sources
      "file_clip.mp4" = some 0 ∧
    (AddSource Backend.allOpen NewCameraService 7 clipConfig).1.heap[0]? =
      some (startedSource NewCameraService clipConfig) ∧
    mapGet (AddSource Backend.allOpen NewCameraService 7 clipConfig).1.svc.subscribers
      "file_clip.mp4" = some [] ∧
    (∀ k : String, k ≠ "file_clip.mp4" →
      mapGet (AddSource Backend.allOpen NewCameraService 7 clipConfig).1.svc.sources k =
        mapGet NewCameraService.svc.sources k ∧
      mapGet (AddSource Backend.allOpen NewCameraService 7 clipConfig).1.svc.subscribers k =
        mapGet NewCameraService.svc.subscribers k) ∧
    (∀ (p : Nat) (s : VideoSource), NewCameraService.heap[p]? = some s →
      (AddSource Backend.allOpen NewCameraService 7 clipConfig).1.heap[p]? = some s) ∧
    (∀ (c : Nat) (ch : Chan), NewCameraService.chans[c]? = some ch →
      (AddSource Backend.allOpen NewCameraService 7 clipConfig).1.chans[c]? = some ch) ∧
    (AddSource Backend.allOpen NewCameraService 7 clipConfig).1.producers =
      NewCameraService.producers ++ [{ src := 0, ctx := 7, frameID := 0, done := false }] ∧
    (AddSource Backend.allOpen NewCameraService 7 clipConfig).1.distributors =
      NewCameraService.distributors ++
        [{ ctx := 7, sourceID := "file_clip.mp4", state := .start }] :=
  ⟨by decide, by decide,
    AddSource_success Backend.allOpen NewCameraService 7 clipConfig (by decide) (by decide)⟩

/-- C4: for every world and every id that is not registered, `RemoveSource` and
`Subscribe` both fail with `notFound` and return the world they were given:
no entry of either map is added, removed or extended, no channel is created
and no channel is closed. -/
theorem unregistered_notFound (w : World) (sourceID : String)
    (h : mapGet w.svc.sources sourceID = none) :
    RemoveSource w sourceID = (w, .err (.notFound sourceID)) ∧
    Subscribe w sourceID = (w, .err (.notFound sourceID)) := by
  simp [RemoveSource, Subscribe, h]

theorem unregistered_notFound_witness :
    mapGet (run Backend.allOpen NewCameraService [.addSource 0 clipConfig]).svc.sources
      "unknown" = none ∧
    RemoveSource (run Backend.allOpen NewCameraService [.addSource 0 clipConfig]) "unknown" =
      (run Backend.allOpen NewCameraService [.addSource 0 clipConfig],
        .err (.notFound "unknown")) ∧
    Subscribe (run Backend.allOpen NewCameraService [.addSource 0 clipConfig]) "unknown" =
      (run Backend.allOpen NewCameraService [.addSource 0 clipConfig],
        .err (.notFound "unknown")) :=
  ⟨by decide, unregistered_notFound _ "unknown" (by decide)⟩

/-- C5: let an id be registered by a successful `AddSource` in a world the
process reached, and let any events follow that do not remove it, among them
any number of successful `Subscribe` calls to it, whose channels are
`subscribed`.  Then `RemoveSource` of the id returns `ok` without a panic; the
close loop runs over exactly those channels, which are pairwise distinct, so
each is closed exactly once: it was open before and is the same channel,
closed, afterwards; every other channel is untouched; the source object has
`isActive = false`; the id is gone from both maps, and every other key of both
maps reads as before. -/
theorem RemoveSource_closes_each_once (be : Backend) (evs0 evs : List Event) (ctx : Nat)
    (config : SourceConfig) (w1 w : World)
    (hadd : AddSource be (run be NewCameraService evs0) ctx config =
      (w1, .ok (sourceIDOf config)))
    (hrm : Event.removeSource (sourceIDOf config) ∉ evs)
    (hw : w = run be w1 evs) :
    (RemoveSource w (sourceIDOf config)).2 = .ok () ∧
    (RemoveSource w (sourceIDOf config)).1.panicked = w.panicked ∧
    mapGet w.svc.subscribers (sourceIDOf config) =
      some (subscribed be (sourceIDOf config) w1 evs) ∧
    closeAll w.chans (subscribed be (sourceIDOf config) w1 evs) =
      some (RemoveSource w (sourceIDOf config)).1.chans ∧
    (∀ c : Nat, c ∈ subscribed be (sourceIDOf config) w1 evs →
      (subscribed be (sourceIDOf config) w1 evs).count c = 1 ∧
      ∃ ch : Chan, w.chans[c]? = some ch ∧ ch.closed = false ∧
        (RemoveSource w (sourceIDOf config)).1.chans[c]? = some { ch with closed := true }) ∧
    (∀ c : Nat, c ∉ subscribed be (sourceIDOf config) w1 evs →
      (RemoveSource w (sourceIDOf config)).1.chans[c]? = w.chans[c]?) ∧
    (∃ (p : Nat) (s : VideoSource), mapGet w.svc.sources (sourceIDOf config) = some p ∧
      w.heap[p]? = some s ∧
      (RemoveSource w (sourceIDOf config)).1.heap[p]? = some { s with isActive := false }) ∧
    mapGet (RemoveSource w (sourceIDOf config)).1.svc.sources (sourceIDOf config) = none ∧
    mapGet (RemoveSource w (sourceIDOf config)).1.svc.subscribers (sourceIDOf config) = none ∧
    (∀ k : String, k ≠ sourceIDOf config →
      mapGet (RemoveSource w (sourceIDOf config)).1.svc.sources k = mapGet w.svc.sources k ∧
      mapGet (RemoveSource w (sourceIDOf config)).1.svc.subscribers k =
        mapGet w.svc.subscribers k) := by
  have hok : (AddSource be (run be NewCameraService evs0) ctx config).2 =
      .ok (sourceIDOf config) := by rw [hadd]
  obtain ⟨hnew, hopen⟩ := AddSource_ok_inv be _ ctx config _ hok
  have hw1 : w1 = (AddSource be (run be NewCameraService evs0) ctx config).1 := by rw [hadd]
  have hinv1 : w1.Inv := by
    rw [hw1]
    exact AddSource_inv be _ ctx config (run_inv be evs0)
  have hinv : w.Inv := by
    rw [hw]
    exact run_inv_of be evs w1 hinv1
  have hsrc1 : mapGet w1.svc.sources (sourceIDOf config) =
      some (run be NewCameraService evs0).heap.length := by
    rw [hw1, AddSource_opened be _ ctx config hnew hopen]
    exact mapGet_mapSet_same _ _ _
  have hsub1 : mapGet w1.svc.subscribers (sourceIDOf config) = some [] := by
    rw [hw1, AddSource_opened be _ ctx config hnew hopen]
    exact mapGet_mapSet_same _ _ _
  obtain ⟨hsrc, hsub⟩ := subscribers_after_run be (sourceIDOf config) evs w1 _ [] hsrc1 hsub1 hrm
  rw [← hw, List.nil_append] at hsub
  rw [← hw] at hsrc
  obtain ⟨s, chans', hs, hc, heq⟩ := RemoveSource_registered w (sourceIDOf config) _ hinv hsrc
  simp only [hsub, Option.getD_some] at hc
  obtain ⟨hnd, hin, hout⟩ := closeAll_spec _ _ _ hc
  rw [heq]
  refine ⟨rfl, rfl, hsub, hc, ?_, hout, ⟨_, s, hsrc, hs, ?_⟩, mapGet_mapDelete_same _ _,
    mapGet_mapDelete_same _ _, ?_⟩
  · intro c hcm
    exact ⟨List.count_eq_one_of_mem hnd hcm, hin c hcm⟩
  · simp [getElem?_lt _ _ _ hs]
  · intro k hk
    exact ⟨mapGet_mapDelete_other _ _ _ hk, mapGet_mapDelete_other _ _ _ hk⟩

theorem RemoveSource_closes_each_once_witness :
    AddSource Backend.allOpen (run Backend.allOpen NewCameraService []) 0 clipConfig =
      (clipAdded, .ok (sourceIDOf clipConfig)) ∧
    Event.removeSource (sourceIDOf clipConfig) ∉ clipEvents ∧
    subscribed Backend.allOpen (sourceIDOf clipConfig) clipAdded clipEvents = [1, 2] ∧
    (RemoveSource (run Backend.allOpen clipAdded clipEvents) (sourceIDOf clipConfig)).2 =
      .ok () :=
  ⟨by decide, by decide, by decide,
    (RemoveSource_closes_each_once Backend.allOpen [] clipEvents 0 clipConfig clipAdded
      (run Backend.allOpen clipAdded clipEvents) (by decide) (by decide) rfl).1⟩

/-- C6: in every world the process reaches, `ListSources` is the registry as it
stands: its ids are the keys of the sources map, each once, and an info is
listed exactly when its id is registered and it is the `GetInfo` of the
registered object.  So right after a successful `AddSource(config)` the list
holds the entry with id `type_uri`, that type and that uri, and right after a
successful `RemoveSource(id)` it holds no entry with that id. -/
theorem ListSources_snapshot (be : Backend) (evs : List Event) (w : World)
    (hw : w = run be NewCameraService evs) :
    (ListSources w).map (fun info => info.ID) = w.svc.sources.map Prod.fst ∧
    ((ListSources w).map (fun info => info.ID)).Nodup ∧
    (ListSources w).length = w.svc.sources.length ∧
    (∀ info : SourceInfo, info ∈ ListSources w ↔
      ∃ (p : Nat) (s : VideoSource), mapGet w.svc.sources info.ID = some p ∧
        w.heap[p]? = some s ∧ info = s.GetInfo) ∧
    (∀ (ctx : Nat) (config : SourceConfig) (id : String),
      (AddSource be w ctx config).2 = .ok id →
      id = config.Typ ++ "_" ++ config.URI ∧
      { ID := config.Typ ++ "_" ++ config.URI, Typ := config.Typ, URI := config.URI,
        IsStreaming := true } ∈ ListSources (AddSource be w ctx config).1) ∧
    (∀ id : String, (RemoveSource w id).2 = .ok () →
      ∀ info : SourceInfo, info ∈ ListSources (RemoveSource w id).1 → info.ID ≠ id) := by
  have h : w.Inv := by
    rw [hw]
    exact run_inv be evs
  refine ⟨ListSources_ids w h, ?_, by simp [ListSources], ListSources_mem_iff w h, ?_, ?_⟩
  · rw [ListSources_ids w h]
    exact h.src_keys
  · intro ctx config id hok
    obtain ⟨hnew, hopen⟩ := AddSource_ok_inv be w ctx config id hok
    have hinv := AddSource_inv be w ctx config h
    refine ⟨?_, ?_⟩
    · rw [AddSource_opened be w ctx config hnew hopen] at hok
      injection hok with hok
      exact hok.symm
    · rw [ListSources_mem_iff _ hinv]
      refine ⟨w.heap.length, startedSource w config, ?_, ?_, rfl⟩
      · rw [AddSource_opened be w ctx config hnew hopen]
        exact mapGet_mapSet_same _ _ _
      · rw [AddSource_opened be w ctx config hnew hopen]
        simp
  · intro id hok info hm hid
    obtain ⟨p, hp⟩ := RemoveSource_ok_inv w id hok
    have hinv := RemoveSource_inv w id h
    obtain ⟨q, s, hq, _, _⟩ := (ListSources_mem_iff _ hinv info).1 hm
    obtain ⟨_, _, _, _, heq⟩ := RemoveSource_registered w id p h hp
    rw [heq, hid] at hq
    simp only [mapGet_mapDelete_same] at hq
    exact Option.noConfusion hq

theorem ListSources_snapshot_witness :
    run Backend.allOpen NewCameraService
        [.addSource 0 clipConfig, .addSource 0 webcamConfig,
         .removeSource "file_clip.mp4"] =
      run Backend.allOpen NewCameraService
        [.addSource 0 clipConfig, .addSource 0 webcamConfig,
         .removeSource "file_clip.mp4"] ∧
    ListSources (run Backend.allOpen NewCameraService
        [.addSource 0 clipConfig, .addSource 0 webcamConfig,
         .removeSource "file_clip.mp4"]) =
      [{ ID := "webcam_0", Typ := "webcam", URI := "0", IsStreaming := true }] ∧
    (ListSources (run Backend.allOpen NewCameraService
        [.addSource 0 clipConfig, .addSource 0 webcamConfig,
         .removeSource "file_clip.mp4"])).length =
      (run Backend.allOpen NewCameraService
        [.addSource 0 clipConfig, .addSource 0 webcamConfig,
         .removeSource "file_clip.mp4"]).svc.sources.length :=
  ⟨rfl, by decide,
    (ListSources_snapshot Backend.allOpen
      [.addSource 0 clipConfig, .addSource 0 webcamConfig, .removeSource "file_clip.mp4"]
      _ rfl).2.2.1⟩

/-- C7 fails on the code.  `RemoveSource` does not end the distributor of the
source it removes, and that distributor looks the subscriber list up by id.
After `readdEvents` nothing has panicked, channel 2 is the one subscriber of
the id, and the frames appended to it have the IDs 0, 0: first the frame of
the new source, then the frame of the removed one. -/
theorem stale_distributor_repeats_id :
    (run Backend.allOpen NewCameraService readdEvents).panicked = false ∧
    mapGet (run Backend.allOpen NewCameraService readdEvents).svc.subscribers
      "file_clip.mp4" = some [2] ∧
    ((run Backend.allOpen NewCameraService readdEvents).chans[2]?).map (fun ch => ch.sent) =
      some [{ ID := 0, Timestamp := 6, Data := [2], Source := "clip.mp4" },
            { ID := 0, Timestamp := 5, Data := [1], Source := "clip.mp4" }] ∧
    ¬ List.Pairwise (fun a b : Int => a < b)
      ((((run Backend.allOpen NewCameraService readdEvents).chans[2]?).map
        (fun ch => ch.sent.map (fun f => f.ID))).getD []) := by
  decide

/-- C8: one distribution step in a world the process reached.  A distributor
that holds a frame reads the subscriber list and runs its send loop without
interruption.  Then nothing panics, each subscriber channel that held fewer
than 100 frames has the frame appended at its tail, each that held 100 is
unchanged, so what happens to one subscriber is a function of its own channel
and the frame only, every other channel is untouched, and no channel, before
or after, holds more than 100 frames. -/
theorem distribution_step_isolated (be : Backend) (evs : List Event) (w w' : World)
    (d : Nat) (ds : Distributor) (fc : Nat) (f : FrameData) (subs : List Nat)
    (hw : w = run be NewCameraService evs) (hpan : w.panicked = false)
    (hd : w.distributors[d]? = some ds) (hst : ds.state = .gotFrame fc f)
    (hsubs : subs = (mapGet w.svc.subscribers ds.sourceID).getD [])
    (hw' : w' = run be w
      (.dist d .snapshot :: List.replicate (subs.length + 1) (.dist d .send))) :
    w'.panicked = false ∧
    w'.distributors[d]? = some { ds with state := .waiting fc } ∧
    (∀ c : Nat, c ∈ subs → ∃ ch : Chan, w.chans[c]? = some ch ∧
      w'.chans[c]? =
        some (if ch.len < 100 then { ch with sent := ch.sent ++ [f] } else ch)) ∧
    (∀ c : Nat, c ∉ subs → w'.chans[c]? = w.chans[c]?) ∧
    (∀ (c : Nat) (ch : Chan), w.chans[c]? = some ch → ch.len ≤ 100) ∧
    (∀ (c : Nat) (ch : Chan), w'.chans[c]? = some ch → ch.len ≤ 100) := by
  have hinv : w.Inv := by
    rw [hw]
    exact run_inv be evs
  have hlt := getElem?_lt _ _ _ hd
  have hnd : subs.Nodup := by
    rw [hsubs]
    cases hl : mapGet w.svc.subscribers ds.sourceID with
    | none => simp
    | some l => simpa using hinv.sub_nodup _ _ (mapGet_some_mem _ _ _ hl)
  have hop : ∀ c : Nat, c ∈ subs → ∃ ch : Chan, w.chans[c]? = some ch ∧ ch.closed = false := by
    intro c hc
    rw [hsubs] at hc
    exact hinv.sub_open _ _ (mapGet_getD_mem _ _ c hc) c hc
  have hrun : w' = run be
      { w with
          distributors := w.distributors.set d { ds with state := .sending fc f subs } }
      (List.replicate (subs.length + 1) (.dist d .send)) := by
    rw [hw', run_cons, step_dist be w d _ hpan, distributeFrames_snapshot w d ds fc f hd hst,
      ← hsubs]
  obtain ⟨h1, h2, h3, h4⟩ := send_loop be fc f d subs
    { w with distributors := w.distributors.set d { ds with state := .sending fc f subs } }
    { ds with state := .sending fc f subs } hpan (by simp [hlt]) rfl hnd hop
  rw [← hrun] at h1 h2 h3 h4
  have hinv' : w'.Inv := by
    rw [hw']
    exact run_inv_of be _ w hinv
  refine ⟨h1, h2, ?_, h4, fun c ch hc => (hinv.chan_cap c ch hc).2,
    fun c ch hc => (hinv'.chan_cap c ch hc).2⟩
  intro c hc
  obtain ⟨ch, hch, hres⟩ := h3 c hc
  have hcap : ch.cap = 100 := (hinv.chan_cap c ch hch).1
  have hcond : (ch.len < ch.cap) = (ch.len < 100) := by rw [hcap]
  simp only [hcond] at hres
  exact ⟨ch, hch, hres⟩

theorem distribution_step_isolated_witness :
    (run Backend.allOpen NewCameraService heldFrameEvents).panicked = false ∧
    (run Backend.allOpen NewCameraService heldFrameEvents).distributors[0]? =
      some { ctx := 0, sourceID := "file_clip.mp4",
             state := .gotFrame 0
               { ID := 0, Timestamp := 5, Data := [1], Source := "clip.mp4" } } ∧
    [1] = (mapGet (run Backend.allOpen NewCameraService heldFrameEvents).svc.subscribers
      "file_clip.mp4").getD [] ∧
    (run Backend.allOpen (run Backend.allOpen NewCameraService heldFrameEvents)
      (.dist 0 .snapshot :: List.replicate ([1].length + 1) (.dist 0 .send))).panicked =
      false :=
  ⟨by decide, by decide, by decide,
    (distribution_step_isolated Backend.allOpen heldFrameEvents
      (run Backend.allOpen NewCameraService heldFrameEvents) _ 0
      { ctx := 0, sourceID := "file_clip.mp4",
        state := .gotFrame 0 { ID := 0, Timestamp := 5, Data := [1], Source := "clip.mp4" } }
      0 { ID := 0, Timestamp := 5, Data := [1], Source := "clip.mp4" } [1]
      rfl (by decide) (by decide) rfl (by decide) rfl).1⟩

/-- C9, as the code has it: when a producer of a registered source terminates on
its own, by a cancelled context or by a failed read on a source that is not a
file, it closes its output channel and clears the active flag, and that is
all: both maps are as before, `ListSources` still lists the source, now with
`IsStreaming = false`, and every subscriber channel of the source is untouched
and still open. -/
theorem producer_exit_keeps_registry (be : Backend) (evs : List Event) (w : World)
    (t : Nat) (pr : Producer) (id : String) (now : Nat) (r : BackendRead)
    (hw : w = run be NewCameraService evs) (hpan : w.panicked = false)
    (ht : w.producers[t]? = some pr) (hrun : pr.done = false)
    (hreg : mapGet w.svc.sources id = some pr.src)
    (hstop : pr.ctx ∈ w.cancelled ∨
      (r = .readFail ∧ (w.deref pr.src).config.Typ ≠ "file")) :
    (step be w (.capture t now r)).panicked = false ∧
    (step be w (.capture t now r)).producers[t]? = some { pr with done := true } ∧
    (step be w (.capture t now r)).svc = w.svc ∧
    (∃ info : SourceInfo, info ∈ ListSources (step be w (.capture t now r)) ∧
      info.ID = id ∧ info.IsStreaming = false) ∧
    (∃ ch : Chan, w.chans[(w.deref pr.src).frames]? = some ch ∧ ch.closed = false ∧
      (step be w (.capture t now r)).chans[(w.deref pr.src).frames]? =
        some { ch with closed := true }) ∧
    (∀ c : Nat, c ∈ (mapGet w.svc.subscribers id).getD [] →
      ∃ ch : Chan, w.chans[c]? = some ch ∧ ch.closed = false ∧
        (step be w (.capture t now r)).chans[c]? = some ch) := by
  have hinv : w.Inv := by
    rw [hw]
    exact run_inv be evs
  have hinv' : (step be w (.capture t now r)).Inv := step_inv be w _ hinv
  obtain ⟨s, hs, hcap, hco⟩ := hinv.prod_valid t pr ht
  have hderef := World.deref_of_some w pr.src s hs
  have hco' := hco hrun
  obtain ⟨ch, hch, hcl⟩ := hinv.frames_open pr.src s hs hco'
  obtain ⟨s0, hs0, hid⟩ := hinv.src_valid id pr.src (mapGet_some_mem _ _ _ hreg)
  rw [hs] at hs0
  injection hs0 with hs0
  subst hs0
  have hstep : step be w (.capture t now r) =
      { w with
          producers := w.producers.set t { pr with done := true },
          chans := w.chans.set s.frames { ch with closed := true },
          heap := w.heap.set pr.src
            { s with closeOnce := true,
                     capture := s.capture.map (fun v => { v with closed := true }),
                     isActive := false } } := by
    have h1 : step be w (.capture t now r) = captureFrames w t now r := by
      simp [step, hpan]
    rw [h1, captureFrames_exits w t now r pr ht hrun (by rw [hderef]; exact hcap) hstop, hderef]
    simp [captureExit, hco', hch, Chan.close, hcl]
  rw [hstep] at hinv'
  rw [hstep, hderef]
  have htlt := getElem?_lt _ _ _ ht
  have hslt := getElem?_lt _ _ _ hs
  have hclt := getElem?_lt _ _ _ hch
  refine ⟨hpan, by simp [htlt], rfl, ?_, ⟨ch, hch, hcl, by simp [hclt]⟩, ?_⟩
  · refine ⟨VideoSource.GetInfo
        { s with closeOnce := true,
                 capture := s.capture.map (fun v => { v with closed := true }),
                 isActive := false },
      (ListSources_mem_iff _ hinv' _).2 ⟨pr.src, _, ?_, ?_, rfl⟩, hid, rfl⟩
    · show mapGet w.svc.sources (sourceIDOf s.config) = some pr.src
      rw [hid]
      exact hreg
    · simp [hslt]
  · intro c hc
    have hmem := mapGet_getD_mem _ _ c hc
    obtain ⟨ch2, hch2, hcl2⟩ := hinv.sub_open _ _ hmem c hc
    have hne : s.frames ≠ c := hinv.sub_not_frames _ _ hmem c hc pr.src s hs
    exact ⟨ch2, hch2, hcl2, by simp [hne, hch2]⟩

theorem producer_exit_keeps_registry_witness :
    (run Backend.allOpen NewCameraService webcamEvents).panicked = false ∧
    (run Backend.allOpen NewCameraService webcamEvents).producers[0]? =
      some { src := 0, ctx := 0, frameID := 0, done := false } ∧
    mapGet (run Backend.allOpen NewCameraService webcamEvents).svc.sources "webcam_0" =
      some 0 ∧
    ((run Backend.allOpen NewCameraService webcamEvents).deref 0).config.Typ ≠ "file" ∧
    (step Backend.allOpen (run Backend.allOpen NewCameraService webcamEvents)
      (.capture 0 5 .readFail)).svc =
      (run Backend.allOpen NewCameraService webcamEvents).svc :=
  ⟨by decide, by decide, by decide, by decide,
    (producer_exit_keeps_registry Backend.allOpen webcamEvents _ 0
      { src := 0, ctx := 0, frameID := 0, done := false } "webcam_0" 5 .readFail
      rfl (by decide) (by decide) rfl (by decide) (Or.inr ⟨rfl, by decide⟩)).2.2.1⟩

/-- C9 fails on the code: a webcam source is registered and has a subscriber,
its read fails, so its producer terminates, and its distributor sees the
closed output channel and returns.  Afterwards `ListSources` still holds the
source and the subscriber channel is still open. -/
theorem fatal_read_source_still_listed :
    (run Backend.allOpen NewCameraService
        (webcamEvents ++ [.capture 0 5 .readFail, .dist 0 .recv])).producers =
      [{ src := 0, ctx := 0, frameID := 0, done := true }] ∧
    (run Backend.allOpen NewCameraService
        (webcamEvents ++ [.capture 0 5 .readFail, .dist 0 .recv])).distributors =
      [{ ctx := 0, sourceID := "webcam_0", state := .done }] ∧
    ListSources (run Backend.allOpen NewCameraService
        (webcamEvents ++ [.capture 0 5 .readFail, .dist 0 .recv])) =
      [{ ID := "webcam_0", Typ := "webcam", URI := "0", IsStreaming := false }] ∧
    mapGet (run Backend.allOpen NewCameraService
        (webcamEvents ++ [.capture 0 5 .readFail, .dist 0 .recv])).svc.subscribers
      "webcam_0" = some [1] ∧
    (run Backend.allOpen NewCameraService
        (webcamEvents ++ [.capture 0 5 .readFail, .dist 0 .recv])).chans[1]? =
      some { cap := 100, sent := [], rcvd := 0, closed := false } := by
  decide

/-- C10 fails on the code.  The distributor reads the subscriber list under the
read lock and sends after releasing it.  When `RemoveSource` runs in between,
it returns `ok` and has closed channel 1, the distributor still has channel 1
to serve, and its send on the closed channel panics.  A distributor that starts
only after `RemoveSource` finds no source under its id and panics on the nil
source. -/
theorem distributor_sends_on_closed_channel :
    (run Backend.allOpen NewCameraService removeAfterSnapshot).panicked = false ∧
    (run Backend.allOpen NewCameraService removeAfterSnapshot).distributors =
      [{ ctx := 0, sourceID := "file_clip.mp4",
         state := .sending 0 { ID := 0, Timestamp := 5, Data := [1], Source := "clip.mp4" }
           [1] }] ∧
    (run Backend.allOpen NewCameraService removeAfterSnapshot).chans[1]? =
      some { cap := 100, sent := [], rcvd := 0, closed := true } ∧
    (step Backend.allOpen (run Backend.allOpen NewCameraService removeAfterSnapshot)
      (.dist 0 .send)).panicked = true ∧
    (run Backend.allOpen NewCameraService
      [.addSource 0 clipConfig, .removeSource "file_clip.mp4", .dist 0 .start]).panicked =
      true := by
  decide

/-- C11: in every world the process reaches, when a producer that is running
on an active source with a live context gets a failed read, then for a source
of type `file` the step changes the frame position of the capture to 0 and
nothing else, so no frame is emitted and the goroutine goes on; for every
other type the step is the cleanup: the goroutine is over, the output channel,
open until then, is closed, the capture, open until then, is released, and the
active flag is cleared.  The cleanup has not run before, and after any further
events the goroutine is still over and channel, capture and flag are as the
cleanup left them, so later turns of this goroutine change nothing. -/
theorem read_failure_policy (be : Backend) (evs : List Event) (w : World) (t : Nat)
    (pr : Producer) (s : VideoSource) (now : Nat)
    (hw : w = run be NewCameraService evs) (hpan : w.panicked = false)
    (ht : w.producers[t]? = some pr) (hrun : pr.done = false)
    (hs : w.heap[pr.src]? = some s) (hact : s.isActive = true)
    (hctx : pr.ctx ∉ w.cancelled) :
    ∃ (v : VideoCapture) (och : Chan), s.capture = some v ∧ v.closed = false ∧
      s.closeOnce = false ∧ w.chans[s.frames]? = some och ∧ och.closed = false ∧
      (s.config.Typ = "file" →
        step be w (.capture t now .readFail) =
          { w with
              heap := w.heap.set pr.src
                { s with capture := some { v with posFrames := 0 } } }) ∧
      (s.config.Typ ≠ "file" →
        step be w (.capture t now .readFail) = cleanedUp w t pr s v och ∧
        ∀ evs2 : List Event,
          Cleaned (run be (step be w (.capture t now .readFail)) evs2) t pr.src s.frames ∧
          ∀ (now2 : Nat) (r2 : BackendRead),
            step be (run be (step be w (.capture t now .readFail)) evs2)
                (.capture t now2 r2) =
              run be (step be w (.capture t now .readFail)) evs2) := by
  have hinv : w.Inv := by
    rw [hw]
    exact run_inv be evs
  have hopen : CapOpen w.heap := by
    rw [hw]
    exact run_capOpen be evs _ NewCameraService_inv NewCameraService_capOpen
  obtain ⟨s0, hs0, hcap, hco⟩ := hinv.prod_valid t pr ht
  rw [hs] at hs0
  injection hs0 with hs0
  subst hs0
  have hco' := hco hrun
  obtain ⟨och, hoch, hcl⟩ := hinv.frames_open pr.src s hs hco'
  obtain ⟨v, hv⟩ := Option.isSome_iff_exists.1 hcap
  have hvc := hopen pr.src s v hs hv hco'
  have hderef := World.deref_of_some w pr.src s hs
  have hstep : step be w (.capture t now .readFail) = captureFrames w t now .readFail := by
    simp [step, hpan]
  refine ⟨v, och, hv, hvc, hco', hoch, hcl, ?_, ?_⟩
  · intro hf
    rw [hstep]
    simp [captureFrames, ht, hrun, hderef, hact, hctx, hv, hf]
  · intro hf
    have hexit : step be w (.capture t now .readFail) = cleanedUp w t pr s v och := by
      rw [hstep, captureFrames_exits w t now .readFail pr ht hrun
        (by rw [hderef]; exact hcap) (Or.inr ⟨rfl, by rw [hderef]; exact hf⟩), hderef]
      exact captureExit_cleanedUp w t pr s v och hv hco' hoch hcl
    refine ⟨hexit, ?_⟩
    intro evs2
    have hinv1 : (step be w (.capture t now .readFail)).Inv := step_inv be w _ hinv
    have htlt := getElem?_lt _ _ _ ht
    have hslt := getElem?_lt _ _ _ hs
    have hclt := getElem?_lt _ _ _ hoch
    have hc1 : Cleaned (step be w (.capture t now .readFail)) t pr.src s.frames := by
      rw [hexit]
      refine ⟨⟨{ pr with done := true }, by simp [cleanedUp, htlt], rfl, rfl⟩,
        ⟨{ s with closeOnce := true, capture := some { v with closed := true },
                  isActive := false }, { v with closed := true },
          by simp [cleanedUp, hslt], rfl, rfl, rfl, rfl, rfl⟩,
        ⟨{ och with closed := true }, by simp [cleanedUp, hclt], rfl⟩⟩
    have hc2 := run_cleaned be evs2 t pr.src s.frames _ hinv1 hc1
    refine ⟨hc2, ?_⟩
    intro now2 r2
    obtain ⟨⟨pr2, ht2, hd2, _⟩, _, _⟩ := hc2
    generalize run be (step be w (.capture t now .readFail)) evs2 = w2 at ht2 ⊢
    unfold step
    split
    · rfl
    · simp [captureFrames, ht2, hd2]

theorem read_failure_policy_witness :
    (run Backend.allOpen NewCameraService webcamEvents).panicked = false ∧
    (run Backend.allOpen NewCameraService webcamEvents).producers[0]? =
      some { src := 0, ctx := 0, frameID := 0, done := false } ∧
    (run Backend.allOpen NewCameraService webcamEvents).heap[0]? =
      some { config := webcamConfig, capture := some { posFrames := 0, closed := false },
             isActive := true, frames := 0, closeOnce := false } ∧
    (0 : Nat) ∉ (run Backend.allOpen NewCameraService webcamEvents).cancelled ∧
    Cleaned (run Backend.allOpen
        (step Backend.allOpen (run Backend.allOpen NewCameraService webcamEvents)
          (.capture 0 5 .readFail)) [.dist 0 .recv]) 0 0 0 :=
  ⟨by decide, by decide, by decide, by decide,
    (read_failure_policy Backend.allOpen webcamEvents _ 0
      { src := 0, ctx := 0, frameID := 0, done := false }
      { config := webcamConfig, capture := some { posFrames := 0, closed := false },
        isActive := true, frames := 0, closeOnce := false } 5
      rfl (by decide) (by decide) rfl (by decide) rfl (by decide)).elim
      (fun _ h => h.elim (fun _ h => ((h.2.2.2.2.2.2 (by decide)).2 [.dist 0 .recv]).1))⟩

/-- C12: in every world the process reaches, the `frameID` of a producer is the
number of its reads so far that yielded a non-empty, successfully encoded
frame, as an `int64`, and the IDs on its output channel are the numbers, from
0, of those of these reads whose frame found room, in order; below `2 ^ 63`
such reads the `int64` is the number itself.  When the producer numbers a
frame, the frame gets the current `frameID`, the counter goes up by one, and
the frame is appended to the output channel unless the channel holds 100
frames, in which case the channel stays as it is.  An iteration with a failed
read, an empty frame or an encode failure leaves the counter and the frames of
the output channel as they are. -/
theorem frame_numbering (be : Backend) (evs : List Event) (w : World) (t : Nat)
    (pr : Producer) (s : VideoSource) (och : Chan)
    (hw : w = run be NewCameraService evs) (ht : w.producers[t]? = some pr)
    (hs : w.heap[pr.src]? = some s) (hoch : w.chans[s.frames]? = some och) :
    pr.frameID = wrapInt64 (frameReads be t NewCameraService evs).length ∧
    och.sent.map (fun f => f.ID) =
      (numbered 0 (frameReads be t NewCameraService evs)).map wrapInt64 ∧
    ((frameReads be t NewCameraService evs).length < 2 ^ 63 →
      pr.frameID = (frameReads be t NewCameraService evs).length ∧
      och.sent.map (fun f => f.ID) = numbered 0 (frameReads be t NewCameraService evs)) ∧
    (∀ (now : Nat) (data : List Nat) (b : Bool), sendOutcome w t = some b →
      (b = false ↔ och.len = 100) ∧
      (step be w (.capture t now (.frame data))).producers[t]? =
        some { pr with frameID := wrapInt64 (pr.frameID + 1) } ∧
      (step be w (.capture t now (.frame data))).chans[s.frames]? =
        some (if b = true then
          { och with
              sent := och.sent ++
                [{ ID := pr.frameID, Timestamp := now, Data := data,
                   Source := s.config.URI }] }
          else och)) ∧
    (∀ (now : Nat) (r : BackendRead), (∀ data : List Nat, r ≠ .frame data) →
      ∃ (pr2 : Producer) (och2 : Chan),
        (step be w (.capture t now r)).producers[t]? = some pr2 ∧
        pr2.frameID = pr.frameID ∧
        (step be w (.capture t now r)).chans[s.frames]? = some och2 ∧
        och2.sent = och.sent) := by
  have hinv : w.Inv := by
    rw [hw]
    exact run_inv be evs
  have hnum : w.Num (fun t => frameReads be t NewCameraService evs) := by
    rw [hw]
    exact (run_num be evs _ _ NewCameraService_inv NewCameraService_num).congr
      (fun t => by simp)
  have hcount := hnum.count t pr ht
  have hout := hnum.out t pr s och ht hs hoch
  have hderef := World.deref_of_some w pr.src s hs
  have htlt := getElem?_lt _ _ _ ht
  have hclt := getElem?_lt _ _ _ hoch
  refine ⟨hcount, hout, ?_, ?_, ?_⟩
  · intro hlt
    have hlt' : ((frameReads be t NewCameraService evs).length : Int) < 2 ^ 63 := by
      exact_mod_cast hlt
    rw [hcount, hout, wrapInt64_of_range _ (by omega) hlt',
      numbered_wrap _ (Nat.le_of_lt hlt)]
    exact ⟨rfl, rfl⟩
  · intro now data b hb
    obtain ⟨hpan, pr0, ht0, hd, ha, hx, hcap, hch⟩ := sendOutcome_some w t b hb
    rw [ht] at ht0
    injection ht0 with ht0
    subst ht0
    rw [hderef] at ha hcap hch
    obtain ⟨hcl, hbv⟩ := hch och hoch
    obtain ⟨v, hv⟩ := Option.isSome_iff_exists.1 hcap
    obtain ⟨hcapc, hlen⟩ := hinv.chan_cap _ och hoch
    have hstep : step be w (.capture t now (.frame data)) =
        captureFrames w t now (.frame data) := by
      simp [step, hpan]
    rw [hstep]
    by_cases hl : och.len < och.cap
    · have hb1 : b = true := by rw [hbv]; simpa using hl
      subst hb1
      refine ⟨?_, ?_, ?_⟩
      · simp only [bufferSize] at hcapc
        constructor
        · intro h0
          exact absurd h0 (by simp)
        · intro h0
          omega
      · simp [captureFrames, ht, hd, hderef, ha, hx, hv, hoch, Chan.trySend, hcl, hl, htlt]
      · simp [captureFrames, ht, hd, hderef, ha, hx, hv, hoch, Chan.trySend, hcl, hl, hclt]
    · have hb1 : b = false := by rw [hbv]; simpa using hl
      subst hb1
      refine ⟨?_, ?_, ?_⟩
      · simp only [bufferSize] at hcapc hlen
        constructor
        · intro _
          omega
        · intro _
          rfl
      · simp [captureFrames, ht, hd, hderef, ha, hx, hv, hoch, Chan.trySend, hcl, hl, htlt]
      · simp [captureFrames, ht, hd, hderef, ha, hx, hv, hoch, Chan.trySend, hcl, hl]
  · intro now r hr
    by_cases hpan : w.panicked = true
    · have e : step be w (.capture t now r) = w := by simp [step, hpan]
      rw [e]
      exact ⟨pr, och, ht, rfl, hoch, rfl⟩
    · have hstep : step be w (.capture t now r) = captureFrames w t now r := by
        simp [step, hpan]
      rw [hstep]
      rcases captureFrames_cases w t now r hinv with ⟨_, heq⟩ |
        ⟨pr0, s0, v, och0, ht0, hd, hs0, hv, hco, hoch0, hcl, hrun⟩
      · rw [heq]
        exact ⟨pr, och, ht, rfl, hoch, rfl⟩
      · rw [ht] at ht0
        injection ht0 with ht0
        subst ht0
        rw [hs] at hs0
        injection hs0 with hs0
        subst hs0
        rw [hoch] at hoch0
        injection hoch0 with hoch0
        subst hoch0
        rcases hrun with ⟨_, heq⟩ | ⟨_, _, _, v2, _, heq⟩ | ⟨_, _, data, hr2, _⟩
        · rw [heq]
          exact ⟨{ pr with done := true }, { och with closed := true },
            by simp [cleanedUp, htlt], rfl, by simp [cleanedUp, hclt], rfl⟩
        · rw [heq]
          exact ⟨pr, och, ht, rfl, hoch, rfl⟩
        · exact absurd hr2 (hr data)

theorem frame_numbering_witness :
    (run Backend.allOpen NewCameraService orderedEvents).producers[0]? =
      some { src := 0, ctx := 0, frameID := 2, done := false } ∧
    (run Backend.allOpen NewCameraService orderedEvents).heap[0]? =
      some { config := clipConfig, capture := some { posFrames := 2, closed := false },
             isActive := false, frames := 0, closeOnce := false } ∧
    (run Backend.allOpen NewCameraService orderedEvents).chans[0]? =
      some { cap := 100,
             sent := [{ ID := 0, Timestamp := 5, Data := [1], Source := "clip.mp4" },
                      { ID := 1, Timestamp := 6, Data := [2], Source := "clip.mp4" }],
             rcvd := 2, closed := false } ∧
    frameReads Backend.allOpen 0 NewCameraService orderedEvents = [true, true] ∧
    (2 : Int) = wrapInt64 (frameReads Backend.allOpen 0 NewCameraService orderedEvents).length :=
  ⟨by decide, by decide, by decide, by decide,
    (frame_numbering Backend.allOpen orderedEvents _ 0
      { src := 0, ctx := 0, frameID := 2, done := false }
      { config := clipConfig, capture := some { posFrames := 2, closed := false },
        isActive := false, frames := 0, closeOnce := false }
      { cap := 100,
        sent := [{ ID := 0, Timestamp := 5, Data := [1], Source := "clip.mp4" },
                 { ID := 1, Timestamp := 6, Data := [2], Source := "clip.mp4" }],
        rcvd := 2, closed := false }
      rfl (by decide) (by decide) (by decide)).1⟩

/-- C13: two configs of types among `file`, `webcam` and `ip_camera` with the same
derived id have the same type and the same URI; and in every world the process
reaches, `AddSource` of a config of such a type whose type or URI differs from
that of every source `ListSources` shows does not answer `alreadyExists`. -/
theorem sourceID_injective_on_supported :
    (∀ c1 c2 : SourceConfig, supportedType c1.Typ → supportedType c2.Typ →
      sourceIDOf c1 = sourceIDOf c2 → c1.Typ = c2.Typ ∧ c1.URI = c2.URI) ∧
    (∀ (be : Backend) (evs : List Event) (ctx : Nat) (config : SourceConfig),
      supportedType config.Typ →
      (∀ info : SourceInfo, info ∈ ListSources (run be NewCameraService evs) →
        info.Typ ≠ config.Typ ∨ info.URI ≠ config.URI) →
      ∀ id : String,
        (AddSource be (run be NewCameraService evs) ctx config).2 ≠
          .err (.alreadyExists id)) := by
  refine ⟨?_, ?_⟩
  · intro c1 c2 h1 h2 h
    rw [sourceIDOf_injective c1 c2 h1 h2 h]
    exact ⟨rfl, rfl⟩
  · intro be evs ctx config hsup hnew id hres
    have hinv : (run be NewCameraService evs).Inv := run_inv be evs
    have hreg := run_regSup be evs _ NewCameraService_inv NewCameraService_regSup
    obtain ⟨p, hp⟩ := AddSource_alreadyExists be _ ctx config id hres
    have hmem := mapGet_some_mem _ _ _ hp
    obtain ⟨s, hs, hid⟩ := hinv.src_valid _ p hmem
    have hsup' := hreg _ p s hmem hs
    have hcfg := sourceIDOf_injective s.config config hsup' hsup hid
    have hinfo : s.GetInfo ∈ ListSources (run be NewCameraService evs) := by
      refine (ListSources_mem_iff _ hinv _).2 ⟨p, s, ?_, hs, rfl⟩
      show mapGet _ (sourceIDOf s.config) = some p
      rw [hid]
      exact hp
    rcases hnew _ hinfo with h | h
    · exact h (by rw [← hcfg]; rfl)
    · exact h (by rw [← hcfg]; rfl)

theorem sourceID_injective_on_supported_witness :
    supportedType webcamConfig.Typ ∧
    (∀ info : SourceInfo, info ∈ ListSources (run Backend.allOpen NewCameraService clipOnly) →
      info.Typ ≠ webcamConfig.Typ ∨ info.URI ≠ webcamConfig.URI) ∧
    (AddSource Backend.allOpen (run Backend.allOpen NewCameraService clipOnly) 1
        webcamConfig).2 ≠ .err (.alreadyExists "webcam_0") :=
  ⟨by decide, by decide,
    sourceID_injective_on_supported.2 Backend.allOpen clipOnly 1 webcamConfig (by decide)
      (by decide) "webcam_0"⟩

end Camera
